import Mathlib

/-!
# AclPolicy: the policy codec and the get/set tool

A shallow embedding of `src/db.go` and `src/core.go`.

* Go strings and byte slices are sequences of Unicode code points (`Text`);
  byte strings that are not valid UTF-8 are outside the model.
* `encoding/json` is modelled at the level of its text grammar: a value tree
  `Json`, the scanner/unquoter (`parse`) and the writer (`render`), followed by
  the reflection-driven walk over the struct declarations of `db.go`.
* `net/netip` is a parameter (`PrefixCodec`): only the text codec of
  `netip.Prefix` is used by the program. Concrete inputs are evaluated with
  `cidr4`, the IPv4 part of that codec.
* The ORM and the file system are modelled by the effect the calls of
  `core.go` have on a table of rows, a map of files and standard output. The
  database may fail to open, in which case the program panics inside `OpenDB`.
-/

namespace AclPolicy

/-- Go `string` / `[]byte` contents. -/
abbrev Text := List Char

/-! ## JSON values -/

/-- A JSON value as `encoding/json` scans it. A number keeps its literal. -/
inductive Json where
  | null
  | bool (b : Bool)
  | num (lit : Text)
  | str (s : Text)
  | arr (xs : List Json)
  | obj (kvs : List (Text × Json))

instance : Inhabited Json := ⟨Json.null⟩

/-! ## Scanner: text to value (`checkValid` + `unquote`) -/

/-- The scanner's `isSpace`. -/
def isSpace (c : Char) : Bool :=
  c = ' ' || c = '\t' || c = '\r' || c = '\n'

/-- Skips insignificant white space. -/
def skipSpace : Text → Text
  | [] => []
  | c :: s => if isSpace c then skipSpace s else c :: s

/-- Value of one hexadecimal digit, either case. -/
def hexVal (c : Char) : Option Nat :=
  if 48 ≤ c.toNat ∧ c.toNat ≤ 57 then some (c.toNat - 48)
  else if 97 ≤ c.toNat ∧ c.toNat ≤ 102 then some (c.toNat - 87)
  else if 65 ≤ c.toNat ∧ c.toNat ≤ 70 then some (c.toNat - 55)
  else none

/-- The decoder's `getu4`: the code unit written by four hex digits. -/
def getu4 (a b c d : Char) : Option Nat :=
  match hexVal a, hexVal b, hexVal c, hexVal d with
  | some x, some y, some z, some w => some (((x * 16 + y) * 16 + z) * 16 + w)
  | _, _, _, _ => none

/-- Go `utf16.IsSurrogate`. -/
def isSurrogate (r : Nat) : Bool := 0xd800 ≤ r && r < 0xe000

/-- Go `unicode.ReplacementChar`. -/
def replacementChar : Char := Char.ofNat 0xfffd

/-- Go `utf16.DecodeRune` on a pair of code units; `none` stands for the
replacement character it returns for an invalid pair. -/
def decodeSurrogates (r1 r2 : Nat) : Option Char :=
  if 0xd800 ≤ r1 ∧ r1 < 0xdc00 ∧ 0xdc00 ≤ r2 ∧ r2 < 0xe000 then
    some (Char.ofNat ((r1 - 0xd800) * 1024 + (r2 - 0xdc00) + 0x10000))
  else none

/-- The character written by a one-letter escape. -/
def simpleEscape (e : Char) : Option Char :=
  if e = '"' then some '"'
  else if e = '\\' then some '\\'
  else if e = '/' then some '/'
  else if e = 'b' then some (Char.ofNat 8)
  else if e = 'f' then some (Char.ofNat 12)
  else if e = 'n' then some '\n'
  else if e = 'r' then some '\r'
  else if e = 't' then some '\t'
  else none

/-- Puts a decoded character in front of the rest of a string literal. -/
def withHead (c : Char) (r : Option (Text × Text)) : Option (Text × Text) :=
  r.map (fun p => (c :: p.1, p.2))

/-- Emits the replacement character for a pending unpaired surrogate. -/
def flushPending (pend : Option Nat) (r : Option (Text × Text)) : Option (Text × Text) :=
  match pend with
  | none => r
  | some _ => withHead replacementChar r

/-- Reads a string literal whose opening quote has been consumed: returns the
unquoted contents and the input after the closing quote. `pend` is a
surrogate code unit read from the preceding `\u` escape and not yet paired:
the unquoter pairs it with a directly following `\u` escape when the two form
a valid pair and replaces it by U+FFFD otherwise. -/
def lexString : Option Nat → Text → Option (Text × Text)
  | _, [] => none
  | pend, c :: s =>
    if c = '"' then flushPending pend (some ([], s))
    else if c = '\\' then
      match s with
      | [] => none
      | e :: s1 =>
        if e = 'u' then
          match s1 with
          | a :: b :: x :: y :: s2 =>
            match getu4 a b x y with
            | none => none
            | some r =>
              match pend.bind (fun r1 => decodeSurrogates r1 r) with
              | some ch => withHead ch (lexString none s2)
              | none =>
                flushPending pend
                  (if isSurrogate r then lexString (some r) s2
                   else withHead (Char.ofNat r) (lexString none s2))
          | _ => none
        else
          match simpleEscape e with
          | some ch => flushPending pend (withHead ch (lexString none s1))
          | none => none
    else if c.toNat < 0x20 then none
    else flushPending pend (withHead c (lexString none s))

/-- Decimal digit test. -/
def isDigit (c : Char) : Bool := 48 ≤ c.toNat && c.toNat ≤ 57

/-- The integer part of a number (after an optional minus sign). -/
def lexInt : Text → Option (Text × Text)
  | [] => none
  | c :: s =>
    if c = '0' then some ([c], s)
    else if isDigit c then some (c :: (s.span isDigit).1, (s.span isDigit).2)
    else none

/-- The optional fraction of a number. -/
def lexFrac : Text → Option (Text × Text)
  | '.' :: s =>
    match s.span isDigit with
    | ([], _) => none
    | (ds, r) => some ('.' :: ds, r)
  | s => some ([], s)

/-- The optional exponent of a number. -/
def lexExp : Text → Option (Text × Text)
  | [] => some ([], [])
  | c :: s =>
    if c = 'e' ∨ c = 'E' then
      match s with
      | [] => none
      | g :: s1 =>
        if g = '+' ∨ g = '-' then
          match s1.span isDigit with
          | ([], _) => none
          | (ds, r) => some (c :: g :: ds, r)
        else
          match (g :: s1).span isDigit with
          | ([], _) => none
          | (ds, r) => some (c :: ds, r)
    else some ([], c :: s)

/-- A number literal: returns the literal and the remaining input. -/
def lexNumber (s : Text) : Option (Text × Text) :=
  let body (sign : Text) (s : Text) : Option (Text × Text) :=
    match lexInt s with
    | none => none
    | some (i, r1) =>
      match lexFrac r1 with
      | none => none
      | some (f, r2) =>
        match lexExp r2 with
        | none => none
        | some (e, r3) => some (sign ++ i ++ f ++ e, r3)
  match s with
  | '-' :: r => body ['-'] r
  | _ => body [] s

/-- Removes a literal word from the front of the input. -/
def dropLit : Text → Text → Option Text
  | [], s => some s
  | _ :: _, [] => none
  | a :: w, c :: s => if a = c then dropLit w s else none

/-- The scanner's `maxNestingDepth`. -/
def maxNestingDepth : Nat := 10000

mutual
/-- Reads one value. `fuel` bounds the recursion, `depth` counts the open
arrays and objects. -/
def parseValue : Nat → Nat → Text → Option (Json × Text)
  | 0, _, _ => none
  | fuel + 1, depth, s =>
    match s with
    | [] => none
    | c :: r =>
      if c = '{' then
        if maxNestingDepth ≤ depth then none
        else
          match skipSpace r with
          | [] => none
          | c1 :: r1 =>
            if c1 = '}' then some (Json.obj [], r1)
            else
              match parseMembers fuel (depth + 1) (c1 :: r1) with
              | some (kvs, r2) => some (Json.obj kvs, r2)
              | none => none
      else if c = '[' then
        if maxNestingDepth ≤ depth then none
        else
          match skipSpace r with
          | [] => none
          | c1 :: r1 =>
            if c1 = ']' then some (Json.arr [], r1)
            else
              match parseElems fuel (depth + 1) (c1 :: r1) with
              | some (xs, r2) => some (Json.arr xs, r2)
              | none => none
      else if c = '"' then
        match lexString none r with
        | some (t, r1) => some (Json.str t, r1)
        | none => none
      else if c = 't' then (dropLit ['r', 'u', 'e'] r).map (fun r1 => (Json.bool true, r1))
      else if c = 'f' then
        (dropLit ['a', 'l', 's', 'e'] r).map (fun r1 => (Json.bool false, r1))
      else if c = 'n' then (dropLit ['u', 'l', 'l'] r).map (fun r1 => (Json.null, r1))
      else
        match lexNumber (c :: r) with
        | some (l, r1) => some (Json.num l, r1)
        | none => none
/-- Reads the elements of a non-empty array up to its closing bracket; the
input starts at the first element. -/
def parseElems : Nat → Nat → Text → Option (List Json × Text)
  | 0, _, _ => none
  | fuel + 1, depth, s =>
    match parseValue fuel depth s with
    | none => none
    | some (x, r) =>
      match skipSpace r with
      | [] => none
      | c :: r1 =>
        if c = ',' then
          match parseElems fuel depth (skipSpace r1) with
          | some (xs, r2) => some (x :: xs, r2)
          | none => none
        else if c = ']' then some ([x], r1)
        else none
/-- Reads the members of a non-empty object up to its closing brace; the
input starts at the first key. -/
def parseMembers : Nat → Nat → Text → Option (List (Text × Json) × Text)
  | 0, _, _ => none
  | fuel + 1, depth, s =>
    match s with
    | [] => none
    | q :: r =>
      if q = '"' then
        match lexString none r with
        | none => none
        | some (k, r1) =>
          match skipSpace r1 with
          | [] => none
          | c :: r2 =>
            if c = ':' then
              match parseValue fuel depth (skipSpace r2) with
              | none => none
              | some (v, r3) =>
                match skipSpace r3 with
                | [] => none
                | c1 :: r4 =>
                  if c1 = ',' then
                    match parseMembers fuel depth (skipSpace r4) with
                    | some (kvs, r5) => some ((k, v) :: kvs, r5)
                    | none => none
                  else if c1 = '}' then some ([(k, v)], r4)
                  else none
            else none
      else none
end

/-- The whole input as one JSON value (`checkValid`): white space, a value,
white space, end of input. `none` is a syntax error. -/
def parse (data : Text) : Option Json :=
  match parseValue (data.length + 1) 0 (skipSpace data) with
  | some (j, rest) => if skipSpace rest = [] then some j else none
  | none => none

/-! ## Writer: value to text (`encodeState`, `Indent`) -/

/-- One lower-case hexadecimal digit. -/
def hexDigit (n : Nat) : Char :=
  if n < 10 then Char.ofNat (48 + n) else Char.ofNat (87 + n)

/-- How the encoder writes one character of a string (HTML escaping on, as
in `json.Marshal`). Control characters without a short form are written
`\u00XX`, as the Go releases up to 1.21 do for all of them; later releases
write `\b` and `\f` for two of them, which the scanner reads alike. -/
def escapeChar (c : Char) : Text :=
  if c = '"' ∨ c = '\\' then ['\\', c]
  else if c = '\n' then ['\\', 'n']
  else if c = '\r' then ['\\', 'r']
  else if c = '\t' then ['\\', 't']
  else if c.toNat < 0x20 ∨ c = '<' ∨ c = '>' ∨ c = '&' then
    ['\\', 'u', '0', '0', hexDigit (c.toNat / 16), hexDigit (c.toNat % 16)]
  else if c.toNat = 0x2028 ∨ c.toNat = 0x2029 then
    ['\\', 'u', '2', '0', '2', hexDigit (c.toNat % 16)]
  else [c]

/-- The escaped contents of a string. -/
def escape : Text → Text
  | [] => []
  | c :: s => escapeChar c ++ escape s

/-- A quoted string literal. -/
def quote (s : Text) : Text := '"' :: (escape s ++ ['"'])

/-- The line break `Indent` inserts at nesting level `d` (prefix `""`, indent
of two spaces); nothing in compact output. -/
def newline (ind : Bool) (d : Nat) : Text :=
  if ind then '\n' :: List.replicate (2 * d) ' ' else []

/-- What follows the colon of a member. -/
def colonGap (ind : Bool) : Text := if ind then [' '] else []

mutual
/-- The text of a value: compact (`ind = false`, `json.Marshal`) or indented
(`ind = true`, `json.MarshalIndent` with prefix `""` and indent `"  "`), at
nesting level `d`. -/
def render (ind : Bool) (d : Nat) : Json → Text
  | .null => ['n', 'u', 'l', 'l']
  | .bool b => if b then ['t', 'r', 'u', 'e'] else ['f', 'a', 'l', 's', 'e']
  | .num l => l
  | .str s => quote s
  | .arr xs => '[' :: renderElems ind d xs
  | .obj kvs => '{' :: renderMembers ind d kvs
/-- The elements of an array and its closing bracket. -/
def renderElems (ind : Bool) (d : Nat) : List Json → Text
  | [] => [']']
  | x :: xs => newline ind (d + 1) ++ (render ind (d + 1) x ++ renderElemsTail ind d xs)
/-- The elements after the first, each behind its comma. -/
def renderElemsTail (ind : Bool) (d : Nat) : List Json → Text
  | [] => newline ind d ++ [']']
  | x :: xs =>
    ',' :: (newline ind (d + 1) ++ (render ind (d + 1) x ++ renderElemsTail ind d xs))
/-- The members of an object and its closing brace. -/
def renderMembers (ind : Bool) (d : Nat) : List (Text × Json) → Text
  | [] => ['}']
  | (k, v) :: kvs =>
    newline ind (d + 1) ++
      (quote k ++ (':' :: (colonGap ind ++ (render ind (d + 1) v ++ renderMembersTail ind d kvs))))
/-- The members after the first, each behind its comma. -/
def renderMembersTail (ind : Bool) (d : Nat) : List (Text × Json) → Text
  | [] => newline ind d ++ ['}']
  | (k, v) :: kvs =>
    ',' :: (newline ind (d + 1) ++
      (quote k ++ (':' :: (colonGap ind ++ (render ind (d + 1) v ++ renderMembersTail ind d kvs)))))
end

/-! ## Go values: maps and slices -/

/-- Go's `<` on strings (byte-wise on UTF-8, which is code-point order). -/
def keyLt : Text → Text → Bool
  | [], [] => false
  | [], _ :: _ => true
  | _ :: _, [] => false
  | a :: s, b :: t => decide (a.toNat < b.toNat) || (decide (a = b) && keyLt s t)

/-- Entries listed by strictly increasing key. -/
def KeysSorted {V : Type} (l : List (Text × V)) : Prop :=
  List.Pairwise (fun a b => keyLt a.1 b.1 = true) l

/-- Sets key `k` to `v` in a key-ordered entry list. -/
def insertEntry {V : Type} (k : Text) (v : V) : List (Text × V) → List (Text × V)
  | [] => [(k, v)]
  | (k1, v1) :: t =>
    if keyLt k k1 then (k, v) :: (k1, v1) :: t
    else if k = k1 then (k, v) :: t
    else (k1, v1) :: insertEntry k v t

theorem keyLt_irrefl : ∀ a : Text, keyLt a a = false
  | [] => rfl
  | c :: s => by simp [keyLt, keyLt_irrefl s]

theorem char_toNat_inj {a b : Char} (h : a.toNat = b.toNat) : a = b := by
  rw [← Char.ofNat_toNat a, ← Char.ofNat_toNat b, h]

theorem keyLt_trans : ∀ a b c : Text, keyLt a b = true → keyLt b c = true → keyLt a c = true
  | [], [], _, h, _ => by simp [keyLt] at h
  | [], _ :: _, [], _, h => by simp [keyLt] at h
  | [], _ :: _, _ :: _, _, _ => by simp [keyLt]
  | _ :: _, [], _, h, _ => by simp [keyLt] at h
  | _ :: _, _ :: _, [], _, h => by simp [keyLt] at h
  | x :: s, y :: t, z :: u, h1, h2 => by
    simp only [keyLt, Bool.or_eq_true, Bool.and_eq_true, decide_eq_true_eq] at h1 h2 ⊢
    rcases h1 with h1 | ⟨rfl, h1⟩
    · rcases h2 with h2 | ⟨rfl, _⟩
      · left; omega
      · left; exact h1
    · rcases h2 with h2 | ⟨rfl, h2⟩
      · left; exact h2
      · right; exact ⟨rfl, keyLt_trans s t u h1 h2⟩

theorem keyLt_total : ∀ a b : Text, keyLt a b = false → a ≠ b → keyLt b a = true
  | [], [], _, h => absurd rfl h
  | [], _ :: _, h, _ => by simp [keyLt] at h
  | _ :: _, [], _, _ => by simp [keyLt]
  | x :: s, y :: t, h, hne => by
    simp only [keyLt, Bool.or_eq_false_iff, Bool.and_eq_false_imp, decide_eq_false_iff_not,
      decide_eq_true_eq, Bool.or_eq_true, Bool.and_eq_true] at h ⊢
    by_cases hxy : x = y
    · subst hxy
      right
      refine ⟨rfl, keyLt_total s t (h.2 rfl) ?_⟩
      intro hst; exact hne (by rw [hst])
    · left
      have : x.toNat ≠ y.toNat := fun he => hxy (char_toNat_inj he)
      omega

theorem keyLt_asymm (a b : Text) (h : keyLt a b = true) : keyLt b a = false := by
  by_contra hc
  have hba : keyLt b a = true := by simpa using hc
  have := keyLt_trans a b a h hba
  rw [keyLt_irrefl] at this
  exact Bool.noConfusion this

theorem keyLt_ne (a b : Text) (h : keyLt a b = true) : a ≠ b := by
  rintro rfl
  rw [keyLt_irrefl] at h
  exact Bool.noConfusion h

theorem mem_insertEntry {V : Type} (k : Text) (v : V) :
    ∀ (l : List (Text × V)) (x : Text × V), x ∈ insertEntry k v l → x = (k, v) ∨ x ∈ l
  | [], x, h => by simp [insertEntry] at h; exact Or.inl h
  | (k1, v1) :: t, x, h => by
    unfold insertEntry at h
    split_ifs at h with h1 h2
    · simp only [List.mem_cons] at h ⊢
      tauto
    · simp only [List.mem_cons] at h ⊢
      tauto
    · simp only [List.mem_cons] at h ⊢
      rcases h with h | h
      · tauto
      · have := mem_insertEntry k v t x h
        tauto

theorem insertEntry_sorted {V : Type} (k : Text) (v : V) :
    ∀ l : List (Text × V), KeysSorted l → KeysSorted (insertEntry k v l)
  | [], _ => by simp [insertEntry, KeysSorted]
  | (k1, v1) :: t, h => by
    unfold KeysSorted at h ⊢
    rw [List.pairwise_cons] at h
    unfold insertEntry
    split_ifs with h1 h2
    · refine List.pairwise_cons.2 ⟨?_, List.pairwise_cons.2 h⟩
      intro x hx
      rcases List.mem_cons.1 hx with rfl | hx
      · exact h1
      · exact keyLt_trans _ _ _ h1 (h.1 x hx)
    · subst h2
      exact List.pairwise_cons.2 ⟨h.1, h.2⟩
    · refine List.pairwise_cons.2 ⟨?_, insertEntry_sorted k v t h.2⟩
      intro x hx
      rcases mem_insertEntry k v t x hx with rfl | hx
      · exact keyLt_total _ _ (by simpa using h1) h2
      · exact h.1 x hx

/-- A Go `map[string]V` that is not nil: its entries, listed in key order
(the order in which the encoder writes them). -/
structure GoMap (V : Type) where
  entries : List (Text × V)
  sorted : KeysSorted entries

/-- The empty map made by `reflect.MakeMap`. -/
def GoMap.empty {V : Type} : GoMap V := ⟨[], List.Pairwise.nil⟩

/-- Go `m[k] = v`. -/
def GoMap.insert {V : Type} (m : GoMap V) (k : Text) (v : V) : GoMap V :=
  ⟨insertEntry k v m.entries, insertEntry_sorted k v m.entries m.sorted⟩

/-- A Go slice that is not nil: the elements up to its length and the cells
of its backing array beyond the length, which `json.Unmarshal` exposes again
when it re-extends the slice. Cells beyond `spare` hold the zero value. -/
structure Slice (α : Type) where
  elems : List α
  spare : List α

/-- The elements of a slice; a nil slice has none. -/
def elemsOf {α : Type} : Option (Slice α) → List α
  | none => []
  | some sl => sl.elems

/-- Everything `Unmarshal` can find in the backing array of a slice. -/
def poolOf {α : Type} : Option (Slice α) → List α
  | none => []
  | some sl => sl.elems ++ sl.spare

/-! ## net/netip -/

/-- The part of `net/netip` the program reaches: the text codec of
`netip.Prefix` (`MarshalText`, `UnmarshalText`) and its zero value. -/
structure PrefixCodec (P : Type) where
  zero : P
  MarshalText : P → Text
  UnmarshalText : Text → Option P

/-! ## The policy (`db.go`, lines 38-87) -/

/-- Go `[]string`; `none` is the nil slice. -/
abbrev Strings := Option (Slice Text)

/-- Groups references a series of alias in the ACL rules: `map[string][]string`. -/
abbrev Groups := Option (GoMap Strings)

/-- Hosts are alias for IP addresses or subnets: `map[string]netip.Prefix`. -/
abbrev Hosts (P : Type) := Option (GoMap P)

/-- TagOwners: `map[string][]string`. -/
abbrev TagOwners := Option (GoMap Strings)

/-- ACL is a basic rule for the ACL Policy. -/
structure ACL where
  Action : Text
  Protocol : Text
  Sources : Strings
  Destinations : Strings

/-- ACLTest: a rule check declaration. -/
structure ACLTest where
  Source : Text
  Accept : Strings
  Deny : Strings

/-- AutoApprovers: routes and exit nodes enabled automatically. -/
structure AutoApprovers where
  Routes : Option (GoMap Strings)
  ExitNode : Strings

/-- SSH controls who can ssh into which machines. -/
structure SSH where
  Action : Text
  Sources : Strings
  Destinations : Strings
  Users : Strings
  CheckPeriod : Text

/-- ACLPolicy represents a Tailscale ACL Policy. -/
structure ACLPolicy (P : Type) where
  Groups : AclPolicy.Groups
  Hosts : AclPolicy.Hosts P
  TagOwners : AclPolicy.TagOwners
  ACLs : Option (Slice ACL)
  Tests : Option (Slice ACLTest)
  AutoApprovers : AclPolicy.AutoApprovers
  SSHs : Option (Slice SSH)

/-- The zero `ACL`. -/
def ACL.zero : ACL := ⟨[], [], none, none⟩

/-- The zero `ACLTest`. -/
def ACLTest.zero : ACLTest := ⟨[], none, none⟩

/-- The zero `AutoApprovers`. -/
def AutoApprovers.zero : AutoApprovers := ⟨none, none⟩

/-- The zero `SSH`. -/
def SSH.zero : SSH := ⟨[], none, none, none, []⟩

/-- The zero policy, `ACLPolicy{}`. -/
def ACLPolicy.zero {P : Type} : ACLPolicy P :=
  ⟨none, none, none, none, none, AutoApprovers.zero, none⟩

/-! ## Encoding (`json.Marshal` over the struct tags) -/

/-- A `[]string`: `null` when nil. -/
def encStrings : Strings → Json
  | none => Json.null
  | some sl => Json.arr (sl.elems.map Json.str)

/-- A `map[string][]string`: `null` when nil, members in key order. -/
def encStringsMap : Option (GoMap Strings) → Json
  | none => Json.null
  | some m => Json.obj (m.entries.map (fun kv => (kv.1, encStrings kv.2)))

/-- The hosts map; a prefix is written as the string `MarshalText` gives. -/
def encHosts {P : Type} (nc : PrefixCodec P) : Hosts P → Json
  | none => Json.null
  | some m => Json.obj (m.entries.map (fun kv => (kv.1, Json.str (nc.MarshalText kv.2))))

/-- A slice of structs: `null` when nil. -/
def encSlice {α : Type} (enc : α → Json) : Option (Slice α) → Json
  | none => Json.null
  | some sl => Json.arr (sl.elems.map enc)

/-- Tags `action`, `proto`, `src`, `dst`. -/
def encACL (a : ACL) : Json :=
  Json.obj [("action".toList, Json.str a.Action), ("proto".toList, Json.str a.Protocol),
    ("src".toList, encStrings a.Sources), ("dst".toList, encStrings a.Destinations)]

/-- Tags `src`, `accept`, `deny,omitempty`. -/
def encACLTest (t : ACLTest) : Json :=
  Json.obj ([("src".toList, Json.str t.Source), ("accept".toList, encStrings t.Accept)] ++
    (if (elemsOf t.Deny).isEmpty then [] else [("deny".toList, encStrings t.Deny)]))

/-- Tags `routes`, `exitNode`. -/
def encAutoApprovers (a : AutoApprovers) : Json :=
  Json.obj [("routes".toList, encStringsMap a.Routes), ("exitNode".toList, encStrings a.ExitNode)]

/-- Tags `action`, `src`, `dst`, `users`, `checkPeriod,omitempty`. -/
def encSSH (s : SSH) : Json :=
  Json.obj ([("action".toList, Json.str s.Action), ("src".toList, encStrings s.Sources),
    ("dst".toList, encStrings s.Destinations), ("users".toList, encStrings s.Users)] ++
    (if s.CheckPeriod.isEmpty then [] else [("checkPeriod".toList, Json.str s.CheckPeriod)]))

/-- Tags `groups`, `hosts`, `tagOwners`, `acls`, `tests`, `autoApprovers`, `ssh`. -/
def encACLPolicy {P : Type} (nc : PrefixCodec P) (a : ACLPolicy P) : Json :=
  Json.obj [("groups".toList, encStringsMap a.Groups), ("hosts".toList, encHosts nc a.Hosts),
    ("tagOwners".toList, encStringsMap a.TagOwners), ("acls".toList, encSlice encACL a.ACLs),
    ("tests".toList, encSlice encACLTest a.Tests),
    ("autoApprovers".toList, encAutoApprovers a.AutoApprovers),
    ("ssh".toList, encSlice encSSH a.SSHs)]

/-- `json.Marshal(a)` for a policy value; it never fails on this type. -/
def Marshal {P : Type} (nc : PrefixCodec P) (a : ACLPolicy P) : Text :=
  render false 0 (encACLPolicy nc a)

/-- `json.MarshalIndent(acl, "", "  ")` for a `*ACLPolicy`; `none` is the nil
pointer, written `null`. -/
def MarshalIndent {P : Type} (nc : PrefixCodec P) (acl : Option (ACLPolicy P)) : Text :=
  match acl with
  | none => render true 0 Json.null
  | some a => render true 0 (encACLPolicy nc a)

/-! ## Decoding (`json.Unmarshal` over the struct tags) -/

/-- Errors of the codec. -/
inductive Err where
  /-- `*json.SyntaxError`: the text is not one JSON value. -/
  | invalidJson
  /-- `*json.UnmarshalTypeError`, with its `Value` (the kind of JSON value
  that did not fit the Go type). -/
  | typeMismatch (value : String)
  /-- The error of `netip.Prefix.UnmarshalText` on the given text. -/
  | prefixText (text : Text)
  /-- `Scan`: "unexpected data type" with the `%T` of the value. -/
  | unexpectedDataType (goType : String)
  deriving DecidableEq

/-- The `Value` field of an `UnmarshalTypeError`. -/
def Json.kind : Json → String
  | .null => "null"
  | .bool _ => "bool"
  | .num _ => "number"
  | .str _ => "string"
  | .arr _ => "array"
  | .obj _ => "object"

/-- The decoder's `saveError`: the first error is kept. -/
def firstErr (saved new : Option Err) : Option Err :=
  match saved with
  | some e => some e
  | none => new

/-- Case folding of one character of a key, as far as it can matter for the
ASCII field names of this program: letters to upper case, U+017F to `S`,
U+212A to `K`; any other character stays outside ASCII or unchanged. -/
def foldRune (c : Char) : Char :=
  if 97 ≤ c.toNat ∧ c.toNat ≤ 122 then Char.ofNat (c.toNat - 32)
  else if c.toNat = 0x17f then 'S'
  else if c.toNat = 0x212a then 'K'
  else c

/-- The decoder's `foldName`. -/
def foldName (s : Text) : Text := s.map foldRune

/-- Index of the first name satisfying `p`. -/
def indexWhere (p : Text → Bool) : List Text → Option Nat
  | [] => none
  | n :: ns => if p n then some 0 else (indexWhere p ns).map (fun i => i + 1)

/-- The struct field a JSON key selects: the field of that exact name, else
the first field whose name equals the key under case folding. -/
def fieldIndex (names : List Text) (key : Text) : Option Nat :=
  match indexWhere (fun n => decide (n = key)) names with
  | some i => some i
  | none => indexWhere (fun n => decide (foldName n = foldName key)) names

/-- A JSON value into a Go `string`: a string is stored, `null` leaves the
current value, anything else is a type error. -/
def decodeString (cur : Text) (j : Json) : Text × Option Err :=
  match j with
  | .str s => (s, none)
  | .null => (cur, none)
  | _ => (cur, some (Err.typeMismatch j.kind))

/-- The elements of a JSON array, the i-th decoded into the i-th cell of the
backing array (`pool`), or into a zero cell past its end. -/
def decodeElems {α : Type} (zero : α) (dec : α → Json → α × Option Err) :
    List α → List Json → List α × Option Err
  | _, [] => ([], none)
  | pool, j :: js =>
    ((dec (pool.headD zero) j).1 :: (decodeElems zero dec pool.tail js).1,
      firstErr (dec (pool.headD zero) j).2 (decodeElems zero dec pool.tail js).2)

/-- A JSON value into a Go slice: an array is decoded element by element into
the existing cells and the slice cut to the array's length (an empty array gives
a fresh empty slice), `null` gives nil, anything else is a type error. -/
def decodeSlice {α : Type} (zero : α) (dec : α → Json → α × Option Err)
    (cur : Option (Slice α)) (j : Json) : Option (Slice α) × Option Err :=
  match j with
  | .arr [] => (some ⟨[], []⟩, none)
  | .arr js =>
    (some ⟨(decodeElems zero dec (poolOf cur) js).1, (poolOf cur).drop js.length⟩,
      (decodeElems zero dec (poolOf cur) js).2)
  | .null => (none, none)
  | _ => (cur, some (Err.typeMismatch j.kind))

/-- A JSON value into a `[]string`. -/
def decodeStrings (cur : Strings) (j : Json) : Strings × Option Err :=
  decodeSlice [] decodeString cur j

/-- The members of a JSON object into a map: each value is decoded into a
zero element, which is then stored under the key. -/
def decodeMapEntries {V : Type} (zero : V) (dec : V → Json → V × Option Err) :
    List (Text × Json) → GoMap V → Option Err → GoMap V × Option Err
  | [], m, e => (m, e)
  | kv :: rest, m, e =>
    decodeMapEntries zero dec rest (m.insert kv.1 (dec zero kv.2).1) (firstErr e (dec zero kv.2).2)

/-- A JSON value into a Go map with string keys: an object is merged into the
map (made when nil), `null` gives nil, anything else is a type error. -/
def decodeMap {V : Type} (zero : V) (dec : V → Json → V × Option Err)
    (cur : Option (GoMap V)) (j : Json) : Option (GoMap V) × Option Err :=
  match j with
  | .obj kvs =>
    (some (decodeMapEntries zero dec kvs (cur.getD GoMap.empty) none).1,
      (decodeMapEntries zero dec kvs (cur.getD GoMap.empty) none).2)
  | .null => (none, none)
  | _ => (cur, some (Err.typeMismatch j.kind))

/-- A JSON value into a `map[string][]string`. -/
def decodeStringsMap (cur : Option (GoMap Strings)) (j : Json) :
    Option (GoMap Strings) × Option Err :=
  decodeMap none decodeStrings cur j

/-- The outcome of decoding into the hosts map: the map, the first saved type
error, and the error of `UnmarshalText` that stopped the decoder, if any. -/
structure HostsResult (P : Type) where
  val : Hosts P
  saved : Option Err
  abort : Option Err

/-- The members of the `hosts` object. A string goes through
`netip.Prefix.UnmarshalText`, whose error stops the whole decode at once; `null`
stores the zero prefix; any other value is a saved type error and stores
the zero prefix. -/
def decodeHostEntries {P : Type} (nc : PrefixCodec P) :
    List (Text × Json) → GoMap P → Option Err → HostsResult P
  | [], m, e => ⟨some m, e, none⟩
  | kv :: rest, m, e =>
    match kv.2 with
    | .str s =>
      match nc.UnmarshalText s with
      | some p => decodeHostEntries nc rest (m.insert kv.1 p) e
      | none => ⟨some m, e, some (Err.prefixText s)⟩
    | .null => decodeHostEntries nc rest (m.insert kv.1 nc.zero) e
    | j => decodeHostEntries nc rest (m.insert kv.1 nc.zero)
        (firstErr e (some (Err.typeMismatch j.kind)))

/-- A JSON value into the hosts map. -/
def decodeHosts {P : Type} (nc : PrefixCodec P) (cur : Hosts P) (j : Json) : HostsResult P :=
  match j with
  | .obj kvs => decodeHostEntries nc kvs (cur.getD GoMap.empty) none
  | .null => ⟨none, none, none⟩
  | _ => ⟨cur, some (Err.typeMismatch j.kind), none⟩

/-- The JSON names of the fields of `ACL`, in declaration order. -/
def aclFields : List Text := ["action".toList, "proto".toList, "src".toList, "dst".toList]

/-- One member of a JSON object into an `ACL`. -/
def stepACL (acc : ACL × Option Err) (kv : Text × Json) : ACL × Option Err :=
  match fieldIndex aclFields kv.1 with
  | some 0 =>
    ({ acc.1 with Action := (decodeString acc.1.Action kv.2).1 },
      firstErr acc.2 (decodeString acc.1.Action kv.2).2)
  | some 1 =>
    ({ acc.1 with Protocol := (decodeString acc.1.Protocol kv.2).1 },
      firstErr acc.2 (decodeString acc.1.Protocol kv.2).2)
  | some 2 =>
    ({ acc.1 with Sources := (decodeStrings acc.1.Sources kv.2).1 },
      firstErr acc.2 (decodeStrings acc.1.Sources kv.2).2)
  | some 3 =>
    ({ acc.1 with Destinations := (decodeStrings acc.1.Destinations kv.2).1 },
      firstErr acc.2 (decodeStrings acc.1.Destinations kv.2).2)
  | _ => acc

/-- A JSON value into an `ACL`: an object sets the fields its keys select
(other keys are skipped), `null` changes nothing, anything else is a type
error. -/
def decodeACL (cur : ACL) (j : Json) : ACL × Option Err :=
  match j with
  | .obj kvs => kvs.foldl stepACL (cur, none)
  | .null => (cur, none)
  | _ => (cur, some (Err.typeMismatch j.kind))

/-- The JSON names of the fields of `ACLTest`. -/
def aclTestFields : List Text := ["src".toList, "accept".toList, "deny".toList]

/-- One member of a JSON object into an `ACLTest`. -/
def stepACLTest (acc : ACLTest × Option Err) (kv : Text × Json) : ACLTest × Option Err :=
  match fieldIndex aclTestFields kv.1 with
  | some 0 =>
    ({ acc.1 with Source := (decodeString acc.1.Source kv.2).1 },
      firstErr acc.2 (decodeString acc.1.Source kv.2).2)
  | some 1 =>
    ({ acc.1 with Accept := (decodeStrings acc.1.Accept kv.2).1 },
      firstErr acc.2 (decodeStrings acc.1.Accept kv.2).2)
  | some 2 =>
    ({ acc.1 with Deny := (decodeStrings acc.1.Deny kv.2).1 },
      firstErr acc.2 (decodeStrings acc.1.Deny kv.2).2)
  | _ => acc

/-- A JSON value into an `ACLTest`. -/
def decodeACLTest (cur : ACLTest) (j : Json) : ACLTest × Option Err :=
  match j with
  | .obj kvs => kvs.foldl stepACLTest (cur, none)
  | .null => (cur, none)
  | _ => (cur, some (Err.typeMismatch j.kind))

/-- The JSON names of the fields of `AutoApprovers`. -/
def autoApproversFields : List Text := ["routes".toList, "exitNode".toList]

/-- One member of a JSON object into an `AutoApprovers`. -/
def stepAutoApprovers (acc : AutoApprovers × Option Err) (kv : Text × Json) :
    AutoApprovers × Option Err :=
  match fieldIndex autoApproversFields kv.1 with
  | some 0 =>
    ({ acc.1 with Routes := (decodeStringsMap acc.1.Routes kv.2).1 },
      firstErr acc.2 (decodeStringsMap acc.1.Routes kv.2).2)
  | some 1 =>
    ({ acc.1 with ExitNode := (decodeStrings acc.1.ExitNode kv.2).1 },
      firstErr acc.2 (decodeStrings acc.1.ExitNode kv.2).2)
  | _ => acc

/-- A JSON value into an `AutoApprovers`. -/
def decodeAutoApprovers (cur : AutoApprovers) (j : Json) : AutoApprovers × Option Err :=
  match j with
  | .obj kvs => kvs.foldl stepAutoApprovers (cur, none)
  | .null => (cur, none)
  | _ => (cur, some (Err.typeMismatch j.kind))

/-- The JSON names of the fields of `SSH`. -/
def sshFields : List Text :=
  ["action".toList, "src".toList, "dst".toList, "users".toList, "checkPeriod".toList]

/-- One member of a JSON object into an `SSH`. -/
def stepSSH (acc : SSH × Option Err) (kv : Text × Json) : SSH × Option Err :=
  match fieldIndex sshFields kv.1 with
  | some 0 =>
    ({ acc.1 with Action := (decodeString acc.1.Action kv.2).1 },
      firstErr acc.2 (decodeString acc.1.Action kv.2).2)
  | some 1 =>
    ({ acc.1 with Sources := (decodeStrings acc.1.Sources kv.2).1 },
      firstErr acc.2 (decodeStrings acc.1.Sources kv.2).2)
  | some 2 =>
    ({ acc.1 with Destinations := (decodeStrings acc.1.Destinations kv.2).1 },
      firstErr acc.2 (decodeStrings acc.1.Destinations kv.2).2)
  | some 3 =>
    ({ acc.1 with Users := (decodeStrings acc.1.Users kv.2).1 },
      firstErr acc.2 (decodeStrings acc.1.Users kv.2).2)
  | some 4 =>
    ({ acc.1 with CheckPeriod := (decodeString acc.1.CheckPeriod kv.2).1 },
      firstErr acc.2 (decodeString acc.1.CheckPeriod kv.2).2)
  | _ => acc

/-- A JSON value into an `SSH`. -/
def decodeSSH (cur : SSH) (j : Json) : SSH × Option Err :=
  match j with
  | .obj kvs => kvs.foldl stepSSH (cur, none)
  | .null => (cur, none)
  | _ => (cur, some (Err.typeMismatch j.kind))

/-- The JSON names of the fields of `ACLPolicy`, in declaration order. -/
def policyFields : List Text :=
  ["groups".toList, "hosts".toList, "tagOwners".toList, "acls".toList, "tests".toList,
    "autoApprovers".toList, "ssh".toList]

/-- The decoder while it walks the top-level object: the policy so far, the
first saved type error, and the error that stopped it, if any. -/
structure DecodeState (P : Type) where
  val : ACLPolicy P
  saved : Option Err
  abort : Option Err

/-- One member of the top-level object into the policy. Nothing is read
once the decoder has stopped. -/
def stepPolicy {P : Type} (nc : PrefixCodec P) (st : DecodeState P) (kv : Text × Json) :
    DecodeState P :=
  if st.abort.isSome then st
  else
    match fieldIndex policyFields kv.1 with
    | some 0 =>
      ⟨{ st.val with Groups := (decodeStringsMap st.val.Groups kv.2).1 },
        firstErr st.saved (decodeStringsMap st.val.Groups kv.2).2, none⟩
    | some 1 =>
      ⟨{ st.val with Hosts := (decodeHosts nc st.val.Hosts kv.2).val },
        firstErr st.saved (decodeHosts nc st.val.Hosts kv.2).saved,
        (decodeHosts nc st.val.Hosts kv.2).abort⟩
    | some 2 =>
      ⟨{ st.val with TagOwners := (decodeStringsMap st.val.TagOwners kv.2).1 },
        firstErr st.saved (decodeStringsMap st.val.TagOwners kv.2).2, none⟩
    | some 3 =>
      ⟨{ st.val with ACLs := (decodeSlice ACL.zero decodeACL st.val.ACLs kv.2).1 },
        firstErr st.saved (decodeSlice ACL.zero decodeACL st.val.ACLs kv.2).2, none⟩
    | some 4 =>
      ⟨{ st.val with Tests := (decodeSlice ACLTest.zero decodeACLTest st.val.Tests kv.2).1 },
        firstErr st.saved (decodeSlice ACLTest.zero decodeACLTest st.val.Tests kv.2).2, none⟩
    | some 5 =>
      ⟨{ st.val with AutoApprovers := (decodeAutoApprovers st.val.AutoApprovers kv.2).1 },
        firstErr st.saved (decodeAutoApprovers st.val.AutoApprovers kv.2).2, none⟩
    | some 6 =>
      ⟨{ st.val with SSHs := (decodeSlice SSH.zero decodeSSH st.val.SSHs kv.2).1 },
        firstErr st.saved (decodeSlice SSH.zero decodeSSH st.val.SSHs kv.2).2, none⟩
    | _ => st

/-- A JSON value into an `ACLPolicy`. -/
def decodePolicy {P : Type} (nc : PrefixCodec P) (cur : ACLPolicy P) (j : Json) :
    DecodeState P :=
  match j with
  | .obj kvs => kvs.foldl (stepPolicy nc) ⟨cur, none, none⟩
  | .null => ⟨cur, none, none⟩
  | _ => ⟨cur, some (Err.typeMismatch j.kind), none⟩

/-- `json.Unmarshal(data, v)` for `v : *ACLPolicy`: the policy `v` points to
afterwards and the error returned. A syntax error leaves `v` untouched; the
error that stopped the decoder is returned in preference to a saved type
error. -/
def Unmarshal {P : Type} (nc : PrefixCodec P) (data : Text) (v : ACLPolicy P) :
    ACLPolicy P × Option Err :=
  match parse data with
  | none => (v, some Err.invalidJson)
  | some j =>
    ((decodePolicy nc v j).val, firstErr (decodePolicy nc v j).abort (decodePolicy nc v j).saved)

/-! ## The storage boundary (`db.go`, lines 150-169) -/

/-- A `driver.Value`: what the database driver hands to `Scan` and accepts
from `Value`. -/
inductive DriverValue where
  | null
  | int64 (i : Int)
  | float64 (bits : Nat)
  | bool (b : Bool)
  | bytes (value : Text)
  | str (value : Text)
  | time (t : Nat)
  deriving DecidableEq

/-- The `%T` of a driver value. -/
def DriverValue.goType : DriverValue → String
  | .null => "<nil>"
  | .int64 _ => "int64"
  | .float64 _ => "float64"
  | .bool _ => "bool"
  | .bytes _ => "[]uint8"
  | .str _ => "string"
  | .time _ => "time.Time"

/-- `func (a *ACLPolicy) Scan(destination interface{}) error`: the policy
behind the receiver afterwards and the error returned. -/
def ACLPolicy.Scan {P : Type} (nc : PrefixCodec P) (a : ACLPolicy P)
    (destination : DriverValue) : ACLPolicy P × Option Err :=
  match destination with
  | .bytes value => Unmarshal nc value a
  | .str value => Unmarshal nc value a
  | _ => (a, some (Err.unexpectedDataType destination.goType))

/-- `func (a ACLPolicy) Value() (driver.Value, error)`. -/
def ACLPolicy.Value {P : Type} (nc : PrefixCodec P) (a : ACLPolicy P) :
    DriverValue × Option Err :=
  (DriverValue.str (Marshal nc a), none)

/-! ## Files (`db.go`, lines 127-148 and 170-186) -/

/-- What `os.Open` followed by `io.ReadAll` gives for a path. -/
inductive ReadOutcome where
  | openError (msg : String)
  | readError (msg : String)
  | contents (body : Text)
  deriving DecidableEq

/-- The file system as the program meets it. `create` is the error of
`os.OpenFile(path, O_CREATE|O_RDWR|O_TRUNC, 0666)`, `none` when the file
opens. -/
structure FileSystem where
  read : Text → ReadOutcome
  create : Text → Option String

/-- Errors returned by `LoadConfig`. -/
inductive LoadError where
  /-- The error of `os.Open`. -/
  | openError (msg : String)
  /-- The error of `io.ReadAll`. -/
  | readError (msg : String)
  /-- `errors.Join(errors.New("Unmarshal Config Failed"), err)`. -/
  | unmarshalFailed (err : Err)
  deriving DecidableEq

/-- `func LoadConfig(path string) (*ACLPolicy, error)`. -/
def LoadConfig {P : Type} (nc : PrefixCodec P) (fs : FileSystem) (path : Text) :
    Except LoadError (ACLPolicy P) :=
  match fs.read path with
  | .openError msg => Except.error (LoadError.openError msg)
  | .readError msg => Except.error (LoadError.readError msg)
  | .contents body =>
    match (Unmarshal nc body ACLPolicy.zero).2 with
    | some err => Except.error (LoadError.unmarshalFailed err)
    | none => Except.ok (Unmarshal nc body ACLPolicy.zero).1

/-- `func ReWriteFile(path string, text string) error`: the file system
afterwards and the error returned. Once the file is open the writes are
taken to succeed. -/
def ReWriteFile (fs : FileSystem) (path : Text) (text : Text) : FileSystem × Option String :=
  match fs.create path with
  | some err => (fs, some err)
  | none =>
    ({ fs with read := fun q => if q = path then ReadOutcome.contents text else fs.read q },
      none)

/-! ## The database (`db.go`, lines 21-36 and 89-125) -/

/-- A stored row of the Organization table: its key and the policy column,
as the driver holds it. The other columns are not tracked. -/
structure OrganizationRow where
  ID : Int
  AclPolicy : DriverValue
  deriving DecidableEq

/-- The `Organization` struct in memory, as far as `core.go` uses it:
its `AclPolicy *ACLPolicy`. -/
structure Organization (P : Type) where
  AclPolicy : Option (ACLPolicy P)

/-- An operation sent to the database. -/
inductive DbOp where
  /-- `gorm.Open(sqlite.Open(dsn), ...)`. -/
  | connect (dsn : Text)
  /-- `db.Exec(sql)`. -/
  | exec (sql : String)
  /-- `SELECT acl_policy ... LIMIT 1` (`Take`). -/
  | take
  /-- `UPDATE organizations SET acl_policy = ? WHERE 1=1`. -/
  | update (value : DriverValue)
  deriving DecidableEq

/-- Errors of a query. -/
inductive DbError where
  /-- `gorm.ErrRecordNotFound`. -/
  | recordNotFound
  /-- The error of `Scan` on the column. -/
  | scan (err : Err)
  deriving DecidableEq

/-- One thing written to standard output by `fmt.Println`: a text, or the
message of an error value, each followed by a line break. -/
inductive Printed where
  | line (text : Text)
  | error (err : LoadError)
  deriving DecidableEq

/-- The flags of the command line. -/
structure Flags where
  Action : Text
  FilePath : Text
  WriteTo : Bool

/-- The flag defaults of `main`: `-a get -f policy.json -w=false`. -/
def Flags.default : Flags := ⟨"get".toList, "policy.json".toList, false⟩

/-- Everything the program reads and changes. `GetAppDirectory` is what the
function of that name returns (the directory of the running executable),
`join` is `filepath.Join`. `db` is the database as `gorm.Open` finds it:
`some rows` when it opens, `rows` being the rows of its Organization table, and
`none` when it does not open. `panicked` tells whether the last run of the
program ended in a panic instead of returning from `main`. -/
structure World where
  GetAppDirectory : Text
  join : Text → Text → Text
  fs : FileSystem
  db : Option (List OrganizationRow)
  dbLog : List DbOp
  stdout : List Printed
  panicked : Bool

/-- The rows of the Organization table the program can reach; there are none
when the database does not open. -/
def World.rows (w : World) : List OrganizationRow :=
  match w.db with
  | some rs => rs
  | none => []

/-- `func GetFilePath(filename string) string`. -/
def GetFilePath (w : World) (filename : Text) : Text :=
  w.join w.GetAppDirectory filename

/-- `func (dp *DataPool) OpenDB() error`: opens the database file with
`_synchronous=1&_journal_mode=WAL` and turns foreign keys on. The error of
`gorm.Open` is looked at only after the handle has been used (`db.Exec`,
`db.DB()`, `sqlDB.SetMaxIdleConns`): when the database does not open, that
use panics, so `OpenDB` never returns and nothing reaches a database. -/
def OpenDB (w : World) : World :=
  match w.db with
  | some _ =>
    { w with
      dbLog := w.dbLog ++
        [DbOp.connect
            (GetFilePath w "db.sqlite".toList ++ "?_synchronous=1&_journal_mode=WAL".toList),
          DbOp.exec "PRAGMA foreign_keys=ON"],
      panicked := false }
  | none =>
    { w with
      dbLog := w.dbLog ++
        [DbOp.connect
            (GetFilePath w "db.sqlite".toList ++ "?_synchronous=1&_journal_mode=WAL".toList)],
      panicked := true }

/-- `db.Model(&Organization{}).Select("AclPolicy").Take(&org)` on the rows:
the filled `org` and the error of the query. With no row `org` stays zero;
a NULL column gives a nil `AclPolicy`; any other column value is scanned
into a fresh `ACLPolicy`. -/
def Take {P : Type} (nc : PrefixCodec P) (rows : List OrganizationRow) :
    Organization P × Option DbError :=
  match rows with
  | [] => (⟨none⟩, some DbError.recordNotFound)
  | r :: _ =>
    match r.AclPolicy with
    | .null => (⟨none⟩, none)
    | v => (⟨some (ACLPolicy.Scan nc ACLPolicy.zero v).1⟩,
        (ACLPolicy.Scan nc ACLPolicy.zero v).2.map DbError.scan)

/-- The column value `Updates` writes for `org.AclPolicy`. -/
def columnValue {P : Type} (nc : PrefixCodec P) (org : Organization P) : DriverValue :=
  match org.AclPolicy with
  | none => DriverValue.null
  | some acl => (ACLPolicy.Value nc acl).1

/-- `db.Where("1=1").Select("AclPolicy").Updates(org)` on the rows. -/
def Updates {P : Type} (nc : PrefixCodec P) (org : Organization P)
    (rows : List OrganizationRow) : List OrganizationRow :=
  rows.map (fun r => { r with AclPolicy := columnValue nc org })

/-! ## The tool (`core.go`) -/

/-- `func main()`, after `flag.Parse()`. A panic inside `OpenDB` ends the
run before the action is looked at. As in the source, the errors of `OpenDB`,
`Take`, `MarshalIndent`, `ReWriteFile` and `Updates` are dropped; only the error
of `LoadConfig` is looked at. `InitDB` is never called. -/
def main {P : Type} (nc : PrefixCodec P) (flags : Flags) (w0 : World) : World :=
  let w := OpenDB w0
  if w.panicked then w
  else if flags.Action = "get".toList then
    let acl := (Take nc w.rows).1.AclPolicy
    let jsonBytes := MarshalIndent nc acl
    let w1 := { w with dbLog := w.dbLog ++ [DbOp.take],
                       stdout := w.stdout ++ [Printed.line jsonBytes] }
    if flags.WriteTo then
      { w1 with fs := (ReWriteFile w1.fs (GetFilePath w1 flags.FilePath) jsonBytes).1 }
    else w1
  else if flags.Action = "set".toList then
    match LoadConfig nc w.fs (GetFilePath w flags.FilePath) with
    | Except.error err => { w with stdout := w.stdout ++ [Printed.error err] }
    | Except.ok acl =>
      { w with dbLog := w.dbLog ++ [DbOp.update (columnValue nc ⟨some acl⟩)],
               db := some (Updates nc ⟨some acl⟩ w.rows) }
  else w

/-! ## Deep equality and the shape of a decoded policy -/

/-- The entries of a map; a nil map has none. -/
def entriesOf {V : Type} : Option (GoMap V) → List (Text × V)
  | none => []
  | some m => m.entries

theorem keysSorted_map {V W : Type} (f : V → W) (l : List (Text × V)) (h : KeysSorted l) :
    KeysSorted (l.map (fun kv => (kv.1, f kv.2))) := by
  unfold KeysSorted at h ⊢
  rw [List.pairwise_map]
  exact h

/-- The same keys with `f` applied to every value. -/
def GoMap.mapValues {V W : Type} (f : V → W) (m : GoMap V) : GoMap W :=
  ⟨m.entries.map (fun kv => (kv.1, f kv.2)), keysSorted_map f m.entries m.sorted⟩

/-- A `[]string` with nil made empty and the spare cells forgotten. -/
def normStrings (s : Strings) : Strings := some ⟨elemsOf s, []⟩

/-- A map with nil made empty and every value normalised by `f`. -/
def normMap {V : Type} (f : V → V) (m : Option (GoMap V)) : Option (GoMap V) :=
  some ⟨(entriesOf m).map (fun kv => (kv.1, f kv.2)),
    keysSorted_map f (entriesOf m) (by cases m with
      | none => exact List.Pairwise.nil
      | some m => exact m.sorted)⟩

/-- A slice with nil made empty, every element normalised by `f` and the spare
cells forgotten. -/
def normSlice {α : Type} (f : α → α) (s : Option (Slice α)) : Option (Slice α) :=
  some ⟨(elemsOf s).map f, []⟩

/-- An `ACL` with its collections normalised. -/
def normACL (a : ACL) : ACL :=
  ⟨a.Action, a.Protocol, normStrings a.Sources, normStrings a.Destinations⟩

/-- An `ACLTest` with its collections normalised. -/
def normACLTest (t : ACLTest) : ACLTest :=
  ⟨t.Source, normStrings t.Accept, normStrings t.Deny⟩

/-- An `AutoApprovers` with its collections normalised. -/
def normAutoApprovers (a : AutoApprovers) : AutoApprovers :=
  ⟨normMap normStrings a.Routes, normStrings a.ExitNode⟩

/-- An `SSH` with its collections normalised. -/
def normSSH (s : SSH) : SSH :=
  ⟨s.Action, normStrings s.Sources, normStrings s.Destinations, normStrings s.Users,
    s.CheckPeriod⟩

/-- A policy with every absent (nil) collection made empty, at every level. -/
def normalize {P : Type} (p : ACLPolicy P) : ACLPolicy P :=
  ⟨normMap normStrings p.Groups, normMap id p.Hosts, normMap normStrings p.TagOwners,
    normSlice normACL p.ACLs, normSlice normACLTest p.Tests,
    normAutoApprovers p.AutoApprovers, normSlice normSSH p.SSHs⟩

/-- Field-for-field equality of two policies in which an absent collection and
an empty one count as equal. -/
def ACLPolicy.DeepEq {P : Type} (a b : ACLPolicy P) : Prop := normalize a = normalize b

/-- Every prefix stored under `hosts` is one `netip` reads back from its own
text (as valid prefixes and the zero prefix are). -/
def HostsStable {P : Type} (nc : PrefixCodec P) (p : ACLPolicy P) : Prop :=
  ∀ kv ∈ entriesOf p.Hosts, nc.UnmarshalText (nc.MarshalText kv.2) = some kv.2

/-- What decoding the encoding of a `[]string` gives: nil stays nil, the
spare cells are gone. -/
def canonStrings : Strings → Strings
  | none => none
  | some sl => some ⟨sl.elems, []⟩

/-- What decoding the encoding of a slice gives. -/
def canonSlice {α : Type} (f : α → α) : Option (Slice α) → Option (Slice α)
  | none => none
  | some sl => some ⟨sl.elems.map f, []⟩

/-- What decoding the encoding of a map gives. -/
def canonMap {V : Type} (f : V → V) : Option (GoMap V) → Option (GoMap V)
  | none => none
  | some m => some (m.mapValues f)

/-- What decoding the encoding of an `ACL` gives. -/
def canonACL (a : ACL) : ACL :=
  ⟨a.Action, a.Protocol, canonStrings a.Sources, canonStrings a.Destinations⟩

/-- What decoding the encoding of an `ACLTest` gives: an empty `deny` list is
omitted from the text and comes back nil. -/
def canonACLTest (t : ACLTest) : ACLTest :=
  ⟨t.Source, canonStrings t.Accept,
    if (elemsOf t.Deny).isEmpty then none else canonStrings t.Deny⟩

/-- What decoding the encoding of an `AutoApprovers` gives. -/
def canonAutoApprovers (a : AutoApprovers) : AutoApprovers :=
  ⟨canonMap canonStrings a.Routes, canonStrings a.ExitNode⟩

/-- What decoding the encoding of an `SSH` gives. -/
def canonSSH (s : SSH) : SSH :=
  ⟨s.Action, canonStrings s.Sources, canonStrings s.Destinations, canonStrings s.Users,
    s.CheckPeriod⟩

/-- What decoding the encoding of a policy gives. -/
def canon {P : Type} (p : ACLPolicy P) : ACLPolicy P :=
  ⟨canonMap canonStrings p.Groups, canonMap id p.Hosts, canonMap canonStrings p.TagOwners,
    canonSlice canonACL p.ACLs, canonSlice canonACLTest p.Tests,
    canonAutoApprovers p.AutoApprovers, canonSlice canonSSH p.SSHs⟩

/-! ## Values that fit the Go types -/

/-- A JSON value a Go `string` takes without error. -/
def fitsString : Json → Bool
  | .str _ => true
  | .null => true
  | _ => false

/-- A JSON value a slice takes without error, `f` judging the elements. -/
def fitsSliceOf (f : Json → Bool) : Json → Bool
  | .arr js => js.all f
  | .null => true
  | _ => false

/-- A JSON value a `[]string` takes without error. -/
def fitsStrings (j : Json) : Bool := fitsSliceOf fitsString j

/-- A JSON value a `map[string][]string` takes without error. -/
def fitsStringsMap : Json → Bool
  | .obj kvs => kvs.all (fun kv => fitsStrings kv.2)
  | .null => true
  | _ => false

/-- A value under `hosts` that fits: CIDR text `netip` accepts, or `null`. -/
def fitsHostValue {P : Type} (nc : PrefixCodec P) : Json → Bool
  | .str s => (nc.UnmarshalText s).isSome
  | .null => true
  | _ => false

/-- A JSON value the hosts map takes without error. -/
def fitsHosts {P : Type} (nc : PrefixCodec P) : Json → Bool
  | .obj kvs => kvs.all (fun kv => fitsHostValue nc kv.2)
  | .null => true
  | _ => false

/-- A member of an object read into an `ACL` that fits the field it selects. -/
def fitsACLMember (kv : Text × Json) : Bool :=
  match fieldIndex aclFields kv.1 with
  | some 0 => fitsString kv.2
  | some 1 => fitsString kv.2
  | some 2 => fitsStrings kv.2
  | some 3 => fitsStrings kv.2
  | _ => true

/-- A JSON value an `ACL` takes without error. -/
def fitsACL : Json → Bool
  | .obj kvs => kvs.all fitsACLMember
  | .null => true
  | _ => false

/-- A member of an object read into an `ACLTest` that fits its field. -/
def fitsACLTestMember (kv : Text × Json) : Bool :=
  match fieldIndex aclTestFields kv.1 with
  | some 0 => fitsString kv.2
  | some 1 => fitsStrings kv.2
  | some 2 => fitsStrings kv.2
  | _ => true

/-- A JSON value an `ACLTest` takes without error. -/
def fitsACLTest : Json → Bool
  | .obj kvs => kvs.all fitsACLTestMember
  | .null => true
  | _ => false

/-- A member of an object read into an `AutoApprovers` that fits its field. -/
def fitsAutoApproversMember (kv : Text × Json) : Bool :=
  match fieldIndex autoApproversFields kv.1 with
  | some 0 => fitsStringsMap kv.2
  | some 1 => fitsStrings kv.2
  | _ => true

/-- A JSON value an `AutoApprovers` takes without error. -/
def fitsAutoApprovers : Json → Bool
  | .obj kvs => kvs.all fitsAutoApproversMember
  | .null => true
  | _ => false

/-- A member of an object read into an `SSH` that fits its field. -/
def fitsSSHMember (kv : Text × Json) : Bool :=
  match fieldIndex sshFields kv.1 with
  | some 0 => fitsString kv.2
  | some 1 => fitsStrings kv.2
  | some 2 => fitsStrings kv.2
  | some 3 => fitsStrings kv.2
  | some 4 => fitsString kv.2
  | _ => true

/-- A JSON value an `SSH` takes without error. -/
def fitsSSH : Json → Bool
  | .obj kvs => kvs.all fitsSSHMember
  | .null => true
  | _ => false

/-- A JSON value that fits the `i`-th field of `ACLPolicy` (in the order of
`policyFields`): it has the type of the field, at every level, and under
`hosts` every string is CIDR text `netip` accepts. -/
def fitsField {P : Type} (nc : PrefixCodec P) (i : Nat) (j : Json) : Bool :=
  match i with
  | 0 => fitsStringsMap j
  | 1 => fitsHosts nc j
  | 2 => fitsStringsMap j
  | 3 => fitsSliceOf fitsACL j
  | 4 => fitsSliceOf fitsACLTest j
  | 5 => fitsAutoApprovers j
  | 6 => fitsSliceOf fitsSSH j
  | _ => true

/-- A member of the top-level object that fits the field its key selects;
a key that selects no field always fits (it is skipped). -/
def fitsPolicyMember {P : Type} (nc : PrefixCodec P) (kv : Text × Json) : Bool :=
  match fieldIndex policyFields kv.1 with
  | some i => fitsField nc i kv.2
  | none => true

/-- A JSON value an `ACLPolicy` takes without error. -/
def fitsPolicy {P : Type} (nc : PrefixCodec P) : Json → Bool
  | .obj kvs => kvs.all (fitsPolicyMember nc)
  | .null => true
  | _ => false

/-- The `i`-th field of a policy (in the order of `policyFields`) is empty. -/
def fieldEmpty {P : Type} (i : Nat) (p : ACLPolicy P) : Prop :=
  match i with
  | 0 => entriesOf p.Groups = []
  | 1 => entriesOf p.Hosts = []
  | 2 => entriesOf p.TagOwners = []
  | 3 => elemsOf p.ACLs = []
  | 4 => elemsOf p.Tests = []
  | 5 => entriesOf p.AutoApprovers.Routes = [] ∧ elemsOf p.AutoApprovers.ExitNode = []
  | 6 => elemsOf p.SSHs = []
  | _ => True

/-! ## An instance of the `netip` parameter for concrete inputs -/

/-- The pieces of a text between occurrences of `sep`. -/
def splitOn (sep : Char) : Text → List Text
  | [] => [[]]
  | c :: s =>
    if c = sep then [] :: splitOn sep s
    else
      match splitOn sep s with
      | [] => [[c]]
      | h :: t => (c :: h) :: t

/-- A decimal number of at most three digits, without leading zero, at most
`max`. -/
def decimalUpTo (max : Nat) (ds : Text) : Bool :=
  !ds.isEmpty && ds.all isDigit && ds.length ≤ 3 && (ds.length = 1 || ds.head? ≠ some '0') &&
    ds.foldl (fun n c => 10 * n + (c.toNat - 48)) 0 ≤ max

/-- The text of an IPv4 prefix as `netip` writes and reads it: `a.b.c.d/n`. -/
def isCidr4 (s : Text) : Bool :=
  match splitOn '/' s with
  | [addr, bits] =>
    decimalUpTo 32 bits &&
      (match splitOn '.' addr with
       | [a, b, c, d] =>
         decimalUpTo 255 a && decimalUpTo 255 b && decimalUpTo 255 c && decimalUpTo 255 d
       | _ => false)
  | _ => false

/-- The IPv4 part of the `netip.Prefix` text codec, a prefix value being held
as a text: the empty text is the zero prefix `netip.Prefix{}`, the text of an
IPv4 prefix is that prefix (`netip` reads back exactly the text it writes for
it), and any other text stands for an invalid prefix, such as
`netip.PrefixFrom(addr, 99)`, which `MarshalText` writes as `invalid Prefix`.
`UnmarshalText` takes the empty text and the text of an IPv4 prefix; `netip`
itself also reads IPv6 prefixes, which are not used here. -/
def cidr4 : PrefixCodec Text :=
  ⟨[], fun p => if p.isEmpty || isCidr4 p then p else "invalid Prefix".toList,
    fun s => if s.isEmpty || isCidr4 s then some s else none⟩

/-- The law of the `netip` text codec: a prefix that was read from text is
read back from the text written for it, and so is the zero prefix. -/
def PrefixCodec.Lawful {P : Type} (nc : PrefixCodec P) : Prop :=
  (∀ s v, nc.UnmarshalText s = some v → nc.UnmarshalText (nc.MarshalText v) = some v) ∧
    nc.UnmarshalText (nc.MarshalText nc.zero) = some nc.zero

/-- The top-level keys of a JSON object text, in the order written. -/
def topLevelKeys (text : Text) : Option (List Text) :=
  match parse text with
  | some (.obj kvs) => some (kvs.map Prod.fst)
  | _ => none

/-- The decoder has met no error so far. -/
def DecodeState.ok {P : Type} (st : DecodeState P) : Prop :=
  st.saved = none ∧ st.abort = none

/-- The `i`-th field (in the order of `policyFields`) is the same in both
policies. -/
def sameField {P : Type} (i : Nat) (p q : ACLPolicy P) : Prop :=
  match i with
  | 0 => p.Groups = q.Groups
  | 1 => p.Hosts = q.Hosts
  | 2 => p.TagOwners = q.TagOwners
  | 3 => p.ACLs = q.ACLs
  | 4 => p.Tests = q.Tests
  | 5 => p.AutoApprovers = q.AutoApprovers
  | 6 => p.SSHs = q.SSHs
  | _ => True

/-! ## The two-space layout -/

/-- The pass that lays a JSON text out with two spaces of indentation, the
state being: `inStr`, inside a string literal; `esc`, right after a backslash
in it; `fresh`, right after an opening bracket, whose line break is held back
until the array or object turns out not to be empty; `depth`, the number of
enclosing non-empty arrays and objects. -/
def indentGo : Bool → Bool → Bool → Nat → Text → Text
  | _, _, _, _, [] => []
  | true, true, fresh, depth, c :: s => c :: indentGo true false fresh depth s
  | true, false, fresh, depth, c :: s =>
    if c = '\\' then c :: indentGo true true fresh depth s
    else if c = '"' then c :: indentGo false false fresh depth s
    else c :: indentGo true false fresh depth s
  | false, _, fresh, depth, c :: s =>
    if isSpace c then indentGo false false fresh depth s
    else if c = '}' ∨ c = ']' then
      if fresh then c :: indentGo false false false depth s
      else
        '\n' :: (List.replicate (2 * (depth - 1)) ' ' ++
          c :: indentGo false false false (depth - 1) s)
    else
      (if fresh then '\n' :: List.replicate (2 * (depth + 1)) ' ' else []) ++
        (if c = '{' ∨ c = '[' then
          c :: indentGo false false true (if fresh then depth + 1 else depth) s
        else if c = ',' then
          c :: '\n' :: (List.replicate (2 * (if fresh then depth + 1 else depth)) ' ' ++
            indentGo false false false (if fresh then depth + 1 else depth) s)
        else if c = ':' then
          c :: ' ' :: indentGo false false false (if fresh then depth + 1 else depth) s
        else if c = '"' then
          c :: indentGo true false false (if fresh then depth + 1 else depth) s
        else c :: indentGo false false false (if fresh then depth + 1 else depth) s)

/-- What the specification calls 2-space-indented, pretty-printed JSON, as a
layout of the compact text: every element of a non-empty array and every
member of a non-empty object starts on a line of its own, indented by two
spaces for each array or object around it; the closing bracket of a non-empty
array or object stands on a line of its own, indented like the line that opened
it; one space follows the colon of a member; `[]` and `\x7b\x7d` stay as they
are; white space between the tokens is dropped and nothing else changes. For
the compact text `json.Marshal` writes, this is the text `json.Indent` gives with
prefix `""` and indent `"  "`. -/
def indentTwoSpaces (src : Text) : Text := indentGo false false false 0 src

/-! ## Sample inputs -/

/-- A policy with every field in use, an empty `deny` list and an empty
`checkPeriod`. -/
def samplePolicy : ACLPolicy Text :=
  { Groups := some ⟨[("group:dev".toList, some ⟨["alice".toList, "bob".toList], []⟩)],
      List.pairwise_singleton _ _⟩,
    Hosts := some ⟨[("db".toList, "10.0.0.0/8".toList)], List.pairwise_singleton _ _⟩,
    TagOwners := some ⟨[("tag:web".toList, none)], List.pairwise_singleton _ _⟩,
    ACLs := some ⟨[⟨"accept".toList, "tcp".toList, some ⟨["group:dev".toList], []⟩,
      some ⟨["db:5432".toList], []⟩⟩], []⟩,
    Tests := some ⟨[⟨"alice".toList, some ⟨["db:5432".toList], []⟩, some ⟨[], []⟩⟩], []⟩,
    AutoApprovers := ⟨some ⟨[("10.0.0.0/8".toList, some ⟨["alice".toList], []⟩)],
      List.pairwise_singleton _ _⟩, none⟩,
    SSHs := some ⟨[⟨"check".toList, some ⟨["group:dev".toList], []⟩, none,
      some ⟨["root".toList], []⟩, []⟩], []⟩ }

/-- The text of a small well-formed policy file. -/
def sampleFile : Text :=
  "\x7b\"hosts\": \x7b\"db\": \"10.0.0.0/8\"\x7d, \"acls\": [\x7b\"action\": \"accept\", \"dst\": [\"db:5432\"]\x7d]\x7d".toList

/-- A file system with the policy file `/app/policy.json`, three files that
do not decode and a file with an empty host; any other path does not open.
The directory `/app/missing` does not exist, so `/app/missing/out.json` cannot
be created; every other path can. -/
def sampleFs : FileSystem :=
  { read := fun path =>
      if path = "/app/policy.json".toList then ReadOutcome.contents sampleFile
      else if path = "/app/hosts.json".toList then
        ReadOutcome.contents "\x7b\"hosts\": \x7b\"a\": \"not-a-cidr\"\x7d\x7d".toList
      else if path = "/app/acls.json".toList then
        ReadOutcome.contents "\x7b\"acls\": \"not-a-list\"\x7d".toList
      else if path = "/app/text.json".toList then ReadOutcome.contents "not json".toList
      else if path = "/app/empty-host.json".toList then
        ReadOutcome.contents "\x7b\"hosts\": \x7b\"a\": \"\"\x7d\x7d".toList
      else ReadOutcome.openError "no such file or directory",
    create := fun path =>
      if path = "/app/missing/out.json".toList then some "no such file or directory"
      else none }

/-- A world whose database opens and holds the given rows, the executable in
`/app`, nothing printed yet and no database operation yet. -/
def sampleWorld (rows : List OrganizationRow) : World :=
  { GetAppDirectory := "/app".toList,
    join := fun dir name => dir ++ '/' :: name,
    fs := sampleFs,
    db := some rows,
    dbLog := [],
    stdout := [],
    panicked := false }

/-! ## Measures of a JSON value used in the proofs -/

mutual
/-- A value without numbers (the encoder of a policy writes none). -/
def Json.plain : Json → Bool
  | .null => true
  | .bool _ => true
  | .num _ => false
  | .str _ => true
  | .arr xs => plainList xs
  | .obj kvs => plainMembers kvs
/-- All values of a list are number-free. -/
def plainList : List Json → Bool
  | [] => true
  | x :: xs => x.plain && plainList xs
/-- All member values are number-free. -/
def plainMembers : List (Text × Json) → Bool
  | [] => true
  | (_, v) :: kvs => v.plain && plainMembers kvs
end

mutual
/-- How deep arrays and objects nest in a value. -/
def Json.height : Json → Nat
  | .null => 0
  | .bool _ => 0
  | .num _ => 0
  | .str _ => 0
  | .arr xs => heightList xs + 1
  | .obj kvs => heightMembers kvs + 1
/-- The largest height in a list. -/
def heightList : List Json → Nat
  | [] => 0
  | x :: xs => max x.height (heightList xs)
/-- The largest height among member values. -/
def heightMembers : List (Text × Json) → Nat
  | [] => 0
  | (_, v) :: kvs => max v.height (heightMembers kvs)
end

/-- A non-empty array after its opening bracket and first line break. -/
def renderBody (ind : Bool) (d : Nat) : List Json → Text
  | [] => []
  | x :: xs => render ind (d + 1) x ++ renderElemsTail ind d xs

/-- A non-empty object after its opening brace and first line break. -/
def renderMemberBody (ind : Bool) (d : Nat) : List (Text × Json) → Text
  | [] => []
  | (k, v) :: kvs =>
    quote k ++ (':' :: (colonGap ind ++ (render ind (d + 1) v ++ renderMembersTail ind d kvs)))

/-! # Theorems -/

/-! ## The scanner reads what the writer wrote -/

theorem skipSpace_newline (ind : Bool) (d : Nat) (s : Text) :
    skipSpace (newline ind d ++ s) = skipSpace s := by
  cases ind
  · simp [newline]
  · simp only [newline, if_true, List.cons_append]
    have h : ∀ n, skipSpace (List.replicate n ' ' ++ s) = skipSpace s := by
      intro n
      induction n with
      | zero => simp
      | succ n ih => simp [List.replicate_succ, skipSpace, isSpace, ih]
    simp [skipSpace, isSpace, h]

theorem skipSpace_colonGap (ind : Bool) (s : Text) :
    skipSpace (colonGap ind ++ s) = skipSpace s := by
  cases ind <;> simp [colonGap, skipSpace, isSpace]

theorem skipSpace_cons {c : Char} (h : isSpace c = false) (s : Text) :
    skipSpace (c :: s) = c :: s := by
  simp [skipSpace, h]

theorem lexString_cons (pend : Option Nat) (c : Char) (s : Text) :
    lexString pend (c :: s) =
    if c = '"' then flushPending pend (some ([], s))
    else if c = '\\' then
      match s with
      | [] => none
      | e :: s1 =>
        if e = 'u' then
          match s1 with
          | a :: b :: x :: y :: s2 =>
            match getu4 a b x y with
            | none => none
            | some r =>
              match pend.bind (fun r1 => decodeSurrogates r1 r) with
              | some ch => withHead ch (lexString none s2)
              | none =>
                flushPending pend
                  (if isSurrogate r then lexString (some r) s2
                   else withHead (Char.ofNat r) (lexString none s2))
          | _ => none
        else
          match simpleEscape e with
          | some ch => flushPending pend (withHead ch (lexString none s1))
          | none => none
    else if c.toNat < 0x20 then none
    else flushPending pend (withHead c (lexString none s)) := by
  rw [lexString.eq_def]; rfl

set_option maxRecDepth 100000 in
theorem getu4_hex : ∀ n, n < 256 →
    getu4 '0' '0' (hexDigit (n / 16)) (hexDigit (n % 16)) = some n := by
  decide

theorem char_of_toNat {c : Char} {n : Nat} (h : c.toNat = n) : c = Char.ofNat n := by
  rw [← h, Char.ofNat_toNat]

theorem lexString_escapeChar (c : Char) (t : Text) :
    lexString none (escapeChar c ++ t) = withHead c (lexString none t) := by
  unfold escapeChar
  split_ifs with h1 h2 h3 h4 h5 h6
  · rcases h1 with h | h <;> subst h <;> simp [lexString_cons, simpleEscape, flushPending]
  · subst h2; simp [lexString_cons, simpleEscape, flushPending]
  · subst h3; simp [lexString_cons, simpleEscape, flushPending]
  · subst h4; simp [lexString_cons, simpleEscape, flushPending]
  · have hn : c.toNat < 256 := by
      rcases h5 with h | h | h | h
      · omega
      · subst h; decide
      · subst h; decide
      · subst h; decide
    have hs : isSurrogate c.toNat = false := by
      simp [isSurrogate]; omega
    simp [lexString_cons, getu4_hex _ hn, flushPending, hs]
  · rcases h6 with h | h
    · have := char_of_toNat h; subst this
      simp only [List.cons_append, List.nil_append, lexString_cons]
      rfl
    · have := char_of_toNat h; subst this
      simp only [List.cons_append, List.nil_append, lexString_cons]
      rfl
  · push_neg at h1 h5
    have h20 : ¬ c.toNat < 32 := by omega
    simp [lexString_cons, h1.1, h1.2, h20, flushPending]

theorem lexString_escape (s rest : Text) :
    lexString none (escape s ++ '"' :: rest) = some (s, rest) := by
  induction s with
  | nil => simp [escape, lexString_cons, flushPending]
  | cons c s ih =>
    simp only [escape, List.append_assoc]
    rw [lexString_escapeChar, ih]
    rfl

theorem parseValue_succ (fuel depth : Nat) (c : Char) (r : Text) :
    parseValue (fuel + 1) depth (c :: r) =
      if c = '{' then
        if maxNestingDepth ≤ depth then none
        else
          match skipSpace r with
          | [] => none
          | c1 :: r1 =>
            if c1 = '}' then some (Json.obj [], r1)
            else
              match parseMembers fuel (depth + 1) (c1 :: r1) with
              | some (kvs, r2) => some (Json.obj kvs, r2)
              | none => none
      else if c = '[' then
        if maxNestingDepth ≤ depth then none
        else
          match skipSpace r with
          | [] => none
          | c1 :: r1 =>
            if c1 = ']' then some (Json.arr [], r1)
            else
              match parseElems fuel (depth + 1) (c1 :: r1) with
              | some (xs, r2) => some (Json.arr xs, r2)
              | none => none
      else if c = '"' then
        match lexString none r with
        | some (t, r1) => some (Json.str t, r1)
        | none => none
      else if c = 't' then (dropLit ['r', 'u', 'e'] r).map (fun r1 => (Json.bool true, r1))
      else if c = 'f' then
        (dropLit ['a', 'l', 's', 'e'] r).map (fun r1 => (Json.bool false, r1))
      else if c = 'n' then (dropLit ['u', 'l', 'l'] r).map (fun r1 => (Json.null, r1))
      else
        match lexNumber (c :: r) with
        | some (l, r1) => some (Json.num l, r1)
        | none => none := by
  rfl

theorem parseElems_succ (fuel depth : Nat) (s : Text) :
    parseElems (fuel + 1) depth s =
      match parseValue fuel depth s with
      | none => none
      | some (x, r) =>
        match skipSpace r with
        | [] => none
        | c :: r1 =>
          if c = ',' then
            match parseElems fuel depth (skipSpace r1) with
            | some (xs, r2) => some (x :: xs, r2)
            | none => none
          else if c = ']' then some ([x], r1)
          else none := by
  rfl

theorem parseMembers_succ (fuel depth : Nat) (q : Char) (r : Text) :
    parseMembers (fuel + 1) depth (q :: r) =
      if q = '"' then
        match lexString none r with
        | none => none
        | some (k, r1) =>
          match skipSpace r1 with
          | [] => none
          | c :: r2 =>
            if c = ':' then
              match parseValue fuel depth (skipSpace r2) with
              | none => none
              | some (v, r3) =>
                match skipSpace r3 with
                | [] => none
                | c1 :: r4 =>
                  if c1 = ',' then
                    match parseMembers fuel depth (skipSpace r4) with
                    | some (kvs, r5) => some ((k, v) :: kvs, r5)
                    | none => none
                  else if c1 = '}' then some ([(k, v)], r4)
                  else none
            else none
      else none := by
  rfl

theorem render_head (ind : Bool) (d : Nat) (j : Json) (hp : j.plain = true) :
    ∃ c r, render ind d j = c :: r ∧ isSpace c = false ∧ c ≠ ']' ∧ c ≠ '}' := by
  cases j with
  | null => exact ⟨'n', _, rfl, by decide, by decide, by decide⟩
  | bool b =>
    cases b
    · exact ⟨'f', _, rfl, by decide, by decide, by decide⟩
    · exact ⟨'t', _, rfl, by decide, by decide, by decide⟩
  | num l => simp [Json.plain] at hp
  | str s => exact ⟨'"', _, rfl, by decide, by decide, by decide⟩
  | arr xs => exact ⟨'[', _, by rw [render], by decide, by decide, by decide⟩
  | obj kvs => exact ⟨'{', _, by rw [render], by decide, by decide, by decide⟩

theorem render_length_pos (ind : Bool) (d : Nat) (j : Json) (hp : j.plain = true) :
    0 < (render ind d j).length := by
  obtain ⟨c, r, h, _⟩ := render_head ind d j hp
  simp [h]

theorem skipSpace_render (ind : Bool) (d : Nat) (j : Json) (hp : j.plain = true) (t : Text) :
    skipSpace (render ind d j ++ t) = render ind d j ++ t := by
  obtain ⟨c, r, hc, hsp, _, _⟩ := render_head ind d j hp
  rw [hc]; exact skipSpace_cons hsp _

theorem quote_append (k rest : Text) : quote k ++ rest = '"' :: (escape k ++ '"' :: rest) := by
  simp [quote]

mutual
theorem parseValue_render (ind : Bool) : ∀ (j : Json) (d fuel depth : Nat) (rest : Text),
    j.plain = true → (render ind d j).length ≤ fuel → depth + j.height ≤ maxNestingDepth →
    parseValue fuel depth (render ind d j ++ rest) = some (j, rest)
  | .null, d, fuel, depth, rest, _, hf, _ => by
    obtain ⟨f, rfl⟩ : ∃ f, fuel = f + 1 := ⟨fuel - 1, by simp [render] at hf; omega⟩
    simp [render, parseValue_succ, dropLit]
  | .bool b, d, fuel, depth, rest, _, hf, _ => by
    obtain ⟨f, rfl⟩ : ∃ f, fuel = f + 1 := ⟨fuel - 1, by cases b <;> simp [render] at hf <;> omega⟩
    cases b <;> simp [render, parseValue_succ, dropLit]
  | .num l, d, fuel, depth, rest, hp, _, _ => by simp [Json.plain] at hp
  | .str s, d, fuel, depth, rest, _, hf, _ => by
    obtain ⟨f, rfl⟩ : ∃ f, fuel = f + 1 := ⟨fuel - 1, by simp [render, quote] at hf; omega⟩
    simp [render, quote, parseValue_succ, lexString_escape]
  | .arr [], d, fuel, depth, rest, _, hf, hh => by
    obtain ⟨f, rfl⟩ : ∃ f, fuel = f + 1 := ⟨fuel - 1, by simp [render, renderElems] at hf; omega⟩
    have hd : ¬ maxNestingDepth ≤ depth := by simp [Json.height] at hh; omega
    simp [render, renderElems, parseValue_succ, hd, skipSpace, isSpace]
  | .arr (x :: xs), d, fuel, depth, rest, hp, hf, hh => by
    simp only [render, renderElems, List.length_cons, List.length_append] at hf
    obtain ⟨f, rfl⟩ : ∃ f, fuel = f + 1 := ⟨fuel - 1, by omega⟩
    have hd : ¬ maxNestingDepth ≤ depth := by simp [Json.height] at hh; omega
    have hpx : x.plain = true := by simp [Json.plain, plainList] at hp; exact hp.1
    obtain ⟨c, r, hc, hsp, hc1, _⟩ := render_head ind (d + 1) x hpx
    have key := parseElems_render ind (x :: xs) d f (depth + 1) rest
      (by simpa [Json.plain] using hp)
      (by simp only [renderBody, List.length_append]; omega)
      (by simp only [Json.height] at hh; omega) (by simp)
    simp only [renderBody, List.append_assoc, hc, List.cons_append] at key
    simp only [render, renderElems, List.cons_append, List.append_assoc, parseValue_succ,
      skipSpace_newline, hc, skipSpace_cons hsp, hd, if_false, hc1, key]
    simp
  | .obj [], d, fuel, depth, rest, _, hf, hh => by
    obtain ⟨f, rfl⟩ : ∃ f, fuel = f + 1 := ⟨fuel - 1, by simp [render, renderMembers] at hf; omega⟩
    have hd : ¬ maxNestingDepth ≤ depth := by simp [Json.height] at hh; omega
    simp [render, renderMembers, parseValue_succ, hd, skipSpace, isSpace]
  | .obj ((k, v) :: kvs), d, fuel, depth, rest, hp, hf, hh => by
    simp only [render, renderMembers, List.length_cons, List.length_append] at hf
    obtain ⟨f, rfl⟩ : ∃ f, fuel = f + 1 := ⟨fuel - 1, by omega⟩
    have hd : ¬ maxNestingDepth ≤ depth := by simp [Json.height] at hh; omega
    have key := parseMembers_render ind ((k, v) :: kvs) d f (depth + 1) rest
      (by simpa [Json.plain] using hp)
      (by simp only [renderMemberBody, List.length_append, List.length_cons]; omega)
      (by simp only [Json.height] at hh; omega) (by simp)
    simp only [renderMemberBody, List.append_assoc, quote_append, List.cons_append] at key
    simp only [render, renderMembers, List.cons_append, List.append_assoc, parseValue_succ,
      skipSpace_newline, quote_append, skipSpace_cons (show isSpace '"' = false by decide),
      hd, if_false, key]
    simp
theorem parseElems_render (ind : Bool) : ∀ (l : List Json) (d fuel depth : Nat) (rest : Text),
    plainList l = true → (renderBody ind d l).length ≤ fuel →
    depth + heightList l ≤ maxNestingDepth → l ≠ [] →
    parseElems fuel depth (renderBody ind d l ++ rest) = some (l, rest)
  | [], _, _, _, _, _, _, _, hne => absurd rfl hne
  | x :: xs, d, fuel, depth, rest, hp, hf, hh, _ => by
    have hpx : x.plain = true := by simp [plainList] at hp; exact hp.1
    have hpxs : plainList xs = true := by simp [plainList] at hp; exact hp.2
    simp only [renderBody, List.length_append] at hf
    have hpos := render_length_pos ind (d + 1) x hpx
    obtain ⟨f, rfl⟩ : ∃ f, fuel = f + 1 := ⟨fuel - 1, by omega⟩
    have hx := parseValue_render ind x (d + 1) f depth (renderElemsTail ind d xs ++ rest) hpx
      (by cases xs <;> simp [renderElemsTail] at hf <;> omega)
      (by simp only [heightList] at hh; omega)
    simp only [renderBody, List.append_assoc, parseElems_succ, hx]
    cases xs with
    | nil => simp [renderElemsTail, skipSpace_newline, skipSpace, isSpace]
    | cons y ys =>
      have hy := parseElems_render ind (y :: ys) d f depth rest hpxs
        (by simp only [renderElemsTail, renderBody, List.length_cons, List.length_append] at hf ⊢
            omega)
        (by simp only [heightList] at hh ⊢; omega) (by simp)
      simp only [renderBody, List.append_assoc] at hy
      have hpy : y.plain = true := by simp [plainList] at hpxs; exact hpxs.1
      simp [renderElemsTail, skipSpace, isSpace, skipSpace_newline, skipSpace_render _ _ _ hpy, hy]
theorem parseMembers_render (ind : Bool) : ∀ (l : List (Text × Json)) (d fuel depth : Nat)
    (rest : Text),
    plainMembers l = true → (renderMemberBody ind d l).length ≤ fuel →
    depth + heightMembers l ≤ maxNestingDepth → l ≠ [] →
    parseMembers fuel depth (renderMemberBody ind d l ++ rest) = some (l, rest)
  | [], _, _, _, _, _, _, _, hne => absurd rfl hne
  | (k, v) :: kvs, d, fuel, depth, rest, hp, hf, hh, _ => by
    have hpv : v.plain = true := by simp [plainMembers] at hp; exact hp.1
    have hpkvs : plainMembers kvs = true := by simp [plainMembers] at hp; exact hp.2
    simp only [renderMemberBody, List.length_append, List.length_cons, quote] at hf
    obtain ⟨f, rfl⟩ : ∃ f, fuel = f + 1 := ⟨fuel - 1, by omega⟩
    obtain ⟨c, r, hc, hsp, _, _⟩ := render_head ind (d + 1) v hpv
    have hv := parseValue_render ind v (d + 1) f depth (renderMembersTail ind d kvs ++ rest) hpv
      (by omega)
      (by simp only [heightMembers] at hh; omega)
    have hskip : skipSpace (render ind (d + 1) v ++ (renderMembersTail ind d kvs ++ rest))
        = render ind (d + 1) v ++ (renderMembersTail ind d kvs ++ rest) := by
      rw [hc]; exact skipSpace_cons hsp _
    simp only [renderMemberBody, List.append_assoc, quote_append, List.cons_append,
      parseMembers_succ, lexString_escape, if_true, skipSpace_cons (show isSpace ':' = false by decide),
      skipSpace_colonGap, hskip, hv]
    cases kvs with
    | nil => simp [renderMembersTail, skipSpace_newline, skipSpace, isSpace]
    | cons kv kvs2 =>
      obtain ⟨k2, v2⟩ := kv
      have hy := parseMembers_render ind ((k2, v2) :: kvs2) d f depth rest hpkvs
        (by simp only [renderMembersTail, renderMemberBody, List.length_cons, List.length_append,
              quote] at hf ⊢
            omega)
        (by simp only [heightMembers] at hh ⊢; omega) (by simp)
      simp only [renderMemberBody, List.append_assoc, quote_append, List.cons_append] at hy
      simp [renderMembersTail, skipSpace, isSpace, skipSpace_newline, quote_append, hy]
end

/-! ## The fuel of `parse` always suffices -/

theorem skipSpace_length_le : ∀ s : Text, (skipSpace s).length ≤ s.length
  | [] => by simp [skipSpace]
  | c :: s => by
    unfold skipSpace
    split_ifs
    · have := skipSpace_length_le s
      simp only [List.length_cons]; omega
    · exact le_refl _

theorem span_snd_length_le (p : Char → Bool) (s : Text) : (s.span p).2.length ≤ s.length := by
  rw [List.span_eq_take_drop]
  exact (List.dropWhile_sublist p).length_le

theorem withHead_eq_some {c : Char} {x : Option (Text × Text)} {t r : Text}
    (h : withHead c x = some (t, r)) : ∃ t1, x = some (t1, r) := by
  cases x with
  | none => simp [withHead] at h
  | some p =>
    obtain ⟨a, b⟩ := p
    simp only [withHead, Option.map_some', Option.some.injEq, Prod.mk.injEq] at h
    exact ⟨a, by rw [h.2]⟩

theorem flushPending_eq_some {pend : Option Nat} {x : Option (Text × Text)} {t r : Text}
    (h : flushPending pend x = some (t, r)) : ∃ t1, x = some (t1, r) := by
  cases pend with
  | none => exact ⟨t, h⟩
  | some n => exact withHead_eq_some h

theorem lexString_length : ∀ (n : Nat) (s : Text) (pend : Option Nat) (t r : Text),
    s.length ≤ n → lexString pend s = some (t, r) → r.length < s.length := by
  intro n
  induction n with
  | zero =>
    intro s pend t r hn h
    cases s with
    | nil => simp [lexString] at h
    | cons c s => simp at hn
  | succ n ih =>
    intro s pend t r hn h
    cases s with
    | nil => simp [lexString] at h
    | cons c s =>
      have hs : s.length ≤ n := by simpa using hn
      rw [lexString_cons] at h
      simp only [List.length_cons]
      split_ifs at h with h1 h2 h3
      · obtain ⟨t1, h⟩ := flushPending_eq_some h
        cases h
        omega
      · cases s with
        | nil => cases h
        | cons e s1 =>
          simp only at h
          have hs1 : s1.length ≤ n := by simp only [List.length_cons] at hs; omega
          simp only [List.length_cons]
          split_ifs at h with h4
          · match s1, hs1, h with
            | a :: b :: x :: y :: s2, hs1, h =>
              simp only at h
              have hs2 : s2.length ≤ n := by simp only [List.length_cons] at hs1; omega
              simp only [List.length_cons]
              cases hg : getu4 a b x y with
              | none => rw [hg] at h; cases h
              | some rr =>
                rw [hg] at h
                simp only at h
                cases hd : pend.bind (fun r1 => decodeSurrogates r1 rr) with
                | some ch =>
                  rw [hd] at h
                  obtain ⟨t1, h⟩ := withHead_eq_some h
                  have := ih s2 none t1 r hs2 h
                  omega
                | none =>
                  rw [hd] at h
                  obtain ⟨t1, h⟩ := flushPending_eq_some h
                  split_ifs at h
                  · have := ih s2 _ t1 r hs2 h
                    omega
                  · obtain ⟨t2, h⟩ := withHead_eq_some h
                    have := ih s2 none t2 r hs2 h
                    omega
            | [], _, h => cases h
            | [_], _, h => cases h
            | [_, _], _, h => cases h
            | [_, _, _], _, h => cases h
          · cases hse : simpleEscape e with
            | none => rw [hse] at h; cases h
            | some ch =>
              rw [hse] at h
              obtain ⟨t1, h⟩ := flushPending_eq_some h
              obtain ⟨t2, h⟩ := withHead_eq_some h
              have := ih s1 none t2 r hs1 h
              omega
      · obtain ⟨t1, h⟩ := flushPending_eq_some h
        obtain ⟨t2, h⟩ := withHead_eq_some h
        have := ih s none t2 r hs h
        omega

theorem lexString_rest_lt (s : Text) (t r : Text) (h : lexString none s = some (t, r)) :
    r.length < s.length :=
  lexString_length s.length s none t r (le_refl _) h

theorem dropLit_length : ∀ (w s r : Text), dropLit w s = some r → r.length ≤ s.length
  | [], s, r, h => by simp [dropLit] at h; rw [h]
  | _ :: _, [], r, h => by simp [dropLit] at h
  | a :: w, c :: s, r, h => by
    unfold dropLit at h
    split_ifs at h
    have := dropLit_length w s r h
    simp only [List.length_cons]; omega

theorem lexInt_length (s i r : Text) (h : lexInt s = some (i, r)) : r.length < s.length := by
  cases s with
  | nil => simp [lexInt] at h
  | cons c s =>
    simp only [lexInt] at h
    split_ifs at h
    · simp only [Option.some.injEq, Prod.mk.injEq] at h
      rw [← h.2]; simp
    · simp only [Option.some.injEq, Prod.mk.injEq] at h
      rw [← h.2]
      have := span_snd_length_le isDigit s
      simp only [List.length_cons]; omega

theorem lexFrac_length (s f r : Text) (h : lexFrac s = some (f, r)) : r.length ≤ s.length := by
  unfold lexFrac at h
  split at h
  · rename_i s1
    have := span_snd_length_le isDigit s1
    split at h
    · cases h
    · rename_i ds r1 hne heq
      simp only [Option.some.injEq, Prod.mk.injEq] at h
      have hr : r1 = (s1.span isDigit).2 := by rw [heq]
      rw [← h.2, hr]
      simp only [List.length_cons]; omega
  · simp only [Option.some.injEq, Prod.mk.injEq] at h
    rw [h.2]

theorem lexExp_length (s e r : Text) (h : lexExp s = some (e, r)) : r.length ≤ s.length := by
  cases s with
  | nil => simp [lexExp] at h; rw [← h.2]
  | cons c s =>
    simp only [lexExp] at h
    split_ifs at h
    · cases s with
      | nil => cases h
      | cons g s1 =>
        simp only at h
        split_ifs at h
        · have := span_snd_length_le isDigit s1
          split at h
          · cases h
          · rename_i ds r1 hne heq
            simp only [Option.some.injEq, Prod.mk.injEq] at h
            have hr : r1 = (s1.span isDigit).2 := by rw [heq]
            rw [← h.2, hr]
            simp only [List.length_cons]; omega
        · have := span_snd_length_le isDigit (g :: s1)
          split at h
          · cases h
          · rename_i ds r1 hne heq
            simp only [Option.some.injEq, Prod.mk.injEq] at h
            have hr : r1 = ((g :: s1).span isDigit).2 := by rw [heq]
            rw [← h.2, hr]
            simp only [List.length_cons] at this ⊢; omega
    · simp only [Option.some.injEq, Prod.mk.injEq] at h
      rw [← h.2]

theorem lexNumber_body_length (sign s l r : Text)
    (h : (match lexInt s with
      | none => none
      | some (i, r1) =>
        match lexFrac r1 with
        | none => none
        | some (f, r2) =>
          match lexExp r2 with
          | none => none
          | some (e, r3) => some (sign ++ i ++ f ++ e, r3)) = some (l, r)) :
    r.length < s.length := by
  cases hi : lexInt s with
  | none => rw [hi] at h; cases h
  | some p1 =>
    obtain ⟨i, r1⟩ := p1
    rw [hi] at h
    simp only at h
    cases hf : lexFrac r1 with
    | none => rw [hf] at h; cases h
    | some p2 =>
      obtain ⟨f, r2⟩ := p2
      rw [hf] at h
      simp only at h
      cases he : lexExp r2 with
      | none => rw [he] at h; cases h
      | some p3 =>
        obtain ⟨e, r3⟩ := p3
        rw [he] at h
        simp only [Option.some.injEq, Prod.mk.injEq] at h
        have h1 := lexInt_length s i r1 hi
        have h2 := lexFrac_length r1 f r2 hf
        have h3 := lexExp_length r2 e r3 he
        rw [← h.2]
        omega

theorem lexNumber_length (s l r : Text) (h : lexNumber s = some (l, r)) :
    r.length < s.length := by
  unfold lexNumber at h
  split at h
  · rename_i r0
    have := lexNumber_body_length _ _ _ _ h
    simp only [List.length_cons]; omega
  · exact lexNumber_body_length _ _ _ _ h

theorem skipSpace_cons_length {r : Text} {c : Char} {r1 : Text} (h : skipSpace r = c :: r1) :
    r1.length + 1 ≤ r.length := by
  have := skipSpace_length_le r
  rw [h] at this
  simpa using this

/-- A parse that succeeds with some fuel consumes at least one character and
succeeds, with the same result, with any fuel not below the number of
characters it consumed. -/
theorem parse_fuel : ∀ f : Nat,
    (∀ d s j rest, parseValue f d s = some (j, rest) →
      rest.length < s.length ∧
        ∀ g, s.length - rest.length ≤ g → parseValue g d s = some (j, rest)) ∧
    (∀ d s xs rest, parseElems f d s = some (xs, rest) →
      rest.length < s.length ∧
        ∀ g, s.length - rest.length ≤ g → parseElems g d s = some (xs, rest)) ∧
    (∀ d s kvs rest, parseMembers f d s = some (kvs, rest) →
      rest.length < s.length ∧
        ∀ g, s.length - rest.length ≤ g → parseMembers g d s = some (kvs, rest)) := by
  intro f
  induction f with
  | zero =>
    refine ⟨?_, ?_, ?_⟩ <;> intro d s j rest h
    · simp [parseValue] at h
    · simp [parseElems] at h
    · simp [parseMembers] at h
  | succ f ih =>
    obtain ⟨ihV, ihE, ihM⟩ := ih
    refine ⟨?_, ?_, ?_⟩
    · intro d s j rest h
      cases s with
      | nil => simp [parseValue] at h
      | cons c r =>
        rw [parseValue_succ] at h
        simp only [List.length_cons]
        by_cases h1 : c = '{'
        · subst h1
          simp only [if_true] at h
          by_cases hd : maxNestingDepth ≤ d
          · simp [hd] at h
          · simp only [hd, if_false] at h
            cases hsk : skipSpace r with
            | nil => rw [hsk] at h; cases h
            | cons c1 r1 =>
              rw [hsk] at h
              simp only at h
              have hlen := skipSpace_cons_length hsk
              by_cases hc : c1 = '}'
              · simp only [hc, if_true, Option.some.injEq, Prod.mk.injEq] at h
                obtain ⟨rfl, rfl⟩ := h
                refine ⟨by omega, ?_⟩
                intro g hg
                obtain ⟨g1, rfl⟩ : ∃ g1, g = g1 + 1 := ⟨g - 1, by omega⟩
                rw [parseValue_succ]
                simp only [if_true, hd, if_false, hsk, hc]
              · simp only [hc, if_false] at h
                cases hm : parseMembers f (d + 1) (c1 :: r1) with
                | none => rw [hm] at h; cases h
                | some p =>
                  obtain ⟨kvs, r2⟩ := p
                  rw [hm] at h
                  simp only [Option.some.injEq, Prod.mk.injEq] at h
                  obtain ⟨rfl, rfl⟩ := h
                  obtain ⟨hlt, hfuel⟩ := ihM _ _ _ _ hm
                  simp only [List.length_cons] at hlt hfuel
                  refine ⟨by omega, ?_⟩
                  intro g hg
                  obtain ⟨g1, rfl⟩ : ∃ g1, g = g1 + 1 := ⟨g - 1, by omega⟩
                  rw [parseValue_succ]
                  simp only [if_true, hd, if_false, hsk, hc]
                  rw [hfuel g1 (by omega)]
        · simp only [h1, if_false] at h
          by_cases h2 : c = '['
          · subst h2
            simp only [if_true] at h
            by_cases hd : maxNestingDepth ≤ d
            · simp [hd] at h
            · simp only [hd, if_false] at h
              cases hsk : skipSpace r with
              | nil => rw [hsk] at h; cases h
              | cons c1 r1 =>
                rw [hsk] at h
                simp only at h
                have hlen := skipSpace_cons_length hsk
                by_cases hc : c1 = ']'
                · simp only [hc, if_true, Option.some.injEq, Prod.mk.injEq] at h
                  obtain ⟨rfl, rfl⟩ := h
                  refine ⟨by omega, ?_⟩
                  intro g hg
                  obtain ⟨g1, rfl⟩ : ∃ g1, g = g1 + 1 := ⟨g - 1, by omega⟩
                  rw [parseValue_succ]
                  simp only [h1, if_true, hd, if_false, hsk, hc]
                · simp only [hc, if_false] at h
                  cases hm : parseElems f (d + 1) (c1 :: r1) with
                  | none => rw [hm] at h; cases h
                  | some p =>
                    obtain ⟨xs, r2⟩ := p
                    rw [hm] at h
                    simp only [Option.some.injEq, Prod.mk.injEq] at h
                    obtain ⟨rfl, rfl⟩ := h
                    obtain ⟨hlt, hfuel⟩ := ihE _ _ _ _ hm
                    simp only [List.length_cons] at hlt hfuel
                    refine ⟨by omega, ?_⟩
                    intro g hg
                    obtain ⟨g1, rfl⟩ : ∃ g1, g = g1 + 1 := ⟨g - 1, by omega⟩
                    rw [parseValue_succ]
                    simp only [h1, if_true, hd, if_false, hsk, hc]
                    rw [hfuel g1 (by omega)]
          · simp only [h2, if_false] at h
            have leaf : ∀ (res : Option (Json × Text)),
                (∀ g, parseValue (g + 1) d (c :: r) = res) → res = some (j, rest) →
                rest.length < r.length + 1 →
                rest.length < r.length + 1 ∧
                  ∀ g, r.length + 1 - rest.length ≤ g → parseValue g d (c :: r) = some (j, rest) := by
              intro res hres heq hlt
              refine ⟨hlt, ?_⟩
              intro g hg
              obtain ⟨g1, rfl⟩ : ∃ g1, g = g1 + 1 := ⟨g - 1, by omega⟩
              rw [hres g1, heq]
            by_cases h3 : c = '"'
            · simp only [h3, if_true] at h
              cases hl : lexString none r with
              | none => rw [hl] at h; cases h
              | some p =>
                obtain ⟨t, r1⟩ := p
                have hlt := lexString_rest_lt r t r1 hl
                rw [hl] at h
                simp only [Option.some.injEq, Prod.mk.injEq] at h
                obtain ⟨rfl, rfl⟩ := h
                refine leaf (some (Json.str t, r1)) ?_ rfl (by omega)
                intro g
                rw [parseValue_succ, if_neg h1, if_neg h2, if_pos h3, hl]
            · simp only [h3, if_false] at h
              by_cases h4 : c = 't'
              · simp only [h4, if_true] at h
                cases hl : dropLit ['r', 'u', 'e'] r with
                | none => rw [hl] at h; cases h
                | some r1 =>
                  have hlt := dropLit_length _ _ _ hl
                  rw [hl] at h
                  simp only [Option.map_some', Option.some.injEq, Prod.mk.injEq] at h
                  obtain ⟨rfl, rfl⟩ := h
                  refine leaf (some (Json.bool true, r1)) ?_ rfl (by omega)
                  intro g
                  rw [parseValue_succ, if_neg h1, if_neg h2, if_neg h3, if_pos h4, hl]
                  rfl
              · simp only [h4, if_false] at h
                by_cases h5 : c = 'f'
                · simp only [h5, if_true] at h
                  cases hl : dropLit ['a', 'l', 's', 'e'] r with
                  | none => rw [hl] at h; cases h
                  | some r1 =>
                    have hlt := dropLit_length _ _ _ hl
                    rw [hl] at h
                    simp only [Option.map_some', Option.some.injEq, Prod.mk.injEq] at h
                    obtain ⟨rfl, rfl⟩ := h
                    refine leaf (some (Json.bool false, r1)) ?_ rfl (by omega)
                    intro g
                    rw [parseValue_succ, if_neg h1, if_neg h2, if_neg h3, if_neg h4, if_pos h5, hl]
                    rfl
                · simp only [h5, if_false] at h
                  by_cases h6 : c = 'n'
                  · simp only [h6, if_true] at h
                    cases hl : dropLit ['u', 'l', 'l'] r with
                    | none => rw [hl] at h; cases h
                    | some r1 =>
                      have hlt := dropLit_length _ _ _ hl
                      rw [hl] at h
                      simp only [Option.map_some', Option.some.injEq, Prod.mk.injEq] at h
                      obtain ⟨rfl, rfl⟩ := h
                      refine leaf (some (Json.null, r1)) ?_ rfl (by omega)
                      intro g
                      rw [parseValue_succ, if_neg h1, if_neg h2, if_neg h3, if_neg h4, if_neg h5,
                        if_pos h6, hl]
                      rfl
                  · simp only [h6, if_false] at h
                    cases hl : lexNumber (c :: r) with
                    | none => rw [hl] at h; cases h
                    | some p =>
                      obtain ⟨l, r1⟩ := p
                      have hlt := lexNumber_length _ _ _ hl
                      simp only [List.length_cons] at hlt
                      rw [hl] at h
                      simp only [Option.some.injEq, Prod.mk.injEq] at h
                      obtain ⟨rfl, rfl⟩ := h
                      refine leaf (some (Json.num l, r1)) ?_ rfl (by omega)
                      intro g
                      rw [parseValue_succ, if_neg h1, if_neg h2, if_neg h3, if_neg h4, if_neg h5,
                        if_neg h6, hl]
    · intro d s xs rest h
      rw [parseElems_succ] at h
      cases hv : parseValue f d s with
      | none => rw [hv] at h; cases h
      | some p =>
        obtain ⟨x, r⟩ := p
        rw [hv] at h
        simp only at h
        obtain ⟨hlt, hfuel⟩ := ihV _ _ _ _ hv
        cases hsk : skipSpace r with
        | nil => rw [hsk] at h; cases h
        | cons c r1 =>
          rw [hsk] at h
          simp only at h
          have hlen := skipSpace_cons_length hsk
          by_cases hc : c = ','
          · simp only [hc, if_true] at h
            cases he : parseElems f d (skipSpace r1) with
            | none => rw [he] at h; cases h
            | some p =>
              obtain ⟨xs1, r2⟩ := p
              rw [he] at h
              simp only [Option.some.injEq, Prod.mk.injEq] at h
              obtain ⟨rfl, rfl⟩ := h
              obtain ⟨hlt2, hfuel2⟩ := ihE _ _ _ _ he
              have hsk2 := skipSpace_length_le r1
              refine ⟨by omega, ?_⟩
              intro g hg
              obtain ⟨g1, rfl⟩ : ∃ g1, g = g1 + 1 := ⟨g - 1, by omega⟩
              rw [parseElems_succ, hfuel g1 (by omega)]
              simp only [hsk, hc, if_true]
              rw [hfuel2 g1 (by omega)]
          · simp only [hc, if_false] at h
            by_cases hc2 : c = ']'
            · simp only [hc2, if_true, Option.some.injEq, Prod.mk.injEq] at h
              obtain ⟨rfl, rfl⟩ := h
              refine ⟨by omega, ?_⟩
              intro g hg
              obtain ⟨g1, rfl⟩ : ∃ g1, g = g1 + 1 := ⟨g - 1, by omega⟩
              rw [parseElems_succ, hfuel g1 (by omega)]
              simp only [hsk]
              rw [if_neg hc, if_pos hc2]
            · simp [hc2] at h
    · intro d s kvs rest h
      cases s with
      | nil => simp [parseMembers] at h
      | cons q r =>
        rw [parseMembers_succ] at h
        simp only [List.length_cons]
        by_cases hq : q = '"'
        · simp only [hq, if_true] at h
          cases hl : lexString none r with
          | none => rw [hl] at h; cases h
          | some p =>
            obtain ⟨k, r1⟩ := p
            have hlt1 := lexString_rest_lt r k r1 hl
            rw [hl] at h
            simp only at h
            cases hsk : skipSpace r1 with
            | nil => rw [hsk] at h; cases h
            | cons c r2 =>
              rw [hsk] at h
              simp only at h
              have hlen := skipSpace_cons_length hsk
              by_cases hc : c = ':'
              · simp only [hc, if_true] at h
                cases hv : parseValue f d (skipSpace r2) with
                | none => rw [hv] at h; cases h
                | some p =>
                  obtain ⟨v, r3⟩ := p
                  rw [hv] at h
                  simp only at h
                  obtain ⟨hlt, hfuel⟩ := ihV _ _ _ _ hv
                  have hsk2 := skipSpace_length_le r2
                  cases hsk3 : skipSpace r3 with
                  | nil => rw [hsk3] at h; cases h
                  | cons c1 r4 =>
                    rw [hsk3] at h
                    simp only at h
                    have hlen3 := skipSpace_cons_length hsk3
                    by_cases hc1 : c1 = ','
                    · simp only [hc1, if_true] at h
                      cases hm : parseMembers f d (skipSpace r4) with
                      | none => rw [hm] at h; cases h
                      | some p =>
                        obtain ⟨kvs1, r5⟩ := p
                        rw [hm] at h
                        simp only [Option.some.injEq, Prod.mk.injEq] at h
                        obtain ⟨rfl, rfl⟩ := h
                        obtain ⟨hlt5, hfuel5⟩ := ihM _ _ _ _ hm
                        have hsk4 := skipSpace_length_le r4
                        refine ⟨by omega, ?_⟩
                        intro g hg
                        obtain ⟨g1, rfl⟩ : ∃ g1, g = g1 + 1 := ⟨g - 1, by omega⟩
                        rw [parseMembers_succ]
                        simp only [hq, if_true, hl, hsk, hc]
                        rw [hfuel g1 (by omega)]
                        simp only [hsk3, hc1, if_true]
                        rw [hfuel5 g1 (by omega)]
                    · simp only [hc1, if_false] at h
                      by_cases hc2 : c1 = '}'
                      · simp only [hc2, if_true, Option.some.injEq, Prod.mk.injEq] at h
                        obtain ⟨rfl, rfl⟩ := h
                        refine ⟨by omega, ?_⟩
                        intro g hg
                        obtain ⟨g1, rfl⟩ : ∃ g1, g = g1 + 1 := ⟨g - 1, by omega⟩
                        rw [parseMembers_succ]
                        simp only [hq, if_true, hl, hsk, hc]
                        rw [hfuel g1 (by omega)]
                        simp only [hsk3]
                        rw [if_neg hc1, if_pos hc2]
                      · simp [hc2] at h
              · simp [hc] at h
        · simp [hq] at h

/-- The fuel `parse` gives the scanner is always enough: whatever value the
scanner reads from the input with any amount of fuel, `parse` reads too. -/
theorem parse_complete (data : Text) (fuel : Nat) (j : Json) (rest : Text)
    (h : parseValue fuel 0 (skipSpace data) = some (j, rest)) (hrest : skipSpace rest = []) :
    parse data = some j := by
  obtain ⟨hlt, hfuel⟩ := (parse_fuel fuel).1 _ _ _ _ h
  have hsk := skipSpace_length_le data
  unfold parse
  rw [hfuel (data.length + 1) (by omega)]
  simp [hrest]

theorem GoMap.ext {V : Type} : ∀ {a b : GoMap V}, a.entries = b.entries → a = b
  | ⟨_, _⟩, ⟨_, _⟩, rfl => rfl

/-! ## Encoded policies are number-free and shallow -/

theorem plainList_map {α : Type} (f : α → Json) (h : ∀ x, (f x).plain = true) :
    ∀ xs : List α, plainList (xs.map f) = true
  | [] => rfl
  | x :: xs => by simp [plainList, h x, plainList_map f h xs]

theorem heightList_map {α : Type} (f : α → Json) (n : Nat) (h : ∀ x, (f x).height ≤ n) :
    ∀ xs : List α, heightList (xs.map f) ≤ n
  | [] => by simp [heightList]
  | x :: xs => by
    simp only [List.map, heightList]
    exact max_le (h x) (heightList_map f n h xs)

theorem plainMembers_map {α : Type} (f : α → Text × Json) (h : ∀ x, (f x).2.plain = true) :
    ∀ xs : List α, plainMembers (xs.map f) = true
  | [] => rfl
  | x :: xs => by
    have := h x
    simp only [List.map]
    rcases hfx : f x with ⟨k, v⟩
    rw [hfx] at this
    simp [plainMembers, this, plainMembers_map f h xs]

theorem heightMembers_map {α : Type} (f : α → Text × Json) (n : Nat)
    (h : ∀ x, (f x).2.height ≤ n) : ∀ xs : List α, heightMembers (xs.map f) ≤ n
  | [] => by simp [heightMembers]
  | x :: xs => by
    have := h x
    simp only [List.map]
    rcases hfx : f x with ⟨k, v⟩
    rw [hfx] at this
    simp only [heightMembers]
    exact max_le this (heightMembers_map f n h xs)

theorem encStrings_plain (s : Strings) : (encStrings s).plain = true := by
  cases s with
  | none => rfl
  | some sl => simp [encStrings, Json.plain, plainList_map Json.str (fun _ => rfl)]

theorem encStrings_height (s : Strings) : (encStrings s).height ≤ 1 := by
  cases s with
  | none => simp [encStrings, Json.height]
  | some sl =>
    have := heightList_map Json.str 0 (fun _ => by simp [Json.height]) sl.elems
    simp only [encStrings, Json.height]
    omega

theorem encStringsMap_plain (m : Option (GoMap Strings)) : (encStringsMap m).plain = true := by
  cases m with
  | none => rfl
  | some m =>
    simp only [encStringsMap, Json.plain]
    exact plainMembers_map _ (fun kv => encStrings_plain kv.2) _

theorem encStringsMap_height (m : Option (GoMap Strings)) : (encStringsMap m).height ≤ 2 := by
  cases m with
  | none => simp [encStringsMap, Json.height]
  | some m =>
    have := heightMembers_map (fun kv : Text × Strings => (kv.1, encStrings kv.2)) 1
      (fun kv => encStrings_height kv.2) m.entries
    simp only [encStringsMap, Json.height]
    omega

theorem encHosts_plain {P : Type} (nc : PrefixCodec P) (m : Hosts P) :
    (encHosts nc m).plain = true := by
  cases m with
  | none => rfl
  | some m =>
    simp only [encHosts, Json.plain]
    exact plainMembers_map (fun kv : Text × P => (kv.1, Json.str (nc.MarshalText kv.2)))
      (fun _ => rfl) _

theorem encHosts_height {P : Type} (nc : PrefixCodec P) (m : Hosts P) :
    (encHosts nc m).height ≤ 1 := by
  cases m with
  | none => simp [encHosts, Json.height]
  | some m =>
    have := heightMembers_map (fun kv : Text × P => (kv.1, Json.str (nc.MarshalText kv.2))) 0
      (fun kv => by simp [Json.height]) m.entries
    simp only [encHosts, Json.height]
    omega

theorem encSlice_plain {α : Type} (enc : α → Json) (h : ∀ x, (enc x).plain = true)
    (s : Option (Slice α)) : (encSlice enc s).plain = true := by
  cases s with
  | none => rfl
  | some sl => simp [encSlice, Json.plain, plainList_map enc h]

theorem encSlice_height {α : Type} (enc : α → Json) (n : Nat) (h : ∀ x, (enc x).height ≤ n)
    (s : Option (Slice α)) : (encSlice enc s).height ≤ n + 1 := by
  cases s with
  | none => simp [encSlice, Json.height]
  | some sl =>
    have := heightList_map enc n h sl.elems
    simp only [encSlice, Json.height]
    omega

theorem encACL_plain (a : ACL) : (encACL a).plain = true := by
  simp [encACL, Json.plain, plainMembers, encStrings_plain]

theorem encACL_height (a : ACL) : (encACL a).height ≤ 2 := by
  have h1 := encStrings_height a.Sources
  have h2 := encStrings_height a.Destinations
  simp only [encACL, Json.height, heightMembers]
  omega

theorem encACLTest_plain (t : ACLTest) : (encACLTest t).plain = true := by
  unfold encACLTest
  split_ifs <;> simp [Json.plain, plainMembers, encStrings_plain]

theorem encACLTest_height (t : ACLTest) : (encACLTest t).height ≤ 2 := by
  have h1 := encStrings_height t.Accept
  have h2 := encStrings_height t.Deny
  unfold encACLTest
  split_ifs <;> simp only [Json.height, heightMembers, List.cons_append, List.nil_append,
    List.append_nil] <;> omega

theorem encAutoApprovers_plain (a : AutoApprovers) : (encAutoApprovers a).plain = true := by
  simp [encAutoApprovers, Json.plain, plainMembers, encStrings_plain, encStringsMap_plain]

theorem encAutoApprovers_height (a : AutoApprovers) : (encAutoApprovers a).height ≤ 3 := by
  have h1 := encStringsMap_height a.Routes
  have h2 := encStrings_height a.ExitNode
  simp only [encAutoApprovers, Json.height, heightMembers]
  omega

theorem encSSH_plain (s : SSH) : (encSSH s).plain = true := by
  unfold encSSH
  split_ifs <;> simp [Json.plain, plainMembers, encStrings_plain]

theorem encSSH_height (s : SSH) : (encSSH s).height ≤ 2 := by
  have h1 := encStrings_height s.Sources
  have h2 := encStrings_height s.Destinations
  have h3 := encStrings_height s.Users
  unfold encSSH
  split_ifs <;> simp only [Json.height, heightMembers, List.cons_append, List.nil_append,
    List.append_nil] <;> omega

theorem encACLPolicy_plain {P : Type} (nc : PrefixCodec P) (a : ACLPolicy P) :
    (encACLPolicy nc a).plain = true := by
  unfold encACLPolicy
  rw [Json.plain]
  simp only [plainMembers, encStringsMap_plain, encHosts_plain,
    encSlice_plain _ encACL_plain, encSlice_plain _ encACLTest_plain,
    encSlice_plain _ encSSH_plain, encAutoApprovers_plain, Bool.and_self]

theorem encACLPolicy_height {P : Type} (nc : PrefixCodec P) (a : ACLPolicy P) :
    (encACLPolicy nc a).height ≤ 4 := by
  have h1 := encStringsMap_height a.Groups
  have h2 := encHosts_height nc a.Hosts
  have h3 := encStringsMap_height a.TagOwners
  have h4 := encSlice_height encACL 2 encACL_height a.ACLs
  have h5 := encSlice_height encACLTest 2 encACLTest_height a.Tests
  have h6 := encAutoApprovers_height a.AutoApprovers
  have h7 := encSlice_height encSSH 2 encSSH_height a.SSHs
  unfold encACLPolicy
  rw [Json.height]
  simp only [heightMembers]
  omega

/-- Reading back what the writer wrote, compact or indented. -/
theorem parse_render (ind : Bool) (j : Json) (hp : j.plain = true)
    (hh : j.height ≤ maxNestingDepth) : parse (render ind 0 j) = some j := by
  unfold parse
  have h := parseValue_render ind j 0 ((render ind 0 j).length + 1) 0 [] hp (by omega)
    (by omega)
  rw [List.append_nil] at h
  have hs := skipSpace_render ind 0 j hp []
  rw [List.append_nil] at hs
  rw [hs, h]
  simp [skipSpace]

theorem parse_encACLPolicy {P : Type} (nc : PrefixCodec P) (ind : Bool) (a : ACLPolicy P) :
    parse (render ind 0 (encACLPolicy nc a)) = some (encACLPolicy nc a) :=
  parse_render ind _ (encACLPolicy_plain nc a)
    (by have := encACLPolicy_height nc a; simp only [maxNestingDepth]; omega)

/-! ## Decoding an encoded value -/

theorem decodeElems_enc {α : Type} (zero : α) (dec : α → Json → α × Option Err)
    (enc : α → Json) (c : α → α) (h : ∀ x, dec zero (enc x) = (c x, none)) :
    ∀ xs : List α, decodeElems zero dec [] (xs.map enc) = (xs.map c, none)
  | [] => rfl
  | x :: xs => by
    simp [decodeElems, h x, decodeElems_enc zero dec enc c h xs, firstErr]

theorem decodeSlice_enc {α : Type} (zero : α) (dec : α → Json → α × Option Err)
    (enc : α → Json) (c : α → α) (h : ∀ x, dec zero (enc x) = (c x, none))
    (s : Option (Slice α)) :
    decodeSlice zero dec none (encSlice enc s) = (canonSlice c s, none) := by
  cases s with
  | none => rfl
  | some sl =>
    obtain ⟨elems, spare⟩ := sl
    cases elems with
    | nil => rfl
    | cons x xs =>
      have := decodeElems_enc zero dec enc c h (x :: xs)
      simp only [List.map] at this
      simp [encSlice, decodeSlice, canonSlice, poolOf, this]

theorem encStrings_eq (s : Strings) : encStrings s = encSlice Json.str s := by
  cases s <;> rfl

theorem canonStrings_eq (s : Strings) : canonStrings s = canonSlice id s := by
  cases s with
  | none => rfl
  | some sl => simp [canonStrings, canonSlice]

theorem decodeStrings_enc (s : Strings) :
    decodeStrings none (encStrings s) = (canonStrings s, none) := by
  rw [encStrings_eq, canonStrings_eq]
  exact decodeSlice_enc [] decodeString Json.str id (fun _ => rfl) s

theorem insertEntry_append {V : Type} (k : Text) (v : V) :
    ∀ acc : List (Text × V), (∀ x ∈ acc, keyLt x.1 k = true) →
      insertEntry k v acc = acc ++ [(k, v)]
  | [], _ => rfl
  | (k1, v1) :: t, h => by
    have h1 : keyLt k1 k = true := h (k1, v1) (List.mem_cons_self _ _)
    have h2 : keyLt k k1 = false := keyLt_asymm _ _ h1
    have h3 : k ≠ k1 := fun e => keyLt_ne _ _ h1 e.symm
    simp only [insertEntry, h2, Bool.false_eq_true, if_false, h3, List.cons_append]
    rw [insertEntry_append k v t (fun x hx => h x (List.mem_cons_of_mem _ hx))]

theorem decodeMapEntries_entries {V : Type} (zero : V) (dec : V → Json → V × Option Err) :
    ∀ (kvs : List (Text × Json)) (m : GoMap V) (e : Option Err),
      (decodeMapEntries zero dec kvs m e).1.entries =
        kvs.foldl (fun es kv => insertEntry kv.1 (dec zero kv.2).1 es) m.entries
  | [], _, _ => rfl
  | kv :: rest, m, e => by
    simp only [decodeMapEntries, List.foldl]
    rw [decodeMapEntries_entries zero dec rest]
    rfl

theorem decodeMapEntries_err {V : Type} (zero : V) (dec : V → Json → V × Option Err) :
    ∀ (kvs : List (Text × Json)) (m : GoMap V) (e : Option Err),
      (decodeMapEntries zero dec kvs m e).2 =
        kvs.foldl (fun a kv => firstErr a (dec zero kv.2).2) e
  | [], _, _ => rfl
  | kv :: rest, m, e => by
    simp only [decodeMapEntries, List.foldl]
    rw [decodeMapEntries_err zero dec rest]

theorem foldl_insert_sorted {V : Type} :
    ∀ (l acc : List (Text × V)), KeysSorted (acc ++ l) →
      l.foldl (fun es kv => insertEntry kv.1 kv.2 es) acc = acc ++ l
  | [], acc, _ => by simp
  | kv :: l, acc, h => by
    have hlt : ∀ x ∈ acc, keyLt x.1 kv.1 = true := by
      intro x hx
      unfold KeysSorted at h
      rw [List.pairwise_append] at h
      exact h.2.2 x hx kv (List.mem_cons_self _ _)
    simp only [List.foldl]
    rw [insertEntry_append kv.1 kv.2 acc hlt]
    have := foldl_insert_sorted l (acc ++ [kv]) (by simpa using h)
    simpa using this

theorem decodeMap_enc {V : Type} (zero : V) (dec : V → Json → V × Option Err)
    (enc : V → Json) (c : V → V) (h : ∀ x, dec zero (enc x) = (c x, none))
    (m : Option (GoMap V)) :
    decodeMap zero dec none
        (match m with
          | none => Json.null
          | some m => Json.obj (m.entries.map (fun kv => (kv.1, enc kv.2)))) =
      (canonMap c m, none) := by
  cases m with
  | none => rfl
  | some m =>
    simp only [decodeMap, canonMap, Option.getD_none]
    refine Prod.ext ?_ ?_
    · simp only
      congr 1
      apply GoMap.ext
      rw [decodeMapEntries_entries]
      simp only [GoMap.empty, GoMap.mapValues, List.foldl_map, h]
      have := foldl_insert_sorted (m.entries.map (fun kv => (kv.1, c kv.2))) []
        (by simpa using keysSorted_map c m.entries m.sorted)
      simpa [List.foldl_map] using this
    · simp only
      rw [decodeMapEntries_err]
      simp only [List.foldl_map, h, firstErr]
      induction m.entries with
      | nil => rfl
      | cons x xs ih => simpa using ih

theorem decodeStringsMap_enc (m : Option (GoMap Strings)) :
    decodeStringsMap none (encStringsMap m) = (canonMap canonStrings m, none) := by
  have := decodeMap_enc none decodeStrings encStrings canonStrings decodeStrings_enc m
  cases m <;> exact this

theorem decodeHostEntries_enc {P : Type} (nc : PrefixCodec P) :
    ∀ (l : List (Text × P)) (m : GoMap P) (e : Option Err),
      (∀ kv ∈ l, nc.UnmarshalText (nc.MarshalText kv.2) = some kv.2) →
      ∃ m2 : GoMap P,
        decodeHostEntries nc (l.map (fun kv => (kv.1, Json.str (nc.MarshalText kv.2)))) m e =
          ⟨some m2, e, none⟩ ∧
        m2.entries = l.foldl (fun es kv => insertEntry kv.1 kv.2 es) m.entries
  | [], m, e, _ => ⟨m, rfl, rfl⟩
  | kv :: l, m, e, h => by
    have hkv := h kv (List.mem_cons_self _ _)
    obtain ⟨m2, h1, h2⟩ := decodeHostEntries_enc nc l (m.insert kv.1 kv.2) e
      (fun x hx => h x (List.mem_cons_of_mem _ hx))
    refine ⟨m2, ?_, ?_⟩
    · simp only [List.map, decodeHostEntries, hkv]
      exact h1
    · rw [h2]; rfl

theorem decodeHosts_enc {P : Type} (nc : PrefixCodec P) (hs : Hosts P)
    (h : ∀ kv ∈ entriesOf hs, nc.UnmarshalText (nc.MarshalText kv.2) = some kv.2) :
    decodeHosts nc none (encHosts nc hs) = ⟨canonMap id hs, none, none⟩ := by
  cases hs with
  | none => rfl
  | some m =>
    obtain ⟨m2, h1, h2⟩ := decodeHostEntries_enc nc m.entries GoMap.empty none h
    simp only [encHosts, decodeHosts, Option.getD_none, h1, canonMap]
    congr 2
    apply GoMap.ext
    rw [h2]
    have := foldl_insert_sorted m.entries [] (by simpa using m.sorted)
    simp only [GoMap.empty, GoMap.mapValues, id]
    rw [this]
    simp

theorem fieldIndex_acl :
    fieldIndex aclFields "action".toList = some 0 ∧ fieldIndex aclFields "proto".toList = some 1 ∧
    fieldIndex aclFields "src".toList = some 2 ∧ fieldIndex aclFields "dst".toList = some 3 := by
  decide

theorem fieldIndex_aclTest :
    fieldIndex aclTestFields "src".toList = some 0 ∧
    fieldIndex aclTestFields "accept".toList = some 1 ∧
    fieldIndex aclTestFields "deny".toList = some 2 := by
  decide

theorem fieldIndex_autoApprovers :
    fieldIndex autoApproversFields "routes".toList = some 0 ∧
    fieldIndex autoApproversFields "exitNode".toList = some 1 := by
  decide

theorem fieldIndex_ssh :
    fieldIndex sshFields "action".toList = some 0 ∧ fieldIndex sshFields "src".toList = some 1 ∧
    fieldIndex sshFields "dst".toList = some 2 ∧ fieldIndex sshFields "users".toList = some 3 ∧
    fieldIndex sshFields "checkPeriod".toList = some 4 := by
  decide

theorem fieldIndex_policy :
    fieldIndex policyFields "groups".toList = some 0 ∧
    fieldIndex policyFields "hosts".toList = some 1 ∧
    fieldIndex policyFields "tagOwners".toList = some 2 ∧
    fieldIndex policyFields "acls".toList = some 3 ∧
    fieldIndex policyFields "tests".toList = some 4 ∧
    fieldIndex policyFields "autoApprovers".toList = some 5 ∧
    fieldIndex policyFields "ssh".toList = some 6 := by
  decide

theorem decodeString_str (cur s : Text) : decodeString cur (Json.str s) = (s, none) := rfl

theorem decodeACL_enc (a : ACL) : decodeACL ACL.zero (encACL a) = (canonACL a, none) := by
  obtain ⟨h0, h1, h2, h3⟩ := fieldIndex_acl
  simp only [encACL, decodeACL, List.foldl, stepACL, h0, h1, h2, h3, ACL.zero,
    decodeString_str, decodeStrings_enc, firstErr, canonACL]

theorem decodeACLTest_enc (t : ACLTest) :
    decodeACLTest ACLTest.zero (encACLTest t) = (canonACLTest t, none) := by
  obtain ⟨h0, h1, h2⟩ := fieldIndex_aclTest
  unfold encACLTest canonACLTest
  split_ifs <;>
  simp only [decodeACLTest, List.foldl, stepACLTest, h0, h1, h2, ACLTest.zero,
    decodeString_str, decodeStrings_enc, firstErr, List.cons_append, List.nil_append,
    List.append_nil]

theorem decodeAutoApprovers_enc (a : AutoApprovers) :
    decodeAutoApprovers AutoApprovers.zero (encAutoApprovers a) = (canonAutoApprovers a, none) := by
  obtain ⟨h0, h1⟩ := fieldIndex_autoApprovers
  simp only [encAutoApprovers, decodeAutoApprovers, List.foldl, stepAutoApprovers, h0, h1,
    AutoApprovers.zero, decodeStrings_enc, decodeStringsMap_enc, firstErr, canonAutoApprovers]

theorem decodeSSH_enc (s : SSH) : decodeSSH SSH.zero (encSSH s) = (canonSSH s, none) := by
  obtain ⟨h0, h1, h2, h3, h4⟩ := fieldIndex_ssh
  unfold encSSH canonSSH
  split_ifs with hc
  · have : s.CheckPeriod = [] := by simpa using hc
    simp only [decodeSSH, List.foldl, stepSSH, h0, h1, h2, h3, h4, SSH.zero,
      decodeString_str, decodeStrings_enc, firstErr, List.cons_append, List.nil_append,
      List.append_nil, this]
  · simp only [decodeSSH, List.foldl, stepSSH, h0, h1, h2, h3, h4, SSH.zero,
      decodeString_str, decodeStrings_enc, firstErr, List.cons_append, List.nil_append,
      List.append_nil]

theorem decodePolicy_enc {P : Type} (nc : PrefixCodec P) (p : ACLPolicy P)
    (h : HostsStable nc p) :
    decodePolicy nc ACLPolicy.zero (encACLPolicy nc p) = ⟨canon p, none, none⟩ := by
  obtain ⟨h0, h1, h2, h3, h4, h5, h6⟩ := fieldIndex_policy
  have hh := decodeHosts_enc nc p.Hosts h
  have ha := decodeSlice_enc ACL.zero decodeACL encACL canonACL decodeACL_enc p.ACLs
  have ht := decodeSlice_enc ACLTest.zero decodeACLTest encACLTest canonACLTest
    decodeACLTest_enc p.Tests
  have hs := decodeSlice_enc SSH.zero decodeSSH encSSH canonSSH decodeSSH_enc p.SSHs
  simp only [encACLPolicy, decodePolicy, List.foldl, stepPolicy, h0, h1, h2, h3, h4, h5, h6,
    ACLPolicy.zero, decodeStringsMap_enc, hh, ha, ht, hs, decodeAutoApprovers_enc,
    firstErr, Option.isSome_none, Bool.false_eq_true, if_false, canon]

/-- Decoding the compact text of a policy into the zero policy. -/
theorem unmarshal_marshal {P : Type} (nc : PrefixCodec P) (p : ACLPolicy P)
    (h : HostsStable nc p) :
    Unmarshal nc (Marshal nc p) ACLPolicy.zero = (canon p, none) := by
  unfold Unmarshal Marshal
  rw [parse_encACLPolicy nc false p]
  simp only [decodePolicy_enc nc p h, firstErr]

/-! ## When decoding succeeds -/

theorem firstErr_eq_none (a b : Option Err) : firstErr a b = none ↔ a = none ∧ b = none := by
  cases a <;> simp [firstErr]

theorem decodeString_ok (cur : Text) (j : Json) :
    (decodeString cur j).2 = none ↔ fitsString j = true := by
  cases j <;> simp [decodeString, fitsString]

theorem decodeElems_ok {α : Type} (zero : α) (dec : α → Json → α × Option Err)
    (f : Json → Bool) (h : ∀ cur j, (dec cur j).2 = none ↔ f j = true) :
    ∀ (js : List Json) (pool : List α),
      (decodeElems zero dec pool js).2 = none ↔ js.all f = true
  | [], _ => by simp [decodeElems]
  | j :: js, pool => by
    simp only [decodeElems, firstErr_eq_none, h, decodeElems_ok zero dec f h js,
      List.all_cons, Bool.and_eq_true]

theorem decodeSlice_ok {α : Type} (zero : α) (dec : α → Json → α × Option Err)
    (f : Json → Bool) (h : ∀ cur j, (dec cur j).2 = none ↔ f j = true)
    (cur : Option (Slice α)) (j : Json) :
    (decodeSlice zero dec cur j).2 = none ↔ fitsSliceOf f j = true := by
  cases j with
  | arr js =>
    cases js with
    | nil => simp [decodeSlice, fitsSliceOf]
    | cons x xs =>
      simp only [decodeSlice, fitsSliceOf]
      exact decodeElems_ok zero dec f h (x :: xs) _
  | _ => simp [decodeSlice, fitsSliceOf]

theorem decodeStrings_ok (cur : Strings) (j : Json) :
    (decodeStrings cur j).2 = none ↔ fitsStrings j = true :=
  decodeSlice_ok [] decodeString fitsString decodeString_ok cur j

theorem foldl_firstErr_ok {β : Type} (g : β → Option Err) (f : β → Bool)
    (h : ∀ x, g x = none ↔ f x = true) :
    ∀ (l : List β) (e : Option Err),
      l.foldl (fun a x => firstErr a (g x)) e = none ↔ e = none ∧ l.all f = true
  | [], e => by simp
  | x :: l, e => by
    simp only [List.foldl, foldl_firstErr_ok g f h l, firstErr_eq_none, h, List.all_cons,
      Bool.and_eq_true, and_assoc]

theorem decodeMap_ok {V : Type} (zero : V) (dec : V → Json → V × Option Err)
    (f : Json → Bool) (h : ∀ cur j, (dec cur j).2 = none ↔ f j = true)
    (cur : Option (GoMap V)) (j : Json) :
    (decodeMap zero dec cur j).2 = none ↔
      (match j with
        | .obj kvs => kvs.all (fun kv => f kv.2)
        | .null => true
        | _ => false) = true := by
  cases j with
  | obj kvs =>
    simp only [decodeMap, decodeMapEntries_err]
    rw [foldl_firstErr_ok (fun kv : Text × Json => (dec zero kv.2).2) (fun kv => f kv.2)
      (fun kv => h zero kv.2)]
    simp
  | _ => simp [decodeMap]

theorem decodeStringsMap_ok (cur : Option (GoMap Strings)) (j : Json) :
    (decodeStringsMap cur j).2 = none ↔ fitsStringsMap j = true := by
  have := decodeMap_ok none decodeStrings fitsStrings decodeStrings_ok cur j
  cases j <;> simpa [decodeStringsMap, fitsStringsMap] using this

theorem decodeHostEntries_ok {P : Type} (nc : PrefixCodec P) :
    ∀ (kvs : List (Text × Json)) (m : GoMap P) (e : Option Err),
      ((decodeHostEntries nc kvs m e).saved = none ∧ (decodeHostEntries nc kvs m e).abort = none) ↔
        (e = none ∧ kvs.all (fun kv => fitsHostValue nc kv.2) = true)
  | [], m, e => by simp [decodeHostEntries]
  | kv :: rest, m, e => by
    obtain ⟨k, v⟩ := kv
    cases v with
    | str s =>
      cases hu : nc.UnmarshalText s with
      | none => simp [decodeHostEntries, hu, fitsHostValue]
      | some p =>
        simp only [decodeHostEntries, hu, decodeHostEntries_ok nc rest, List.all_cons,
          fitsHostValue, Option.isSome_some, Bool.true_and]
    | null =>
      simp only [decodeHostEntries, decodeHostEntries_ok nc rest, List.all_cons,
        fitsHostValue, Bool.true_and]
    | bool b =>
      simp [decodeHostEntries, decodeHostEntries_ok nc rest, fitsHostValue, firstErr_eq_none]
    | num l =>
      simp [decodeHostEntries, decodeHostEntries_ok nc rest, fitsHostValue, firstErr_eq_none]
    | arr xs =>
      simp [decodeHostEntries, decodeHostEntries_ok nc rest, fitsHostValue, firstErr_eq_none]
    | obj xs =>
      simp [decodeHostEntries, decodeHostEntries_ok nc rest, fitsHostValue, firstErr_eq_none]

theorem decodeHosts_ok {P : Type} (nc : PrefixCodec P) (cur : Hosts P) (j : Json) :
    ((decodeHosts nc cur j).saved = none ∧ (decodeHosts nc cur j).abort = none) ↔
      fitsHosts nc j = true := by
  cases j with
  | obj kvs =>
    simp only [decodeHosts, fitsHosts, decodeHostEntries_ok nc kvs, true_and]
  | _ => simp [decodeHosts, fitsHosts]

theorem foldl_step_ok {α β : Type} (step : α × Option Err → β → α × Option Err)
    (f : β → Bool) (h : ∀ acc x, (step acc x).2 = none ↔ acc.2 = none ∧ f x = true) :
    ∀ (l : List β) (acc : α × Option Err),
      (l.foldl step acc).2 = none ↔ acc.2 = none ∧ l.all f = true
  | [], acc => by simp
  | x :: l, acc => by
    simp only [List.foldl, foldl_step_ok step f h l, h, List.all_cons, Bool.and_eq_true,
      and_assoc]

theorem stepACL_ok (acc : ACL × Option Err) (kv : Text × Json) :
    (stepACL acc kv).2 = none ↔ acc.2 = none ∧ fitsACLMember kv = true := by
  unfold stepACL fitsACLMember
  split <;> simp [firstErr_eq_none, decodeString_ok, decodeStrings_ok]

theorem decodeACL_ok (cur : ACL) (j : Json) :
    (decodeACL cur j).2 = none ↔ fitsACL j = true := by
  cases j with
  | obj kvs => simp [decodeACL, fitsACL, foldl_step_ok stepACL fitsACLMember stepACL_ok]
  | _ => simp [decodeACL, fitsACL]

theorem stepACLTest_ok (acc : ACLTest × Option Err) (kv : Text × Json) :
    (stepACLTest acc kv).2 = none ↔ acc.2 = none ∧ fitsACLTestMember kv = true := by
  unfold stepACLTest fitsACLTestMember
  split <;> simp [firstErr_eq_none, decodeString_ok, decodeStrings_ok]

theorem decodeACLTest_ok (cur : ACLTest) (j : Json) :
    (decodeACLTest cur j).2 = none ↔ fitsACLTest j = true := by
  cases j with
  | obj kvs =>
    simp [decodeACLTest, fitsACLTest, foldl_step_ok stepACLTest fitsACLTestMember stepACLTest_ok]
  | _ => simp [decodeACLTest, fitsACLTest]

theorem stepAutoApprovers_ok (acc : AutoApprovers × Option Err) (kv : Text × Json) :
    (stepAutoApprovers acc kv).2 = none ↔ acc.2 = none ∧ fitsAutoApproversMember kv = true := by
  unfold stepAutoApprovers fitsAutoApproversMember
  split <;> simp [firstErr_eq_none, decodeStringsMap_ok, decodeStrings_ok]

theorem decodeAutoApprovers_ok (cur : AutoApprovers) (j : Json) :
    (decodeAutoApprovers cur j).2 = none ↔ fitsAutoApprovers j = true := by
  cases j with
  | obj kvs =>
    simp [decodeAutoApprovers, fitsAutoApprovers,
      foldl_step_ok stepAutoApprovers fitsAutoApproversMember stepAutoApprovers_ok]
  | _ => simp [decodeAutoApprovers, fitsAutoApprovers]

theorem stepSSH_ok (acc : SSH × Option Err) (kv : Text × Json) :
    (stepSSH acc kv).2 = none ↔ acc.2 = none ∧ fitsSSHMember kv = true := by
  unfold stepSSH fitsSSHMember
  split <;> simp [firstErr_eq_none, decodeString_ok, decodeStrings_ok]

theorem decodeSSH_ok (cur : SSH) (j : Json) :
    (decodeSSH cur j).2 = none ↔ fitsSSH j = true := by
  cases j with
  | obj kvs => simp [decodeSSH, fitsSSH, foldl_step_ok stepSSH fitsSSHMember stepSSH_ok]
  | _ => simp [decodeSSH, fitsSSH]

theorem stepPolicy_ok {P : Type} (nc : PrefixCodec P) (st : DecodeState P) (kv : Text × Json) :
    (stepPolicy nc st kv).ok ↔ st.ok ∧ fitsPolicyMember nc kv = true := by
  unfold stepPolicy
  by_cases ha : st.abort.isSome = true
  · simp only [ha, if_true, DecodeState.ok]
    constructor
    · rintro ⟨_, h2⟩; rw [h2] at ha; simp at ha
    · rintro ⟨h, _⟩; exact h
  · have hab : st.abort = none := by
      cases h : st.abort with
      | none => rfl
      | some e => rw [h] at ha; simp at ha
    simp only [ha, Bool.false_eq_true, if_false]
    unfold fitsPolicyMember
    rcases hfi : fieldIndex policyFields kv.1 with _ | i
    · simp [DecodeState.ok, hab]
    · rcases i with _ | _ | _ | _ | _ | _ | _ | n
      all_goals simp [DecodeState.ok, hab, fitsField, firstErr_eq_none, decodeStringsMap_ok,
        decodeSlice_ok _ _ _ decodeACL_ok, decodeSlice_ok _ _ _ decodeACLTest_ok,
        decodeSlice_ok _ _ _ decodeSSH_ok, decodeAutoApprovers_ok, and_assoc, decodeHosts_ok]

theorem foldl_stepPolicy_ok {P : Type} (nc : PrefixCodec P) :
    ∀ (kvs : List (Text × Json)) (st : DecodeState P),
      (kvs.foldl (stepPolicy nc) st).ok ↔ st.ok ∧ kvs.all (fitsPolicyMember nc) = true
  | [], st => by simp
  | kv :: kvs, st => by
    simp only [List.foldl, foldl_stepPolicy_ok nc kvs, stepPolicy_ok, List.all_cons,
      Bool.and_eq_true, and_assoc]

theorem decodePolicy_ok {P : Type} (nc : PrefixCodec P) (cur : ACLPolicy P) (j : Json) :
    (decodePolicy nc cur j).ok ↔ fitsPolicy nc j = true := by
  cases j with
  | obj kvs =>
    simp only [decodePolicy, fitsPolicy]
    rw [foldl_stepPolicy_ok]
    simp [DecodeState.ok]
  | _ => simp [decodePolicy, fitsPolicy, DecodeState.ok]

/-- `Unmarshal` returns no error exactly on the text of a JSON value that
fits the policy type. -/
theorem unmarshal_ok_iff {P : Type} (nc : PrefixCodec P) (data : Text) (v : ACLPolicy P) :
    (Unmarshal nc data v).2 = none ↔ ∃ j, parse data = some j ∧ fitsPolicy nc j = true := by
  unfold Unmarshal
  cases hp : parse data with
  | none => simp
  | some j =>
    simp only [firstErr_eq_none, Option.some.injEq, exists_eq_left']
    rw [← decodePolicy_ok nc v j]
    unfold DecodeState.ok
    tauto

/-! ## Fields no member selects -/

theorem sameField_refl {P : Type} (i : Nat) (p : ACLPolicy P) : sameField i p p := by
  unfold sameField; split <;> trivial

theorem sameField_trans {P : Type} (i : Nat) (p q r : ACLPolicy P)
    (h1 : sameField i p q) (h2 : sameField i q r) : sameField i p r := by
  unfold sameField at *
  split at h1 <;> simp_all

theorem stepPolicy_sameField {P : Type} (nc : PrefixCodec P) (i : Nat) (st : DecodeState P)
    (kv : Text × Json) (h : fieldIndex policyFields kv.1 ≠ some i) :
    sameField i (stepPolicy nc st kv).val st.val := by
  unfold stepPolicy
  by_cases ha : st.abort.isSome = true
  · simp only [ha, if_true]; exact sameField_refl i _
  · simp only [ha, Bool.false_eq_true, if_false]
    rcases hfi : fieldIndex policyFields kv.1 with _ | k
    · exact sameField_refl i _
    · have hki : k ≠ i := fun e => h (by rw [hfi, e])
      rcases k with _ | _ | _ | _ | _ | _ | _ | n
      all_goals rcases i with _ | _ | _ | _ | _ | _ | _ | m
      all_goals first
        | exact absurd rfl hki
        | simp [sameField]

theorem foldl_stepPolicy_sameField {P : Type} (nc : PrefixCodec P) (i : Nat) :
    ∀ (kvs : List (Text × Json)) (st : DecodeState P),
      (∀ kv ∈ kvs, fieldIndex policyFields kv.1 ≠ some i) →
      sameField i (kvs.foldl (stepPolicy nc) st).val st.val
  | [], st, _ => sameField_refl i _
  | kv :: kvs, st, h => by
    simp only [List.foldl]
    exact sameField_trans i _ _ _
      (foldl_stepPolicy_sameField nc i kvs _ (fun x hx => h x (List.mem_cons_of_mem _ hx)))
      (stepPolicy_sameField nc i st kv (h kv (List.mem_cons_self _ _)))

theorem fieldEmpty_of_sameField_zero {P : Type} (i : Nat) (p : ACLPolicy P)
    (h : sameField i p ACLPolicy.zero) : fieldEmpty i p := by
  unfold sameField at h
  unfold fieldEmpty
  split at h <;> simp_all [ACLPolicy.zero, AutoApprovers.zero, entriesOf, elemsOf]

/-! ## Hosts read from text are stable -/

theorem decodeHostEntries_stable {P : Type} (nc : PrefixCodec P) (hl : nc.Lawful) :
    ∀ (kvs : List (Text × Json)) (m : GoMap P) (e : Option Err),
      (∀ kv ∈ m.entries, nc.UnmarshalText (nc.MarshalText kv.2) = some kv.2) →
      ∀ kv ∈ entriesOf (decodeHostEntries nc kvs m e).val,
        nc.UnmarshalText (nc.MarshalText kv.2) = some kv.2
  | [], m, e, h => by
    haveI : Inhabited P := ⟨nc.zero⟩
    simpa [decodeHostEntries, entriesOf] using h
  | kv :: rest, m, e, h => by
    haveI : Inhabited P := ⟨nc.zero⟩
    have ins : ∀ p : P, nc.UnmarshalText (nc.MarshalText p) = some p →
        ∀ x ∈ (m.insert kv.1 p).entries, nc.UnmarshalText (nc.MarshalText x.2) = some x.2 := by
      intro p hp x hx
      rcases mem_insertEntry kv.1 p m.entries x hx with rfl | hx
      · exact hp
      · exact h x hx
    obtain ⟨k, v⟩ := kv
    cases v with
    | str s =>
      cases hu : nc.UnmarshalText s with
      | none => simpa [decodeHostEntries, hu, entriesOf] using h
      | some p =>
        simp only [decodeHostEntries, hu]
        exact decodeHostEntries_stable nc hl rest _ e (ins p (hl.1 s p hu))
    | null =>
      simp only [decodeHostEntries]
      exact decodeHostEntries_stable nc hl rest _ e (ins nc.zero hl.2)
    | bool b =>
      simp only [decodeHostEntries]
      exact decodeHostEntries_stable nc hl rest _ _ (ins nc.zero hl.2)
    | num l =>
      simp only [decodeHostEntries]
      exact decodeHostEntries_stable nc hl rest _ _ (ins nc.zero hl.2)
    | arr xs =>
      simp only [decodeHostEntries]
      exact decodeHostEntries_stable nc hl rest _ _ (ins nc.zero hl.2)
    | obj xs =>
      simp only [decodeHostEntries]
      exact decodeHostEntries_stable nc hl rest _ _ (ins nc.zero hl.2)

theorem decodeHosts_stable {P : Type} (nc : PrefixCodec P) (hl : nc.Lawful) (cur : Hosts P)
    (j : Json) (h : ∀ kv ∈ entriesOf cur, nc.UnmarshalText (nc.MarshalText kv.2) = some kv.2) :
    ∀ kv ∈ entriesOf (decodeHosts nc cur j).val,
      nc.UnmarshalText (nc.MarshalText kv.2) = some kv.2 := by
  haveI : Inhabited P := ⟨nc.zero⟩
  cases j with
  | obj kvs =>
    simp only [decodeHosts]
    apply decodeHostEntries_stable nc hl
    cases cur with
    | none => simp [GoMap.empty]
    | some m => simpa [entriesOf] using h
  | null => simp [decodeHosts, entriesOf]
  | bool b => simpa [decodeHosts] using h
  | num l => simpa [decodeHosts] using h
  | str s => simpa [decodeHosts] using h
  | arr xs => simpa [decodeHosts] using h

theorem stepPolicy_stable {P : Type} (nc : PrefixCodec P) (hl : nc.Lawful)
    (st : DecodeState P) (kv : Text × Json) (h : HostsStable nc st.val) :
    HostsStable nc (stepPolicy nc st kv).val := by
  by_cases h1 : fieldIndex policyFields kv.1 = some 1
  · unfold stepPolicy
    by_cases ha : st.abort.isSome = true
    · simpa only [ha, if_true] using h
    · simp only [ha, Bool.false_eq_true, if_false, h1]
      exact decodeHosts_stable nc hl _ _ h
  · have := stepPolicy_sameField nc 1 st kv h1
    unfold HostsStable
    simp only [sameField] at this
    rw [this]
    exact h

theorem foldl_stepPolicy_stable {P : Type} (nc : PrefixCodec P) (hl : nc.Lawful) :
    ∀ (kvs : List (Text × Json)) (st : DecodeState P), HostsStable nc st.val →
      HostsStable nc (kvs.foldl (stepPolicy nc) st).val
  | [], _, h => h
  | kv :: kvs, st, h => by
    simp only [List.foldl]
    exact foldl_stepPolicy_stable nc hl kvs _ (stepPolicy_stable nc hl st kv h)

theorem unmarshal_stable {P : Type} (nc : PrefixCodec P) (hl : nc.Lawful) (data : Text)
    (v : ACLPolicy P) (h : HostsStable nc v) : HostsStable nc (Unmarshal nc data v).1 := by
  unfold Unmarshal
  cases parse data with
  | none => exact h
  | some j =>
    cases j with
    | obj kvs => exact foldl_stepPolicy_stable nc hl kvs _ h
    | null => exact h
    | bool b => exact h
    | num l => exact h
    | str s => exact h
    | arr xs => exact h

theorem hostsStable_zero {P : Type} (nc : PrefixCodec P) :
    HostsStable nc (ACLPolicy.zero : ACLPolicy P) := by
  intro kv hkv
  simp [ACLPolicy.zero, entriesOf] at hkv

/-! ## The decoded encoding is deep-equal to the original -/

theorem normStrings_canon (s : Strings) : normStrings (canonStrings s) = normStrings s := by
  cases s <;> rfl

theorem normSlice_canon {α : Type} (f c : α → α) (h : ∀ x, f (c x) = f x)
    (s : Option (Slice α)) : normSlice f (canonSlice c s) = normSlice f s := by
  cases s with
  | none => rfl
  | some sl => simp [normSlice, canonSlice, elemsOf, h]

theorem normMap_canon {V : Type} (f c : V → V) (h : ∀ x, f (c x) = f x)
    (m : Option (GoMap V)) : normMap f (canonMap c m) = normMap f m := by
  cases m with
  | none => rfl
  | some m =>
    simp only [normMap, canonMap, Option.some.injEq]
    apply GoMap.ext
    simp [entriesOf, GoMap.mapValues, h]

theorem normACL_canon (a : ACL) : normACL (canonACL a) = normACL a := by
  simp [normACL, canonACL, normStrings_canon]

theorem normACLTest_canon (t : ACLTest) : normACLTest (canonACLTest t) = normACLTest t := by
  unfold normACLTest canonACLTest
  split_ifs with h
  · have : elemsOf t.Deny = [] := by simpa using h
    have e1 : normStrings (none : Strings) = normStrings t.Deny := by
      unfold normStrings; rw [this]; rfl
    simp only [normStrings_canon, e1]
  · simp only [normStrings_canon]

theorem normAutoApprovers_canon (a : AutoApprovers) :
    normAutoApprovers (canonAutoApprovers a) = normAutoApprovers a := by
  simp [normAutoApprovers, canonAutoApprovers, normStrings_canon,
    normMap_canon normStrings canonStrings normStrings_canon]

theorem normSSH_canon (s : SSH) : normSSH (canonSSH s) = normSSH s := by
  simp [normSSH, canonSSH, normStrings_canon]

theorem deepEq_canon {P : Type} (p : ACLPolicy P) : ACLPolicy.DeepEq (canon p) p := by
  unfold ACLPolicy.DeepEq normalize canon
  simp only [normMap_canon normStrings canonStrings normStrings_canon,
    normMap_canon id id (fun _ => rfl), normSlice_canon normACL canonACL normACL_canon,
    normSlice_canon normACLTest canonACLTest normACLTest_canon,
    normSlice_canon normSSH canonSSH normSSH_canon, normAutoApprovers_canon]

/-! ## The decoded encoding is written like the original -/

theorem encStrings_canon (s : Strings) : encStrings (canonStrings s) = encStrings s := by
  cases s <;> rfl

theorem encSlice_canon {α : Type} (enc : α → Json) (c : α → α) (h : ∀ x, enc (c x) = enc x)
    (s : Option (Slice α)) : encSlice enc (canonSlice c s) = encSlice enc s := by
  cases s with
  | none => rfl
  | some sl => simp [encSlice, canonSlice, h]

theorem encStringsMap_canon (m : Option (GoMap Strings)) :
    encStringsMap (canonMap canonStrings m) = encStringsMap m := by
  cases m with
  | none => rfl
  | some m => simp [encStringsMap, canonMap, GoMap.mapValues, encStrings_canon]

theorem encHosts_canon {P : Type} (nc : PrefixCodec P) (m : Hosts P) :
    encHosts nc (canonMap id m) = encHosts nc m := by
  cases m with
  | none => rfl
  | some m => simp [encHosts, canonMap, GoMap.mapValues]

theorem encACL_canon (a : ACL) : encACL (canonACL a) = encACL a := by
  simp [encACL, canonACL, encStrings_canon]

theorem elemsOf_canonStrings (s : Strings) : elemsOf (canonStrings s) = elemsOf s := by
  cases s <;> rfl

theorem encACLTest_canon (t : ACLTest) : encACLTest (canonACLTest t) = encACLTest t := by
  unfold encACLTest canonACLTest
  by_cases h : (elemsOf t.Deny).isEmpty = true
  · have e1 : (elemsOf (none : Strings)).isEmpty = true := rfl
    simp only [h, if_true, encStrings_canon, e1]
  · simp only [h, Bool.false_eq_true, if_false, encStrings_canon, elemsOf_canonStrings]

theorem encAutoApprovers_canon (a : AutoApprovers) :
    encAutoApprovers (canonAutoApprovers a) = encAutoApprovers a := by
  simp [encAutoApprovers, canonAutoApprovers, encStrings_canon, encStringsMap_canon]

theorem encSSH_canon (s : SSH) : encSSH (canonSSH s) = encSSH s := by
  simp [encSSH, canonSSH, encStrings_canon]

theorem encACLPolicy_canon {P : Type} (nc : PrefixCodec P) (p : ACLPolicy P) :
    encACLPolicy nc (canon p) = encACLPolicy nc p := by
  simp only [encACLPolicy, canon, encStringsMap_canon, encHosts_canon,
    encSlice_canon encACL canonACL encACL_canon,
    encSlice_canon encACLTest canonACLTest encACLTest_canon,
    encSlice_canon encSSH canonSSH encSSH_canon, encAutoApprovers_canon]

/-! ## The indented text is the two-space layout of the compact text -/

theorem indentGo_esc (fresh : Bool) (d : Nat) (c : Char) (s : Text) :
    indentGo true true fresh d (c :: s) = c :: indentGo true false fresh d s := by
  rw [indentGo]

theorem indentGo_str (fresh : Bool) (d : Nat) (c : Char) (s : Text) :
    indentGo true false fresh d (c :: s) =
      if c = '\\' then c :: indentGo true true fresh d s
      else if c = '"' then c :: indentGo false false fresh d s
      else c :: indentGo true false fresh d s := by
  rw [indentGo]

theorem indentGo_out (e fresh : Bool) (d : Nat) (c : Char) (s : Text) :
    indentGo false e fresh d (c :: s) =
      if isSpace c then indentGo false false fresh d s
      else if c = '}' ∨ c = ']' then
        if fresh then c :: indentGo false false false d s
        else
          '\n' :: (List.replicate (2 * (d - 1)) ' ' ++
            c :: indentGo false false false (d - 1) s)
      else
        (if fresh then '\n' :: List.replicate (2 * (d + 1)) ' ' else []) ++
          (if c = '{' ∨ c = '[' then
            c :: indentGo false false true (if fresh then d + 1 else d) s
          else if c = ',' then
            c :: '\n' :: (List.replicate (2 * (if fresh then d + 1 else d)) ' ' ++
              indentGo false false false (if fresh then d + 1 else d) s)
          else if c = ':' then
            c :: ' ' :: indentGo false false false (if fresh then d + 1 else d) s
          else if c = '"' then
            c :: indentGo true false false (if fresh then d + 1 else d) s
          else c :: indentGo false false false (if fresh then d + 1 else d) s) := by
  rw [indentGo]

theorem hexDigit_plain : ∀ n, n < 16 → hexDigit n ≠ '"' ∧ hexDigit n ≠ '\\' := by
  decide

theorem indentGo_escapeChar (fresh : Bool) (d : Nat) (c : Char) (t : Text) :
    indentGo true false fresh d (escapeChar c ++ t) =
      escapeChar c ++ indentGo true false fresh d t := by
  unfold escapeChar
  split_ifs with h1 h2 h3 h4 h5 h6
  · simp [indentGo_str, indentGo_esc]
  · simp [indentGo_str, indentGo_esc]
  · simp [indentGo_str, indentGo_esc]
  · simp [indentGo_str, indentGo_esc]
  · have hn : c.toNat / 16 < 16 := by
      rcases h5 with h | h | h | h
      · omega
      · subst h; decide
      · subst h; decide
      · subst h; decide
    have hm : c.toNat % 16 < 16 := Nat.mod_lt _ (by decide)
    simp [indentGo_str, indentGo_esc, (hexDigit_plain _ hn).1, (hexDigit_plain _ hn).2,
      (hexDigit_plain _ hm).1, (hexDigit_plain _ hm).2]
  · have hm : c.toNat % 16 < 16 := Nat.mod_lt _ (by decide)
    simp [indentGo_str, indentGo_esc, (hexDigit_plain _ hm).1, (hexDigit_plain _ hm).2]
  · push_neg at h1
    simp [indentGo_str, h1.1, h1.2]

theorem indentGo_escape (fresh : Bool) (d : Nat) (s t : Text) :
    indentGo true false fresh d (escape s ++ t) = escape s ++ indentGo true false fresh d t := by
  induction s with
  | nil => rfl
  | cons c s ih =>
    simp only [escape, List.append_assoc]
    rw [indentGo_escapeChar, ih]

/-- A string literal outside a string: copied as it is. -/
theorem indentGo_quote (e fresh : Bool) (d : Nat) (s rest : Text) :
    indentGo false e fresh d (quote s ++ rest) =
      (if fresh then '\n' :: List.replicate (2 * (d + 1)) ' ' else []) ++
        (quote s ++ indentGo false false false (if fresh then d + 1 else d) rest) := by
  rw [quote_append, indentGo_out]
  have h1 : isSpace '"' = false := by decide
  cases fresh <;>
    simp [h1, indentGo_escape, indentGo_str, quote_append]

mutual
theorem indentGo_render : ∀ (j : Json) (d0 : Nat) (e fresh : Bool) (d : Nat) (rest : Text),
    j.plain = true →
    indentGo false e fresh d (render false d0 j ++ rest) =
      (if fresh then '\n' :: List.replicate (2 * (d + 1)) ' ' else []) ++
        (render true (if fresh then d + 1 else d) j ++
          indentGo false false false (if fresh then d + 1 else d) rest)
  | .null, d0, e, fresh, d, rest, _ => by
    cases fresh <;> simp [render, indentGo_out, isSpace]
  | .bool b, d0, e, fresh, d, rest, _ => by
    cases fresh <;> cases b <;> simp [render, indentGo_out, isSpace]
  | .num l, _, _, _, _, _, hp => by simp [Json.plain] at hp
  | .str s, d0, e, fresh, d, rest, _ => by
    simp only [render]
    exact indentGo_quote e fresh d s rest
  | .arr [], d0, e, fresh, d, rest, _ => by
    cases fresh <;> simp [render, renderElems, indentGo_out, isSpace]
  | .arr (x :: xs), d0, e, fresh, d, rest, hp => by
    have hpx : x.plain = true := by simp [Json.plain, plainList] at hp; exact hp.1
    have hpxs : plainList xs = true := by simp [Json.plain, plainList] at hp; exact hp.2
    have hx := fun D => indentGo_render x (d0 + 1) false true D
      (renderElemsTail false d0 xs ++ rest) hpx
    have ht := fun D => indentGo_elemsTail xs d0 D rest hpxs
    cases fresh <;>
      simp [render, renderElems, newline, indentGo_out, isSpace, hx, ht]
  | .obj [], d0, e, fresh, d, rest, _ => by
    cases fresh <;> simp [render, renderMembers, indentGo_out, isSpace]
  | .obj ((k, v) :: kvs), d0, e, fresh, d, rest, hp => by
    have hpv : v.plain = true := by simp [Json.plain, plainMembers] at hp; exact hp.1
    have hpkvs : plainMembers kvs = true := by simp [Json.plain, plainMembers] at hp; exact hp.2
    have hv := fun D => indentGo_render v (d0 + 1) false false D
      (renderMembersTail false d0 kvs ++ rest) hpv
    have ht := fun D => indentGo_membersTail kvs d0 D rest hpkvs
    have hq := fun D (t : Text) => indentGo_quote false true D k t
    cases fresh <;>
      simp [render, renderMembers, newline, colonGap, indentGo_out, isSpace, hq, hv, ht]
theorem indentGo_elemsTail : ∀ (xs : List Json) (d0 d : Nat) (rest : Text),
    plainList xs = true →
    indentGo false false false (d + 1) (renderElemsTail false d0 xs ++ rest) =
      renderElemsTail true d xs ++ indentGo false false false d rest
  | [], d0, d, rest, _ => by
    simp [renderElemsTail, newline, indentGo_out, isSpace]
  | x :: xs, d0, d, rest, hp => by
    have hpx : x.plain = true := by simp [plainList] at hp; exact hp.1
    have hpxs : plainList xs = true := by simp [plainList] at hp; exact hp.2
    have hx := indentGo_render x (d0 + 1) false false (d + 1)
      (renderElemsTail false d0 xs ++ rest) hpx
    have ht := indentGo_elemsTail xs d0 d rest hpxs
    simp only [Bool.false_eq_true, if_false, List.nil_append] at hx
    simp [renderElemsTail, newline, indentGo_out, isSpace, hx, ht]
theorem indentGo_membersTail : ∀ (kvs : List (Text × Json)) (d0 d : Nat) (rest : Text),
    plainMembers kvs = true →
    indentGo false false false (d + 1) (renderMembersTail false d0 kvs ++ rest) =
      renderMembersTail true d kvs ++ indentGo false false false d rest
  | [], d0, d, rest, _ => by
    simp [renderMembersTail, newline, indentGo_out, isSpace]
  | (k, v) :: kvs, d0, d, rest, hp => by
    have hpv : v.plain = true := by simp [plainMembers] at hp; exact hp.1
    have hpkvs : plainMembers kvs = true := by simp [plainMembers] at hp; exact hp.2
    have hv := indentGo_render v (d0 + 1) false false (d + 1)
      (renderMembersTail false d0 kvs ++ rest) hpv
    have ht := indentGo_membersTail kvs d0 d rest hpkvs
    have hq := fun (t : Text) => indentGo_quote false false (d + 1) k t
    simp only [Bool.false_eq_true, if_false, List.nil_append] at hv hq
    simp [renderMembersTail, newline, colonGap, indentGo_out, isSpace, hq, hv, ht]
end

/-- The indented text of a number-free value is the two-space layout of its
compact text. -/
theorem render_indentTwoSpaces (j : Json) (hp : j.plain = true) :
    render true 0 j = indentTwoSpaces (render false 0 j) := by
  have h := indentGo_render j 0 false false 0 [] hp
  simp only [List.append_nil, Bool.false_eq_true, if_false, List.nil_append] at h
  unfold indentTwoSpaces
  rw [h]
  simp [indentGo]

/-- What `get` prints for a policy is the two-space layout of what `Value`
stores for it. -/
theorem marshalIndent_layout {P : Type} (nc : PrefixCodec P) (p : ACLPolicy P) :
    MarshalIndent nc (some p) = indentTwoSpaces (Marshal nc p) :=
  render_indentTwoSpaces _ (encACLPolicy_plain nc p)

/-! ## The writer and the decoder on concrete inputs -/

set_option maxRecDepth 100000 in
/-- The compact text of the zero policy. -/
theorem marshal_zero :
    Marshal cidr4 ACLPolicy.zero =
      "\x7b\"groups\":null,\"hosts\":null,\"tagOwners\":null,\"acls\":null,\"tests\":null,\"autoApprovers\":\x7b\"routes\":null,\"exitNode\":null\x7d,\"ssh\":null\x7d".toList := by
  decide

set_option maxRecDepth 100000 in
/-- The indented text of a policy with one host and one empty rule list. -/
theorem marshalIndent_sample :
    MarshalIndent cidr4 (some { (ACLPolicy.zero : ACLPolicy Text) with
        Hosts := some ⟨[("db".toList, "10.0.0.0/8".toList)], List.pairwise_singleton _ _⟩,
        ACLs := some ⟨[], []⟩ }) =
      "\x7b\n  \"groups\": null,\n  \"hosts\": \x7b\n    \"db\": \"10.0.0.0/8\"\n  \x7d,\n  \"tagOwners\": null,\n  \"acls\": [],\n  \"tests\": null,\n  \"autoApprovers\": \x7b\n    \"routes\": null,\n    \"exitNode\": null\n  \x7d,\n  \"ssh\": null\n\x7d".toList := by
  decide

set_option maxRecDepth 100000 in
/-- The two-space layout of a compact text with nesting, empty containers and
punctuation inside a string. -/
theorem indentTwoSpaces_sample :
    indentTwoSpaces
        "\x7b\"a\":[true,\x7b\"b\":\"x,y:[\\\"z\"\x7d],\"c\":\x7b\x7d,\"d\":[]\x7d".toList =
      "\x7b\n  \"a\": [\n    true,\n    \x7b\n      \"b\": \"x,y:[\\\"z\"\n    \x7d\n  ],\n  \"c\": \x7b\x7d,\n  \"d\": []\n\x7d".toList := by
  decide

/-- What `LoadConfig` makes of the sample file: keys are matched, the host is
read by `netip`, fields without a member stay nil. -/
theorem loadConfig_sample :
    LoadConfig cidr4 sampleFs "/app/policy.json".toList =
      Except.ok { (ACLPolicy.zero : ACLPolicy Text) with
        Hosts := some ⟨[("db".toList, "10.0.0.0/8".toList)], List.pairwise_singleton _ _⟩,
        ACLs := some ⟨[⟨"accept".toList, [], none, some ⟨["db:5432".toList], []⟩⟩], []⟩ } := by
  rfl

/-! ## The codec contract -/

theorem scan_value {P : Type} (nc : PrefixCodec P) (p : ACLPolicy P) (h : HostsStable nc p) :
    ACLPolicy.Scan nc ACLPolicy.zero (ACLPolicy.Value nc p).1 = (canon p, none) := by
  simp only [ACLPolicy.Scan, ACLPolicy.Value, unmarshal_marshal nc p h]

/-- C1, as amended: for every policy `p` (its strings being valid UTF-8) in
which every host prefix is one `netip` reads back from the text it writes for
it, as it does for the zero prefix and for every valid prefix, `Value` succeeds,
and `Scan` of the text it gives into the zero policy returns no error and a
policy equal to `p` field for field, an absent and an empty collection counting
as equal. -/
theorem value_scan_roundtrip {P : Type} (nc : PrefixCodec P) (p : ACLPolicy P)
    (h : HostsStable nc p) :
    (ACLPolicy.Value nc p).2 = none ∧
      ∃ q, ACLPolicy.Scan nc ACLPolicy.zero (ACLPolicy.Value nc p).1 = (q, none) ∧
        ACLPolicy.DeepEq q p :=
  ⟨rfl, canon p, scan_value nc p h, deepEq_canon p⟩

theorem samplePolicy_stable : HostsStable cidr4 samplePolicy := by
  intro kv hkv
  simp only [samplePolicy, entriesOf, List.mem_singleton] at hkv
  subst hkv
  decide

/-- C1 as amended, at the sample policy. -/
theorem value_scan_roundtrip_witness :
    HostsStable cidr4 samplePolicy ∧
      ((ACLPolicy.Value cidr4 samplePolicy).2 = none ∧
        ∃ q, ACLPolicy.Scan cidr4 ACLPolicy.zero (ACLPolicy.Value cidr4 samplePolicy).1 =
            (q, none) ∧ ACLPolicy.DeepEq q samplePolicy) :=
  ⟨samplePolicy_stable, value_scan_roundtrip cidr4 samplePolicy samplePolicy_stable⟩

set_option maxRecDepth 100000 in
/-- C1, as stated, fails at the policy whose only host is the invalid prefix
`netip.PrefixFrom(10.0.0.0, 99)`: `Value` succeeds and writes the host as
`invalid Prefix`, and `Scan` of that text into the zero policy returns the error
of `UnmarshalText`. -/
theorem value_scan_invalid_prefix :
    ACLPolicy.Value cidr4 { (ACLPolicy.zero : ACLPolicy Text) with
        Hosts := some ⟨[("a".toList, "10.0.0.0/99".toList)], List.pairwise_singleton _ _⟩ } =
      (DriverValue.str
        "\x7b\"groups\":null,\"hosts\":\x7b\"a\":\"invalid Prefix\"\x7d,\"tagOwners\":null,\"acls\":null,\"tests\":null,\"autoApprovers\":\x7b\"routes\":null,\"exitNode\":null\x7d,\"ssh\":null\x7d".toList,
        none) ∧
      (ACLPolicy.Scan cidr4 ACLPolicy.zero
        (ACLPolicy.Value cidr4 { (ACLPolicy.zero : ACLPolicy Text) with
          Hosts := some ⟨[("a".toList, "10.0.0.0/99".toList)],
            List.pairwise_singleton _ _⟩ }).1).2 =
        some (Err.prefixText "invalid Prefix".toList) := by
  decide

/-- C5: `Scan` of a byte sequence and of a string carrying the text `t` are
both exactly `json.Unmarshal` of `t` into the receiver (so the two agree), and
`Scan` of any other kind of value, NULL included, leaves the receiver alone and
returns the unexpected-data-type error. -/
theorem scan_storage_boundary {P : Type} (nc : PrefixCodec P) (a : ACLPolicy P)
    (v : DriverValue) :
    match v with
    | .bytes t =>
      ACLPolicy.Scan nc a v = Unmarshal nc t a ∧
        ACLPolicy.Scan nc a (DriverValue.bytes t) = ACLPolicy.Scan nc a (DriverValue.str t)
    | .str t =>
      ACLPolicy.Scan nc a v = Unmarshal nc t a ∧
        ACLPolicy.Scan nc a (DriverValue.str t) = ACLPolicy.Scan nc a (DriverValue.bytes t)
    | _ => ACLPolicy.Scan nc a v = (a, some (Err.unexpectedDataType v.goType)) := by
  cases v <;> simp [ACLPolicy.Scan]

theorem cidr4_lawful : cidr4.Lawful := by
  constructor
  · intro s v h
    simp only [cidr4] at h ⊢
    split_ifs at h with hc
    cases h
    simp [hc]
  · decide

/-- C8: for every policy the text `Value` stores in the column and the text
`get` prints are JSON objects whose top-level keys are, in this order, `groups`,
`hosts`, `tagOwners`, `acls`, `tests`, `autoApprovers`, `ssh`. -/
theorem encoded_keys {P : Type} (nc : PrefixCodec P) (p : ACLPolicy P) :
    (ACLPolicy.Value nc p).1 = DriverValue.str (Marshal nc p) ∧
      topLevelKeys (Marshal nc p) =
        some ["groups".toList, "hosts".toList, "tagOwners".toList, "acls".toList,
          "tests".toList, "autoApprovers".toList, "ssh".toList] ∧
      topLevelKeys (MarshalIndent nc (some p)) =
        some ["groups".toList, "hosts".toList, "tagOwners".toList, "acls".toList,
          "tests".toList, "autoApprovers".toList, "ssh".toList] := by
  refine ⟨rfl, ?_, ?_⟩
  · unfold topLevelKeys Marshal
    rw [parse_encACLPolicy nc false p]
    rfl
  · unfold topLevelKeys MarshalIndent
    simp only
    rw [parse_encACLPolicy nc true p]
    rfl

set_option maxRecDepth 100000 in
/-- C8, as stated, fails at the zero policy: the seventh key of the stored
text is `ssh`, and the key list is not the one ending in `sshs`. -/
theorem encoded_keys_not_sshs :
    topLevelKeys (Marshal cidr4 ACLPolicy.zero) =
        some ["groups".toList, "hosts".toList, "tagOwners".toList, "acls".toList,
          "tests".toList, "autoApprovers".toList, "ssh".toList] ∧
      topLevelKeys (Marshal cidr4 ACLPolicy.zero) ≠
        some ["groups".toList, "hosts".toList, "tagOwners".toList, "acls".toList,
          "tests".toList, "autoApprovers".toList, "sshs".toList] := by
  decide

/-! ## Decoding errors -/

theorem fitsPolicy_false_of_member {P : Type} (nc : PrefixCodec P) (kvs : List (Text × Json))
    (kv : Text × Json) (i : Nat) (hm : kv ∈ kvs) (hi : fieldIndex policyFields kv.1 = some i)
    (hf : fitsField nc i kv.2 = false) : fitsPolicy nc (Json.obj kvs) = false := by
  cases h : fitsPolicy nc (Json.obj kvs) with
  | false => rfl
  | true =>
    simp only [fitsPolicy, List.all_eq_true] at h
    have := h kv hm
    simp [fitsPolicyMember, hi, hf] at this

theorem fitsField_hosts_false {P : Type} (nc : PrefixCodec P) (hs : List (Text × Json))
    (name t : Text) (hm : (name, Json.str t) ∈ hs) (ht : nc.UnmarshalText t = none) :
    fitsField nc 1 (Json.obj hs) = false := by
  cases h : fitsField nc 1 (Json.obj hs) with
  | false => rfl
  | true =>
    simp only [fitsField, fitsHosts, List.all_eq_true] at h
    have := h _ hm
    simp [fitsHostValue, ht] at this

theorem unmarshal_error {P : Type} (nc : PrefixCodec P) (body : Text) (a : ACLPolicy P)
    (h : parse body = none ∨
      (∃ kvs kv i, parse body = some (Json.obj kvs) ∧ kv ∈ kvs ∧
        fieldIndex policyFields kv.1 = some i ∧ fitsField nc i kv.2 = false) ∨
      (∃ kvs k hs name t, parse body = some (Json.obj kvs) ∧ (k, Json.obj hs) ∈ kvs ∧
        fieldIndex policyFields k = some 1 ∧ (name, Json.str t) ∈ hs ∧
        nc.UnmarshalText t = none)) :
    (Unmarshal nc body a).2 ≠ none := by
  intro hok
  obtain ⟨j, hj, hfit⟩ := (unmarshal_ok_iff nc body a).1 hok
  rcases h with h | ⟨kvs, kv, i, hp, hm, hi, hf⟩ | ⟨kvs, k, hs, name, t, hp, hm, hi, hn, ht⟩
  · rw [h] at hj; cases hj
  · rw [hp] at hj
    cases hj
    rw [fitsPolicy_false_of_member nc kvs kv i hm hi hf] at hfit
    cases hfit
  · rw [hp] at hj
    cases hj
    rw [fitsPolicy_false_of_member nc kvs (k, Json.obj hs) 1 hm hi
      (fitsField_hosts_false nc hs name t hn ht)] at hfit
    cases hfit

theorem unmarshal_syntax_error {P : Type} (nc : PrefixCodec P) (body : Text) (a : ACLPolicy P)
    (h : parse body = none) : Unmarshal nc body a = (a, some Err.invalidJson) := by
  simp only [Unmarshal, h]

/-- C4, as amended: when the text is not well-formed JSON, or some member of its
top-level object selects a policy field and holds a value that does not fit
that field (a value of the wrong type at any level, such as a string for
`acls`), or some value under `hosts` is a string that
`netip.Prefix.UnmarshalText` rejects, then `LoadConfig` on a file with that text
returns an error and no policy, and `Scan` of that text, as a string or as
bytes, returns an error; when the text is not JSON, `Scan` leaves its receiver as
it was. -/
theorem decode_rejects_malformed {P : Type} (nc : PrefixCodec P) (body : Text)
    (fs : FileSystem) (path : Text) (a : ACLPolicy P)
    (hread : fs.read path = ReadOutcome.contents body)
    (h : parse body = none ∨
      (∃ kvs kv i, parse body = some (Json.obj kvs) ∧ kv ∈ kvs ∧
        fieldIndex policyFields kv.1 = some i ∧ fitsField nc i kv.2 = false) ∨
      (∃ kvs k hs name t, parse body = some (Json.obj kvs) ∧ (k, Json.obj hs) ∈ kvs ∧
        fieldIndex policyFields k = some 1 ∧ (name, Json.str t) ∈ hs ∧
        nc.UnmarshalText t = none)) :
    (∃ e, LoadConfig nc fs path = Except.error (LoadError.unmarshalFailed e)) ∧
      (ACLPolicy.Scan nc a (DriverValue.str body)).2 ≠ none ∧
      (ACLPolicy.Scan nc a (DriverValue.bytes body)).2 ≠ none ∧
      (parse body = none →
        LoadConfig nc fs path = Except.error (LoadError.unmarshalFailed Err.invalidJson) ∧
        ACLPolicy.Scan nc a (DriverValue.str body) = (a, some Err.invalidJson) ∧
        ACLPolicy.Scan nc a (DriverValue.bytes body) = (a, some Err.invalidJson)) := by
  refine ⟨?_, unmarshal_error nc body a h, unmarshal_error nc body a h, ?_⟩
  · have := unmarshal_error nc body ACLPolicy.zero h
    unfold LoadConfig
    rw [hread]
    cases he : (Unmarshal nc body ACLPolicy.zero).2 with
    | none => exact absurd he this
    | some e => exact ⟨e, by simp only [he]⟩
  · intro hp
    refine ⟨?_, unmarshal_syntax_error nc body a hp, unmarshal_syntax_error nc body a hp⟩
    unfold LoadConfig
    rw [hread]
    simp only [unmarshal_syntax_error nc body ACLPolicy.zero hp]

/-- C4 as amended, at the three texts the specification names: a host that
is not CIDR text, `acls` holding a string, and text that is not JSON. -/
theorem decode_rejects_malformed_witness :
    ((∃ e, LoadConfig cidr4 sampleFs "/app/hosts.json".toList =
          Except.error (LoadError.unmarshalFailed e)) ∧
        (ACLPolicy.Scan cidr4 ACLPolicy.zero (DriverValue.str
          "\x7b\"hosts\": \x7b\"a\": \"not-a-cidr\"\x7d\x7d".toList)).2 ≠ none ∧
        (ACLPolicy.Scan cidr4 ACLPolicy.zero (DriverValue.bytes
          "\x7b\"hosts\": \x7b\"a\": \"not-a-cidr\"\x7d\x7d".toList)).2 ≠ none) ∧
      ((∃ e, LoadConfig cidr4 sampleFs "/app/acls.json".toList =
          Except.error (LoadError.unmarshalFailed e)) ∧
        (ACLPolicy.Scan cidr4 ACLPolicy.zero (DriverValue.str
          "\x7b\"acls\": \"not-a-list\"\x7d".toList)).2 ≠ none ∧
        (ACLPolicy.Scan cidr4 ACLPolicy.zero (DriverValue.bytes
          "\x7b\"acls\": \"not-a-list\"\x7d".toList)).2 ≠ none) ∧
      (LoadConfig cidr4 sampleFs "/app/text.json".toList =
          Except.error (LoadError.unmarshalFailed Err.invalidJson) ∧
        ACLPolicy.Scan cidr4 samplePolicy (DriverValue.str "not json".toList) =
          (samplePolicy, some Err.invalidJson) ∧
        ACLPolicy.Scan cidr4 samplePolicy (DriverValue.bytes "not json".toList) =
          (samplePolicy, some Err.invalidJson)) :=
  have h1 := decode_rejects_malformed cidr4
    "\x7b\"hosts\": \x7b\"a\": \"not-a-cidr\"\x7d\x7d".toList sampleFs "/app/hosts.json".toList
    ACLPolicy.zero (by decide)
    (Or.inr (Or.inr ⟨[("hosts".toList, Json.obj [("a".toList, Json.str "not-a-cidr".toList)])],
      "hosts".toList, [("a".toList, Json.str "not-a-cidr".toList)], "a".toList,
      "not-a-cidr".toList, by rfl, by simp, by decide, by simp, by decide⟩))
  have h2 := decode_rejects_malformed cidr4
    "\x7b\"acls\": \"not-a-list\"\x7d".toList sampleFs "/app/acls.json".toList
    ACLPolicy.zero (by decide)
    (Or.inr (Or.inl ⟨[("acls".toList, Json.str "not-a-list".toList)],
      ("acls".toList, Json.str "not-a-list".toList), 3,
      by rfl, by simp, by decide, by decide⟩))
  have h3 := decode_rejects_malformed cidr4 "not json".toList sampleFs "/app/text.json".toList
    samplePolicy (by decide) (Or.inl (by rfl))
  ⟨⟨h1.1, h1.2.1, h1.2.2.1⟩, ⟨h2.1, h2.2.1, h2.2.2.1⟩, h3.2.2.2 (by rfl)⟩

/-- C4, as stated, fails at `{"hosts": {"a": ""}}`: the empty string is not
CIDR text, yet `UnmarshalText` takes it as the zero prefix, so `LoadConfig`
returns a policy and `Scan` returns no error. -/
theorem decode_accepts_empty_host :
    isCidr4 [] = false ∧
      LoadConfig cidr4 sampleFs "/app/empty-host.json".toList =
        Except.ok { (ACLPolicy.zero : ACLPolicy Text) with
          Hosts := some ⟨[("a".toList, [])], List.pairwise_singleton _ _⟩ } ∧
      ACLPolicy.Scan cidr4 ACLPolicy.zero
          (DriverValue.str "\x7b\"hosts\": \x7b\"a\": \"\"\x7d\x7d".toList) =
        ({ (ACLPolicy.zero : ACLPolicy Text) with
          Hosts := some ⟨[("a".toList, [])], List.pairwise_singleton _ _⟩ }, none) :=
  ⟨by decide, by rfl, by rfl⟩

/-! ## Omitted fields -/

theorem unmarshal_omitted {P : Type} (nc : PrefixCodec P) (body : Text)
    (kvs : List (Text × Json)) (i : Nat) (hparse : parse body = some (Json.obj kvs))
    (hfits : fitsPolicy nc (Json.obj kvs) = true)
    (hom : ∀ kv ∈ kvs, fieldIndex policyFields kv.1 ≠ some i) :
    (Unmarshal nc body ACLPolicy.zero).2 = none ∧
      fieldEmpty i (Unmarshal nc body ACLPolicy.zero).1 := by
  refine ⟨(unmarshal_ok_iff nc body _).2 ⟨_, hparse, hfits⟩, ?_⟩
  apply fieldEmpty_of_sameField_zero
  unfold Unmarshal
  rw [hparse]
  exact foldl_stepPolicy_sameField nc i kvs _ hom

/-- C9, as amended: for the text of a JSON object whose members fit the
fields they select and in which no member selects the `i`-th policy field,
decoding succeeds, from a file (`LoadConfig`) and from the column (`Scan` into
the zero policy, string or bytes), all three give the same policy, and its
`i`-th field is empty. -/
theorem omitted_field_empty {P : Type} (nc : PrefixCodec P) (body : Text)
    (kvs : List (Text × Json)) (fs : FileSystem) (path : Text) (i : Nat)
    (hparse : parse body = some (Json.obj kvs))
    (hfits : fitsPolicy nc (Json.obj kvs) = true)
    (hread : fs.read path = ReadOutcome.contents body)
    (hom : ∀ kv ∈ kvs, fieldIndex policyFields kv.1 ≠ some i) :
    ∃ p, LoadConfig nc fs path = Except.ok p ∧
      ACLPolicy.Scan nc ACLPolicy.zero (DriverValue.str body) = (p, none) ∧
      ACLPolicy.Scan nc ACLPolicy.zero (DriverValue.bytes body) = (p, none) ∧
      fieldEmpty i p := by
  obtain ⟨hok, hempty⟩ := unmarshal_omitted nc body kvs i hparse hfits hom
  refine ⟨(Unmarshal nc body ACLPolicy.zero).1, ?_, ?_, ?_, hempty⟩
  · unfold LoadConfig
    rw [hread]
    simp only [hok]
  · simp only [ACLPolicy.Scan]
    exact Prod.ext rfl hok
  · simp only [ACLPolicy.Scan]
    exact Prod.ext rfl hok

/-- C9 as amended, at the sample file, which has no `groups` member. -/
theorem omitted_field_empty_witness :
    ∃ p, LoadConfig cidr4 sampleFs "/app/policy.json".toList = Except.ok p ∧
      ACLPolicy.Scan cidr4 ACLPolicy.zero (DriverValue.str sampleFile) = (p, none) ∧
      ACLPolicy.Scan cidr4 ACLPolicy.zero (DriverValue.bytes sampleFile) = (p, none) ∧
      fieldEmpty 0 p :=
  omitted_field_empty cidr4 sampleFile
    [("hosts".toList, Json.obj [("db".toList, Json.str "10.0.0.0/8".toList)]),
      ("acls".toList, Json.arr [Json.obj [("action".toList, Json.str "accept".toList),
        ("dst".toList, Json.arr [Json.str "db:5432".toList])]])]
    sampleFs "/app/policy.json".toList 0 (by rfl) (by decide) (by decide) (by decide)

/-- C9, as stated, fails at `{"acls": "not-a-list"}`: the text is a well-formed
JSON object with no `groups` member, and decoding it returns an error. -/
theorem omitted_field_decode_fails :
    (∃ kvs, parse "\x7b\"acls\": \"not-a-list\"\x7d".toList = some (Json.obj kvs) ∧
        ∀ kv ∈ kvs, fieldIndex policyFields kv.1 ≠ some 0) ∧
      LoadConfig cidr4 sampleFs "/app/acls.json".toList =
        Except.error (LoadError.unmarshalFailed (Err.typeMismatch "string")) ∧
      (ACLPolicy.Scan cidr4 ACLPolicy.zero
        (DriverValue.str "\x7b\"acls\": \"not-a-list\"\x7d".toList)).2 =
          some (Err.typeMismatch "string") :=
  ⟨⟨[("acls".toList, Json.str "not-a-list".toList)], by rfl, by decide⟩, by rfl, by decide⟩

/-! ## The tool -/

theorem loadConfig_stable {P : Type} (nc : PrefixCodec P) (hl : nc.Lawful) (fs : FileSystem)
    (path : Text) (p : ACLPolicy P) (hload : LoadConfig nc fs path = Except.ok p) :
    HostsStable nc p := by
  unfold LoadConfig at hload
  cases hr : fs.read path with
  | openError m => rw [hr] at hload; cases hload
  | readError m => rw [hr] at hload; cases hload
  | contents body =>
    rw [hr] at hload
    simp only at hload
    cases he : (Unmarshal nc body ACLPolicy.zero).2 with
    | some e => rw [he] at hload; cases hload
    | none =>
      rw [he] at hload
      cases hload
      exact unmarshal_stable nc hl body _ (hostsStable_zero nc)

theorem world_rows_of_db (w : World) (rows : List OrganizationRow) (h : w.db = some rows) :
    w.rows = rows := by
  simp only [World.rows, h]

theorem main_panics {P : Type} (nc : PrefixCodec P) (flags : Flags) (w : World)
    (hdb : w.db = none) :
    main nc flags w =
      { w with
        dbLog := w.dbLog ++
          [DbOp.connect
            (GetFilePath w "db.sqlite".toList ++ "?_synchronous=1&_journal_mode=WAL".toList)],
        panicked := true } := by
  simp only [main, OpenDB, hdb, if_true]

theorem main_set_ok {P : Type} (nc : PrefixCodec P) (w : World) (file : Text) (wt : Bool)
    (p : ACLPolicy P) (rows : List OrganizationRow) (hdb : w.db = some rows)
    (hload : LoadConfig nc w.fs (GetFilePath w file) = Except.ok p) :
    main nc ⟨"set".toList, file, wt⟩ w =
      { w with
        dbLog := w.dbLog ++
          [DbOp.connect
              (GetFilePath w "db.sqlite".toList ++ "?_synchronous=1&_journal_mode=WAL".toList),
            DbOp.exec "PRAGMA foreign_keys=ON", DbOp.update (columnValue nc ⟨some p⟩)],
        db := some (Updates nc ⟨some p⟩ rows),
        panicked := false } := by
  have hne : ¬ ("set".toList = "get".toList) := by decide
  simp only [GetFilePath] at hload
  simp [main, hne, OpenDB, GetFilePath, hload, hdb, World.rows]

theorem main_get {P : Type} (nc : PrefixCodec P) (w : World) (file : Text) (wt : Bool)
    (rows : List OrganizationRow) (hdb : w.db = some rows) :
    (main nc ⟨"get".toList, file, wt⟩ w).stdout =
      w.stdout ++ [Printed.line (MarshalIndent nc (Take nc rows).1.AclPolicy)] := by
  cases wt <;> simp [main, OpenDB, hdb, World.rows]

/-- C3: when `set` is run with a file that `LoadConfig` decodes to `p`, the
table keeps its rows (same keys, same order), the policy column of every one
of them holds the text `Value` gives for `p`, and `Scan` of that column into a
fresh policy returns no error and a policy deep-equal to `p`. The `netip` text
codec is taken to read back what it wrote for a prefix it has read. (When the
database does not open there is no row the program reaches.) -/
theorem set_updates_every_row {P : Type} (nc : PrefixCodec P) (hl : nc.Lawful) (w : World)
    (file : Text) (wt : Bool) (p : ACLPolicy P)
    (hload : LoadConfig nc w.fs (GetFilePath w file) = Except.ok p) :
    (main nc ⟨"set".toList, file, wt⟩ w).rows.map OrganizationRow.ID =
        w.rows.map OrganizationRow.ID ∧
      ∀ r ∈ (main nc ⟨"set".toList, file, wt⟩ w).rows,
        r.AclPolicy = (ACLPolicy.Value nc p).1 ∧
          ∃ q, ACLPolicy.Scan nc ACLPolicy.zero r.AclPolicy = (q, none) ∧
            ACLPolicy.DeepEq q p := by
  cases hdb : w.db with
  | none =>
    rw [main_panics nc _ w hdb]
    simp [World.rows, hdb]
  | some rows =>
    rw [main_set_ok nc w file wt p rows hdb hload]
    constructor
    · simp [World.rows, hdb, Updates, Function.comp_def]
    · intro r hr
      simp only [World.rows, Updates, List.mem_map] at hr
      obtain ⟨r0, _, rfl⟩ := hr
      exact ⟨rfl, canon p, scan_value nc p (loadConfig_stable nc hl _ _ p hload),
        deepEq_canon p⟩

/-- C3 at a table of two rows holding distinct policies. -/
theorem set_updates_every_row_witness :
    ∃ p, LoadConfig cidr4 sampleFs "/app/policy.json".toList = Except.ok p ∧
      ((main cidr4 ⟨"set".toList, "policy.json".toList, false⟩
          (sampleWorld [⟨1, DriverValue.str "\x7b\x7d".toList⟩, ⟨2, DriverValue.null⟩])).rows.map
            OrganizationRow.ID =
          (sampleWorld [⟨1, DriverValue.str "\x7b\x7d".toList⟩,
            ⟨2, DriverValue.null⟩]).rows.map OrganizationRow.ID ∧
        ∀ r ∈ (main cidr4 ⟨"set".toList, "policy.json".toList, false⟩
            (sampleWorld [⟨1, DriverValue.str "\x7b\x7d".toList⟩, ⟨2, DriverValue.null⟩])).rows,
          r.AclPolicy = (ACLPolicy.Value cidr4 p).1 ∧
            ∃ q, ACLPolicy.Scan cidr4 ACLPolicy.zero r.AclPolicy = (q, none) ∧
              ACLPolicy.DeepEq q p) :=
  ⟨(Unmarshal cidr4 sampleFile ACLPolicy.zero).1, by rfl,
    set_updates_every_row cidr4 cidr4_lawful
      (sampleWorld [⟨1, DriverValue.str "\x7b\x7d".toList⟩, ⟨2, DriverValue.null⟩])
      "policy.json".toList false _ (by rfl)⟩

theorem take_after_updates {P : Type} (nc : PrefixCodec P) (p : ACLPolicy P)
    (h : HostsStable nc p) (rows : List OrganizationRow) (hrows : rows ≠ []) :
    Take nc (Updates nc ⟨some p⟩ rows) = (⟨some (canon p)⟩, none) := by
  cases rows with
  | nil => exact absurd rfl hrows
  | cons r rs =>
    have hs := scan_value nc p h
    simp only [ACLPolicy.Value] at hs
    simp only [Updates, List.map, Take, columnValue, ACLPolicy.Value, hs, Option.map_none']

/-- C2, as amended: when the table has at least one row and `set` is run with
a file that `LoadConfig` decodes to `p`, a following `get` prints the indented
JSON of a policy deep-equal to `p` (it is the same text as the indented JSON of
`p` itself). The `netip` text codec is taken to read back what it wrote for a
prefix it has read. -/
theorem get_after_set {P : Type} (nc : PrefixCodec P) (hl : nc.Lawful) (w : World)
    (file : Text) (wt : Bool) (file2 : Text) (wt2 : Bool) (p : ACLPolicy P)
    (hrows : w.rows ≠ [])
    (hload : LoadConfig nc w.fs (GetFilePath w file) = Except.ok p) :
    ∃ q, (main nc ⟨"get".toList, file2, wt2⟩ (main nc ⟨"set".toList, file, wt⟩ w)).stdout =
          w.stdout ++ [Printed.line (MarshalIndent nc (some q))] ∧
        ACLPolicy.DeepEq q p ∧ MarshalIndent nc (some q) = MarshalIndent nc (some p) := by
  have hst := loadConfig_stable nc hl _ _ p hload
  refine ⟨canon p, ?_, deepEq_canon p, ?_⟩
  · cases hdb : w.db with
    | none => simp [World.rows, hdb] at hrows
    | some rows =>
      have hne : rows ≠ [] := by simpa [World.rows, hdb] using hrows
      rw [main_get nc _ file2 wt2 (Updates nc ⟨some p⟩ rows)
        (by rw [main_set_ok nc w file wt p rows hdb hload]),
        main_set_ok nc w file wt p rows hdb hload]
      simp only [take_after_updates nc p hst rows hne]
  · simp only [MarshalIndent, encACLPolicy_canon]

/-- C2 as amended, at a table of two rows and the sample file. -/
theorem get_after_set_witness :
    ∃ p, LoadConfig cidr4 sampleFs "/app/policy.json".toList = Except.ok p ∧
      ∃ q, (main cidr4 ⟨"get".toList, "policy.json".toList, false⟩
            (main cidr4 ⟨"set".toList, "policy.json".toList, false⟩
              (sampleWorld [⟨1, DriverValue.str "\x7b\x7d".toList⟩,
                ⟨2, DriverValue.null⟩]))).stdout =
          (sampleWorld [⟨1, DriverValue.str "\x7b\x7d".toList⟩, ⟨2, DriverValue.null⟩]).stdout ++
            [Printed.line (MarshalIndent cidr4 (some q))] ∧
        ACLPolicy.DeepEq q p ∧ MarshalIndent cidr4 (some q) = MarshalIndent cidr4 (some p) :=
  ⟨(Unmarshal cidr4 sampleFile ACLPolicy.zero).1, by rfl,
    get_after_set cidr4 cidr4_lawful
      (sampleWorld [⟨1, DriverValue.str "\x7b\x7d".toList⟩, ⟨2, DriverValue.null⟩])
      "policy.json".toList false "policy.json".toList false _
      (by simp [sampleWorld, World.rows]) (by rfl)⟩

theorem marshalIndent_some_ne_null {P : Type} (nc : PrefixCodec P) (q : ACLPolicy P) :
    MarshalIndent nc (some q) ≠ "null".toList := by
  simp only [MarshalIndent, encACLPolicy]
  rw [render]
  intro h
  have := congrArg List.head? h
  simp at this

/-- C2, as stated, fails on a table without rows: the sample file is well
formed, `set` updates nothing, and the following `get` prints `null`, which
is not the JSON of any policy. -/
theorem get_after_set_empty_table :
    (∃ p, LoadConfig cidr4 sampleFs "/app/policy.json".toList = Except.ok p) ∧
      (main cidr4 ⟨"get".toList, "policy.json".toList, false⟩
          (main cidr4 ⟨"set".toList, "policy.json".toList, false⟩ (sampleWorld []))).stdout =
        [Printed.line "null".toList] ∧
      ∀ q : ACLPolicy Text, MarshalIndent cidr4 (some q) ≠ "null".toList :=
  ⟨⟨_, by rfl⟩, by rfl, marshalIndent_some_ne_null cidr4⟩

/-- C6, as amended: when the table has no row, the query of `get` fails with
the not-found error (and `Scan` is never called, so not with a decode error),
but `get` does not report it: it prints the line `null`, what it prints for a
row whose policy is NULL, writes nothing else, and leaves the table empty. -/
theorem get_on_empty_table {P : Type} (nc : PrefixCodec P) (w : World) (file : Text)
    (wt : Bool) (hrows : w.db = some []) :
    (Take nc w.rows : Organization P × Option DbError).2 = some DbError.recordNotFound ∧
      (main nc ⟨"get".toList, file, wt⟩ w).stdout = w.stdout ++ [Printed.line "null".toList] ∧
      (main nc ⟨"get".toList, file, wt⟩ w).stdout =
        (main nc ⟨"get".toList, file, wt⟩ { w with db := some [⟨0, DriverValue.null⟩] }).stdout ∧
      (main nc ⟨"get".toList, file, wt⟩ w).rows = [] := by
  refine ⟨by rw [world_rows_of_db w [] hrows]; rfl, ?_, ?_, ?_⟩
  · rw [main_get nc w file wt [] hrows]; rfl
  · rw [main_get nc w file wt [] hrows, main_get nc _ file wt [⟨0, DriverValue.null⟩] rfl]; rfl
  · cases wt <;> simp [main, OpenDB, hrows, World.rows]

/-- C6 as amended, at the sample world without rows. -/
theorem get_on_empty_table_witness :
    (Take cidr4 (sampleWorld []).rows).2 = some DbError.recordNotFound ∧
      (main cidr4 ⟨"get".toList, "policy.json".toList, false⟩ (sampleWorld [])).stdout =
        (sampleWorld []).stdout ++ [Printed.line "null".toList] ∧
      (main cidr4 ⟨"get".toList, "policy.json".toList, false⟩ (sampleWorld [])).stdout =
        (main cidr4 ⟨"get".toList, "policy.json".toList, false⟩
          { sampleWorld [] with db := some [⟨0, DriverValue.null⟩] }).stdout ∧
      (main cidr4 ⟨"get".toList, "policy.json".toList, false⟩ (sampleWorld [])).rows = [] :=
  get_on_empty_table cidr4 (sampleWorld []) "policy.json".toList false rfl

/-- C6, as stated, fails on the sample world without rows: everything `get`
hands to its caller is the printed line `null`, no error among it, the same
output as for a row whose policy is NULL. -/
theorem get_reports_no_error :
    (main cidr4 Flags.default (sampleWorld [])).stdout = [Printed.line "null".toList] ∧
      (main cidr4 Flags.default (sampleWorld [])).stdout =
        (main cidr4 Flags.default (sampleWorld [⟨1, DriverValue.null⟩])).stdout := by
  decide

/-- C7, as amended: for every run of `set` with a file that cannot be read or
decoded, no row changes and no query or update is sent, but the database is
contacted first, `OpenDB` running before the file is read. When the database
opens, its foreign-key pragma is executed and then the error is printed, the
run ending normally; when it does not open, the program panics inside
`OpenDB`, the file is never read and nothing is printed. -/
theorem set_with_bad_file {P : Type} (nc : PrefixCodec P) (w : World) (file : Text)
    (wt : Bool) (err : LoadError)
    (hload : (LoadConfig nc w.fs (GetFilePath w file) : Except LoadError (ACLPolicy P)) =
      Except.error err) :
    (main nc ⟨"set".toList, file, wt⟩ w).db = w.db ∧
      (w.db ≠ none →
        (main nc ⟨"set".toList, file, wt⟩ w).panicked = false ∧
        (main nc ⟨"set".toList, file, wt⟩ w).stdout = w.stdout ++ [Printed.error err] ∧
        (main nc ⟨"set".toList, file, wt⟩ w).dbLog = w.dbLog ++
          [DbOp.connect (GetFilePath w "db.sqlite".toList ++
              "?_synchronous=1&_journal_mode=WAL".toList),
            DbOp.exec "PRAGMA foreign_keys=ON"]) ∧
      (w.db = none →
        (main nc ⟨"set".toList, file, wt⟩ w).panicked = true ∧
        (main nc ⟨"set".toList, file, wt⟩ w).stdout = w.stdout ∧
        (main nc ⟨"set".toList, file, wt⟩ w).dbLog = w.dbLog ++
          [DbOp.connect (GetFilePath w "db.sqlite".toList ++
              "?_synchronous=1&_journal_mode=WAL".toList)]) := by
  have hne : ¬ ("set".toList = "get".toList) := by decide
  simp only [GetFilePath] at hload
  cases hdb : w.db with
  | none => simp [main, OpenDB, hdb]
  | some rows => simp [main, hne, OpenDB, GetFilePath, hload, hdb]

/-- C7 as amended, at a missing file: with a database that opens the error
is printed after the database was opened and the pragma executed, with one
that does not open the run panics and prints nothing; the rows stay as they
were. -/
theorem set_with_bad_file_witness :
    ((main cidr4 ⟨"set".toList, "missing.json".toList, false⟩
          (sampleWorld [⟨1, DriverValue.null⟩])).db = some [⟨1, DriverValue.null⟩] ∧
      (main cidr4 ⟨"set".toList, "missing.json".toList, false⟩
          (sampleWorld [⟨1, DriverValue.null⟩])).panicked = false ∧
      (main cidr4 ⟨"set".toList, "missing.json".toList, false⟩
          (sampleWorld [⟨1, DriverValue.null⟩])).stdout =
        [Printed.error (LoadError.openError "no such file or directory")] ∧
      (main cidr4 ⟨"set".toList, "missing.json".toList, false⟩
          (sampleWorld [⟨1, DriverValue.null⟩])).dbLog =
        [DbOp.connect "/app/db.sqlite?_synchronous=1&_journal_mode=WAL".toList,
          DbOp.exec "PRAGMA foreign_keys=ON"]) ∧
    ((main cidr4 ⟨"set".toList, "missing.json".toList, false⟩
          { sampleWorld [] with db := none }).db = none ∧
      (main cidr4 ⟨"set".toList, "missing.json".toList, false⟩
          { sampleWorld [] with db := none }).panicked = true ∧
      (main cidr4 ⟨"set".toList, "missing.json".toList, false⟩
          { sampleWorld [] with db := none }).stdout = [] ∧
      (main cidr4 ⟨"set".toList, "missing.json".toList, false⟩
          { sampleWorld [] with db := none }).dbLog =
        [DbOp.connect "/app/db.sqlite?_synchronous=1&_journal_mode=WAL".toList]) :=
  ⟨⟨(set_with_bad_file cidr4 (sampleWorld [⟨1, DriverValue.null⟩]) "missing.json".toList false
        (LoadError.openError "no such file or directory") (by rfl)).1,
      (set_with_bad_file cidr4 (sampleWorld [⟨1, DriverValue.null⟩]) "missing.json".toList false
        (LoadError.openError "no such file or directory") (by rfl)).2.1 (by decide)⟩,
    ⟨(set_with_bad_file cidr4 { sampleWorld [] with db := none } "missing.json".toList false
        (LoadError.openError "no such file or directory") (by rfl)).1,
      (set_with_bad_file cidr4 { sampleWorld [] with db := none } "missing.json".toList false
        (LoadError.openError "no such file or directory") (by rfl)).2.2 rfl⟩⟩

/-- C7, as stated, fails at a missing file and at a file that does not
decode: by the time `set` prints the error the database has been opened and a
statement executed on it. -/
theorem set_contacts_database :
    (main cidr4 ⟨"set".toList, "missing.json".toList, false⟩
          (sampleWorld [⟨1, DriverValue.null⟩])).stdout =
        [Printed.error (LoadError.openError "no such file or directory")] ∧
      (main cidr4 ⟨"set".toList, "missing.json".toList, false⟩
          (sampleWorld [⟨1, DriverValue.null⟩])).dbLog =
        [DbOp.connect "/app/db.sqlite?_synchronous=1&_journal_mode=WAL".toList,
          DbOp.exec "PRAGMA foreign_keys=ON"] ∧
      (main cidr4 ⟨"set".toList, "text.json".toList, false⟩
          (sampleWorld [⟨1, DriverValue.null⟩])).stdout =
        [Printed.error (LoadError.unmarshalFailed Err.invalidJson)] ∧
      (main cidr4 ⟨"set".toList, "text.json".toList, false⟩
          (sampleWorld [⟨1, DriverValue.null⟩])).dbLog =
        [DbOp.connect "/app/db.sqlite?_synchronous=1&_journal_mode=WAL".toList,
          DbOp.exec "PRAGMA foreign_keys=ON"] := by
  decide

theorem unmarshal_layout {P : Type} (nc : PrefixCodec P) (p : ACLPolicy P)
    (h : HostsStable nc p) :
    Unmarshal nc (indentTwoSpaces (Marshal nc p)) ACLPolicy.zero = (canon p, none) := by
  rw [← marshalIndent_layout]
  unfold Unmarshal MarshalIndent
  simp only
  rw [parse_encACLPolicy nc true p]
  simp only [decodePolicy_enc nc p h, firstErr]

/-- C10, as amended: when the policy column of the first row holds a text
that decodes to the policy `q`, `get` with `-w` prints the two-space layout of
the JSON `Value` gives for `q`, whatever the target path. When the target file
can be opened for writing it is left holding exactly that text, and decoding
the file gives back a policy deep-equal to `q`; when it cannot, the target path
is left as it was. The `netip` text codec is taken to read back what it wrote
for a prefix it has read. -/
theorem get_writes_printed_text {P : Type} (nc : PrefixCodec P) (hl : nc.Lawful) (w : World)
    (file : Text) (r : OrganizationRow) (rest : List OrganizationRow) (t : Text)
    (q : ACLPolicy P)
    (hdb : w.db = some (r :: rest))
    (hcol : r.AclPolicy = DriverValue.str t ∨ r.AclPolicy = DriverValue.bytes t)
    (hdec : Unmarshal nc t ACLPolicy.zero = (q, none)) :
    (main nc ⟨"get".toList, file, true⟩ w).stdout =
        w.stdout ++ [Printed.line (indentTwoSpaces (Marshal nc q))] ∧
      (w.fs.create (GetFilePath w file) = none →
        (main nc ⟨"get".toList, file, true⟩ w).fs.read (GetFilePath w file) =
          ReadOutcome.contents (indentTwoSpaces (Marshal nc q)) ∧
        ∃ q', LoadConfig nc (main nc ⟨"get".toList, file, true⟩ w).fs (GetFilePath w file) =
            Except.ok q' ∧ ACLPolicy.DeepEq q' q) ∧
      (w.fs.create (GetFilePath w file) ≠ none →
        (main nc ⟨"get".toList, file, true⟩ w).fs.read (GetFilePath w file) =
          w.fs.read (GetFilePath w file)) := by
  have hq : HostsStable nc q := by
    have := unmarshal_stable nc hl t ACLPolicy.zero (hostsStable_zero nc)
    rw [hdec] at this
    exact this
  have htake : (Take nc (r :: rest) : Organization P × Option DbError).1.AclPolicy = some q := by
    rcases hcol with h | h <;> simp [Take, h, ACLPolicy.Scan, hdec]
  refine ⟨?_, ?_, ?_⟩
  · rw [main_get nc w file true _ hdb, htake, marshalIndent_layout]
  · intro hcreate
    have hfile : (main nc ⟨"get".toList, file, true⟩ w).fs.read (GetFilePath w file) =
        ReadOutcome.contents (indentTwoSpaces (Marshal nc q)) := by
      simp only [GetFilePath] at hcreate
      simp [main, OpenDB, ReWriteFile, GetFilePath, hcreate, hdb, World.rows, htake,
        marshalIndent_layout]
    refine ⟨hfile, canon q, ?_, deepEq_canon q⟩
    unfold LoadConfig
    rw [hfile]
    simp only [unmarshal_layout nc q hq]
  · intro hcreate
    simp only [GetFilePath] at hcreate
    cases hc : w.fs.create (w.join w.GetAppDirectory file) with
    | none => exact absurd hc hcreate
    | some e => simp [main, OpenDB, ReWriteFile, GetFilePath, hc, hdb]

/-- C10 as amended, at a table of two rows whose first row holds the sample
file's text, the target `/app/out.json` being one that can be created. -/
theorem get_writes_printed_text_witness :
    ∃ q, Unmarshal cidr4 sampleFile ACLPolicy.zero = (q, none) ∧
      (main cidr4 ⟨"get".toList, "out.json".toList, true⟩
          (sampleWorld [⟨1, DriverValue.str sampleFile⟩, ⟨2, DriverValue.null⟩])).stdout =
        [Printed.line (indentTwoSpaces (Marshal cidr4 q))] ∧
      (main cidr4 ⟨"get".toList, "out.json".toList, true⟩
          (sampleWorld [⟨1, DriverValue.str sampleFile⟩, ⟨2, DriverValue.null⟩])).fs.read
          "/app/out.json".toList =
        ReadOutcome.contents (indentTwoSpaces (Marshal cidr4 q)) ∧
      ∃ q', LoadConfig cidr4
          (main cidr4 ⟨"get".toList, "out.json".toList, true⟩
            (sampleWorld [⟨1, DriverValue.str sampleFile⟩, ⟨2, DriverValue.null⟩])).fs
          "/app/out.json".toList = Except.ok q' ∧ ACLPolicy.DeepEq q' q :=
  ⟨(Unmarshal cidr4 sampleFile ACLPolicy.zero).1, by rfl,
    (get_writes_printed_text cidr4 cidr4_lawful
      (sampleWorld [⟨1, DriverValue.str sampleFile⟩, ⟨2, DriverValue.null⟩])
      "out.json".toList ⟨1, DriverValue.str sampleFile⟩ [⟨2, DriverValue.null⟩] sampleFile _
      rfl (Or.inl rfl) (by rfl)).1,
    (get_writes_printed_text cidr4 cidr4_lawful
      (sampleWorld [⟨1, DriverValue.str sampleFile⟩, ⟨2, DriverValue.null⟩])
      "out.json".toList ⟨1, DriverValue.str sampleFile⟩ [⟨2, DriverValue.null⟩] sampleFile _
      rfl (Or.inl rfl) (by rfl)).2.1 rfl⟩

set_option maxRecDepth 100000 in
/-- C10, as stated, fails at a target path in a directory that does not
exist: the file cannot be opened for writing, `get` prints the indented JSON of
the stored policy all the same and reports nothing, and afterwards there is no
file at the target path. -/
theorem get_write_fails_silently :
    sampleFs.create "/app/missing/out.json".toList = some "no such file or directory" ∧
      (main cidr4 ⟨"get".toList, "missing/out.json".toList, true⟩
          (sampleWorld [⟨1, DriverValue.str "\x7b\x7d".toList⟩])).stdout =
        [Printed.line
          "\x7b\n  \"groups\": null,\n  \"hosts\": null,\n  \"tagOwners\": null,\n  \"acls\": null,\n  \"tests\": null,\n  \"autoApprovers\": \x7b\n    \"routes\": null,\n    \"exitNode\": null\n  \x7d,\n  \"ssh\": null\n\x7d".toList] ∧
      (main cidr4 ⟨"get".toList, "missing/out.json".toList, true⟩
          (sampleWorld [⟨1, DriverValue.str "\x7b\x7d".toList⟩])).fs.read
          "/app/missing/out.json".toList =
        ReadOutcome.openError "no such file or directory" := by
  decide

end AclPolicy
